import Mathlib

/-!
# Three-point-bending data processor: a shallow embedding of `src/app.js`

The class `DataProcessor` of `src/app.js` is embedded as a record of its fields together
with one Lean function per method.

Modelling conventions (fixed here, used everywhere below):

* A JavaScript string is a `List Char`.  Every string operation the source uses
  (`replace`, `split`, `substring`, `trim`, `includes`) only looks at ASCII
  characters or at the white-space code points of ECMAScript, all of which lie in the
  basic multilingual plane, so working with code points instead of UTF-16 code units
  does not change any result.
* A JavaScript number is a `JSNum`: `NaN`, `-Infinity`, `+Infinity` or a finite value.
  Finite values are exact rationals: IEEE-754 rounding and overflow are not modelled,
  and the two zeros are identified (the source only ever divides by a difference or a
  count, which is never the negative zero).
* `null` and `undefined` are both `none`.
* A method that can raise a `TypeError` returns `Except JSError _`.
-/

namespace ThreePointBending

/-! ## JavaScript numbers -/

/-- A JavaScript number: not-a-number, the two infinities, or a finite (exact) value. -/
inductive JSNum where
  | nan
  | negInf
  | posInf
  | fin (q : ℚ)
  deriving DecidableEq

namespace JSNum

/-- The value `+Infinity * q` (also `q / 0` for the positive zero). -/
def infTimes (q : ℚ) : JSNum :=
  if 0 < q then posInf else if q < 0 then negInf else nan

/-- JavaScript `a + b`. -/
def add : JSNum → JSNum → JSNum
  | nan, _ => nan
  | negInf, nan => nan
  | negInf, posInf => nan
  | negInf, negInf => negInf
  | negInf, fin _ => negInf
  | posInf, nan => nan
  | posInf, negInf => nan
  | posInf, posInf => posInf
  | posInf, fin _ => posInf
  | fin _, nan => nan
  | fin _, negInf => negInf
  | fin _, posInf => posInf
  | fin a, fin b => fin (a + b)

/-- JavaScript `a - b`. -/
def sub : JSNum → JSNum → JSNum
  | nan, _ => nan
  | negInf, nan => nan
  | negInf, negInf => nan
  | negInf, posInf => negInf
  | negInf, fin _ => negInf
  | posInf, nan => nan
  | posInf, posInf => nan
  | posInf, negInf => posInf
  | posInf, fin _ => posInf
  | fin _, nan => nan
  | fin _, negInf => posInf
  | fin _, posInf => negInf
  | fin a, fin b => fin (a - b)

/-- JavaScript `a * b`. -/
def mul : JSNum → JSNum → JSNum
  | nan, _ => nan
  | negInf, nan => nan
  | negInf, negInf => posInf
  | negInf, posInf => negInf
  | negInf, fin b => infTimes (-b)
  | posInf, nan => nan
  | posInf, negInf => negInf
  | posInf, posInf => posInf
  | posInf, fin b => infTimes b
  | fin _, nan => nan
  | fin a, negInf => infTimes (-a)
  | fin a, posInf => infTimes a
  | fin a, fin b => fin (a * b)

/-- JavaScript `a / b` (a zero divisor is the positive zero). -/
def div : JSNum → JSNum → JSNum
  | nan, _ => nan
  | negInf, nan => nan
  | negInf, negInf => nan
  | negInf, posInf => nan
  | negInf, fin b => if b < 0 then posInf else negInf
  | posInf, nan => nan
  | posInf, negInf => nan
  | posInf, posInf => nan
  | posInf, fin b => if b < 0 then negInf else posInf
  | fin _, nan => nan
  | fin _, negInf => fin 0
  | fin _, posInf => fin 0
  | fin a, fin b => if b = 0 then infTimes a else fin (a / b)

/-- JavaScript `a < b`: false as soon as one side is `NaN`. -/
def lt : JSNum → JSNum → Bool
  | nan, _ => false
  | negInf, nan => false
  | negInf, negInf => false
  | negInf, posInf => true
  | negInf, fin _ => true
  | posInf, _ => false
  | fin _, nan => false
  | fin _, negInf => false
  | fin _, posInf => true
  | fin a, fin b => decide (a < b)

/-- JavaScript `a > b`. -/
def gt (a b : JSNum) : Bool := lt b a

/-- JavaScript `a <= b`: false as soon as one side is `NaN`. -/
def le : JSNum → JSNum → Bool
  | nan, _ => false
  | negInf, nan => false
  | negInf, negInf => true
  | negInf, posInf => true
  | negInf, fin _ => true
  | posInf, posInf => true
  | posInf, _ => false
  | fin _, nan => false
  | fin _, negInf => false
  | fin _, posInf => true
  | fin a, fin b => decide (a ≤ b)

/-- JavaScript `a >= b`. -/
def ge (a b : JSNum) : Bool := le b a

/-- JavaScript `Math.abs`. -/
def abs : JSNum → JSNum
  | nan => nan
  | negInf => posInf
  | posInf => posInf
  | fin a => fin |a|

/-- JavaScript `isNaN` on a number. -/
def isNaN : JSNum → Bool
  | nan => true
  | _ => false

/-- Arithmetic negation `-v`, the mathematical sign flip (used in statements only). -/
def neg : JSNum → JSNum
  | nan => nan
  | negInf => posInf
  | posInf => negInf
  | fin a => fin (-a)

/-- A number is finite when it is neither `NaN` nor an infinity. -/
def isFinite : JSNum → Bool
  | fin _ => true
  | _ => false

end JSNum

/-! ## JavaScript strings -/

/-- A JavaScript string, as its list of characters. -/
abbrev JSString := List Char

/-- The code points ECMAScript treats as white space or line terminator
(`String.prototype.trim`, and the leading blanks `parseFloat` skips). -/
def isWhiteSpace (c : Char) : Bool :=
  decide (c.toNat ∈ [9, 10, 11, 12, 13, 32, 160, 5760, 8192, 8193, 8194, 8195, 8196, 8197,
    8198, 8199, 8200, 8201, 8202, 8232, 8233, 8239, 8287, 12288, 65279])

/-- JavaScript `s.trim()`. -/
def trim (s : JSString) : JSString :=
  ((s.dropWhile isWhiteSpace).reverse.dropWhile isWhiteSpace).reverse

/-- Puts a character in front of the first piece of a split. -/
def consHead (c : Char) : List JSString → List JSString
  | [] => [[c]]
  | l :: ls => (c :: l) :: ls

/-- JavaScript `s.split(sep)` for a one-character separator: the empty string gives one
empty piece. -/
def splitOn (sep : Char) : JSString → List JSString
  | [] => [[]]
  | c :: rest => if c = sep then [] :: splitOn sep rest else consHead c (splitOn sep rest)

/-- JavaScript `text.replace(/\r\n/g, '\n')`. -/
def replaceCRLF : JSString → JSString
  | [] => []
  | [c] => [c]
  | c :: d :: rest =>
    if c = '\r' ∧ d = '\n' then '\n' :: replaceCRLF rest else c :: replaceCRLF (d :: rest)

/-- JavaScript `text.replace(/\r/g, '\n')`. -/
def replaceCR (s : JSString) : JSString :=
  s.map (fun c => if c = '\r' then '\n' else c)

/-- The literal marker of instrument metadata lines. -/
def axialCounts : JSString := "Axial Counts".toList

/-- The lines `processFile` keeps: line endings normalised, marker lines removed, five
header lines skipped, blank lines removed (source lines 57 to 60). -/
def ingestLines (text : JSString) : List JSString :=
  let lines := splitOn '\n' (replaceCR (replaceCRLF text))
  let lines := lines.filter (fun l => l.take 12 != axialCounts)
  (lines.drop 5).filter (fun l => trim l != [])

/-- Array `join` of JavaScript: the pieces with the separator between them. -/
def joinWith (sep : JSString) : List JSString → JSString
  | [] => []
  | [l] => l
  | l :: l2 :: ls => l ++ sep ++ joinWith sep (l2 :: ls)

/-! ## `parseFloat` -/

/-- A decimal digit. -/
def isDigit (c : Char) : Bool := decide (48 ≤ c.toNat ∧ c.toNat ≤ 57)

/-- The natural number written by a run of decimal digits. -/
def digitsValue (ds : List Char) : Nat :=
  ds.foldl (fun n c => 10 * n + (c.toNat - 48)) 0

/-- An optional leading sign: whether it is a minus, and what follows it. -/
def takeSign : JSString → Bool × JSString
  | [] => (false, [])
  | c :: r => if c = '-' then (true, r) else if c = '+' then (false, r) else (false, c :: r)

/-- The value `m * 10 ^ e` for an integer exponent. -/
def scale10 (m : ℚ) (e : Int) : ℚ :=
  match e with
  | Int.ofNat k => m * ((10 ^ k : Nat) : ℚ)
  | Int.negSucc k => m / ((10 ^ (k + 1) : Nat) : ℚ)

/-- The exponent part that follows the mantissa, if a well-formed one is there
(`e` or `E`, an optional sign, at least one digit); otherwise `0`. -/
def exponentPart : JSString → Int
  | [] => 0
  | c :: r =>
    if c = 'e' ∨ c = 'E' then
      let sr := takeSign r
      let ds := sr.2.takeWhile isDigit
      if ds = [] then 0
      else if sr.1 then - (digitsValue ds : Int) else (digitsValue ds : Int)
    else 0

/-- JavaScript `parseFloat(s)`: skip leading white space, read the longest prefix that is
a decimal literal (`Infinity` included), and give `NaN` when there is none. -/
def parseFloat (s : JSString) : JSNum :=
  let sr := takeSign (s.dropWhile isWhiteSpace)
  let u := sr.2
  if u.take 8 = "Infinity".toList then
    (if sr.1 then JSNum.negInf else JSNum.posInf)
  else
    let intDs := u.takeWhile isDigit
    let r1 := u.dropWhile isDigit
    let fracDs := match r1 with
      | [] => []
      | c :: r => if c = '.' then r.takeWhile isDigit else []
    let r2 := match r1 with
      | [] => []
      | c :: r => if c = '.' then r.dropWhile isDigit else c :: r
    if intDs = [] ∧ fracDs = [] then JSNum.nan
    else
      let v := scale10 (digitsValue (intDs ++ fracDs) : ℚ) (exponentPart r2 - fracDs.length)
      JSNum.fin (if sr.1 then -v else v)

/-! ## The data model -/

/-- The five recognised columns, in the order of `this.columns`. -/
inductive Column where
  | elapsedTime
  | scanTime
  | display1
  | load1
  | load2
  deriving DecidableEq

/-- Position of a column in `this.columns` (and of its value in a parsed row). -/
def Column.index : Column → Nat
  | .elapsedTime => 0
  | .scanTime => 1
  | .display1 => 2
  | .load1 => 3
  | .load2 => 4

/-- The field `this.columns`. -/
def columns : List Column :=
  [.elapsedTime, .scanTime, .display1, .load1, .load2]

/-- The object `originalDf`: one array per column name. -/
structure Dataset where
  elapsedTime : List JSNum
  scanTime : List JSNum
  display1 : List JSNum
  load1 : List JSNum
  load2 : List JSNum
  deriving DecidableEq

/-- Reading `originalDf[col]`. -/
def Dataset.get (d : Dataset) : Column → List JSNum
  | .elapsedTime => d.elapsedTime
  | .scanTime => d.scanTime
  | .display1 => d.display1
  | .load1 => d.load1
  | .load2 => d.load2

/-- Writing `originalDf[col] = v`. -/
def Dataset.set (d : Dataset) (c : Column) (v : List JSNum) : Dataset :=
  match c with
  | .elapsedTime => { d with elapsedTime := v }
  | .scanTime => { d with scanTime := v }
  | .display1 => { d with display1 := v }
  | .load1 => { d with load1 := v }
  | .load2 => { d with load2 := v }

/-- A point `[x, y]`. -/
abbrev Pt := JSNum × JSNum

/-- The exception a method can raise. -/
inductive JSError where
  | typeError
  deriving DecidableEq

/-- The fields of a `DataProcessor` object (`columns` is the constant above and
`dfForAreaCalc` is never written). -/
structure DataProcessor where
  rawData : Option (List JSString)
  fileName : Option JSString
  originalDf : Option Dataset
  linePoints : Option (Pt × Pt)
  maxSlope : Option JSNum
  originalSlopePointOne : Option Pt
  originalSlopePointTwo : Option Pt
  customSlope : Option JSNum
  customSlopePointOne : Option Pt
  customSlopePointTwo : Option Pt
  maxValue : Option JSNum
  maxX : Option JSNum
  areaUnderCurve : Option JSNum
  originalYieldDisplacement : Option JSNum
  originalYieldStrength : Option JSNum
  yieldDisplacement : Option JSNum
  yieldStrength : Option JSNum
  deriving DecidableEq

/-- The object the constructor builds: every field `null`. -/
def DataProcessor.fresh : DataProcessor :=
  { rawData := none, fileName := none, originalDf := none, linePoints := none,
    maxSlope := none, originalSlopePointOne := none, originalSlopePointTwo := none,
    customSlope := none, customSlopePointOne := none, customSlopePointTwo := none,
    maxValue := none, maxX := none, areaUnderCurve := none,
    originalYieldDisplacement := none, originalYieldStrength := none,
    yieldDisplacement := none, yieldStrength := none }

/-! ## `processFile` and `getPreferredLoadColumn` -/

/-- The method `processFile(text, fileName)`. -/
def processFile (st : DataProcessor) (text fileName : JSString) : DataProcessor :=
  { st with
    fileName := (splitOn '.' fileName).head?
    rawData := some (ingestLines text) }

/-- The delimiter chosen from the first retained line. -/
def detectDelimiter (first : JSString) : Char :=
  if ',' ∈ first then ',' else '\t'

/-- The tokens of a line that are kept:
`line.split(delimiter).filter(x => x.trim() !== '').slice(1, 6)`. -/
def keptTokens (delimiter : Char) (line : JSString) : List JSString :=
  ((((splitOn delimiter line).filter (fun x => trim x != [])).drop 1).take 5)

/-- The method `getPreferredLoadColumn()`. -/
def getPreferredLoadColumn (st : DataProcessor) : Column :=
  match st.rawData with
  | none => .load1
  | some [] => .load1
  | some (first :: _) =>
    let firstLine := keptTokens (detectDelimiter first) first
    if 5 ≤ firstLine.length then
      let load1First := parseFloat (firstLine.getD 3 [])
      let load2First := parseFloat (firstLine.getD 4 [])
      if load1First.lt (.fin 0) then .load1
      else if load2First.lt (.fin 0) then .load2
      else .load1
    else .load1

/-! ## `processData` -/

/-- One parsed row: `parts.map(v => parseFloat(v.trim()))`. -/
def parseRow (delimiter : Char) (line : JSString) : List JSNum :=
  (keptTokens delimiter line).map (fun v => parseFloat (trim v))

/-- The row filter `row.length === 5 && row.every(v => !isNaN(v))`. -/
def rowAccepted (row : List JSNum) : Bool :=
  decide (row.length = 5) && row.all (fun v => !v.isNaN)

/-- The array `cleanData` of `processData` (source lines 78 to 82), for a non-empty
`rawData`; the delimiter comes from its first line. -/
def parseRows (rawData : List JSString) : List (List JSNum) :=
  match rawData with
  | [] => []
  | first :: _ => (rawData.map (parseRow (detectDelimiter first))).filter rowAccepted

/-- The element `row[i]` of an accepted row (which has five entries). -/
def rowValue (row : List JSNum) (c : Column) : JSNum :=
  row.getD c.index .nan

/-- The object `data` (source lines 85 to 88): one array per column. -/
def buildColumns (cleanData : List (List JSNum)) : Dataset :=
  { elapsedTime := cleanData.map (fun row => rowValue row .elapsedTime)
    scanTime := cleanData.map (fun row => rowValue row .scanTime)
    display1 := cleanData.map (fun row => rowValue row .display1)
    load1 := cleanData.map (fun row => rowValue row .load1)
    load2 := cleanData.map (fun row => rowValue row .load2) }

/-- Source lines 92 and 93: negate the Y column, then the X column. -/
def negateColumns (d : Dataset) (xCol yCol : Column) : Dataset :=
  let d1 := d.set yCol ((d.get yCol).map (fun v => (JSNum.fin 0).sub v))
  d1.set xCol ((d1.get xCol).map (fun v => (JSNum.fin 0).sub v))

/-- Source lines 96 to 99: shift the X column when its first value exceeds `0.005`
(`undefined > 0.005` is false). -/
def shiftX (d : Dataset) (xCol : Column) : Dataset :=
  match (d.get xCol).head? with
  | none => d
  | some offset =>
    if offset.gt (.fin (5 / 1000)) then d.set xCol ((d.get xCol).map (fun v => v.sub offset))
    else d

/-- The `forEach` scan for the maximum, started at index `i` with the running
`maxIdx` and `maxVal`. -/
def findMaxAux : List JSNum → Nat → Nat → JSNum → Nat × JSNum
  | [], _, maxIdx, maxVal => (maxIdx, maxVal)
  | v :: vs, i, maxIdx, maxVal =>
    if v.gt maxVal then findMaxAux vs (i + 1) i v else findMaxAux vs (i + 1) maxIdx maxVal

/-- The pair `(maxIdx, maxVal)` of source lines 102 to 106 (and 124 to 128). -/
def findMax (ys : List JSNum) : Nat × JSNum :=
  findMaxAux ys 0 0 .negInf

/-- The test `y[i - 1] - y[i] > 1` of source line 110. -/
def dropExceeds (ys : List JSNum) (i : Nat) : Bool :=
  ((ys.getD (i - 1) .nan).sub (ys.getD i .nan)).gt (.fin 1)

/-- The index at which the loop of source lines 109 to 117 truncates: the first `i`
with `start <= i < ys.length` at which the drop exceeds `1`. -/
def findDrop (ys : List JSNum) (start : Nat) : Option Nat :=
  (List.range' start (ys.length - start)).find? (fun i => dropExceeds ys i)

/-- Every column cut to its first `i` entries. -/
def Dataset.truncate (d : Dataset) (i : Nat) : Dataset :=
  { elapsedTime := d.elapsedTime.take i
    scanTime := d.scanTime.take i
    display1 := d.display1.take i
    load1 := d.load1.take i
    load2 := d.load2.take i }

/-- Source lines 101 to 117: truncate all columns at the first large drop past the
maximum of the Y column. -/
def truncateAfterDrop (d : Dataset) (yCol : Column) : Dataset :=
  match findDrop (d.get yCol) ((findMax (d.get yCol)).1 + 1) with
  | none => d
  | some i => d.truncate i

/-- The dataset of source lines 85 to 99, before truncation. -/
def normalizeColumns (cleanData : List (List JSNum)) (xCol yCol : Column) : Dataset :=
  shiftX (negateColumns (buildColumns cleanData) xCol yCol) xCol

/-- The method `processData(xCol, yCol)`: `this.rawData[0]` raises a `TypeError` when
`rawData` is `null` or empty. -/
def processData (st : DataProcessor) (xCol yCol : Column) : Except JSError DataProcessor :=
  match st.rawData with
  | none => .error .typeError
  | some [] => .error .typeError
  | some (first :: rest) =>
    .ok { st with
      originalDf := some
        (truncateAfterDrop (normalizeColumns (parseRows (first :: rest)) xCol yCol) yCol) }

/-! ## `calculateMaxSlope` -/

/-- The comparator `(a, b) => a.x - b.x`. -/
def cmpX (a b : Pt) : JSNum := a.1.sub b.1

/-- Insertion of a point after every point it does not precede. -/
def insertByX (p : Pt) : List Pt → List Pt
  | [] => [p]
  | q :: qs => if (cmpX p q).lt (.fin 0) then p :: q :: qs else q :: insertByX p qs

/-- The call `sort((a, b) => a.x - b.x)`, as a stable insertion sort (the order a
JavaScript engine produces whenever the comparator is a consistent order). -/
def sortByX (ps : List Pt) : List Pt :=
  ps.foldl (fun acc p => insertByX p acc) []

/-- Source lines 175 to 180: the samples with `0.01 < x < 0.1`, each with the Y sample
of the same index (the two columns of a dataset have the same length). -/
def windowPoints (xArr yArr : List JSNum) : List Pt :=
  (xArr.zip yArr).filter (fun p => p.1.gt (.fin (1 / 100)) && p.1.lt (.fin (1 / 10)))

/-- The four sub-ranges of source lines 183 to 188. -/
def ranges : List (ℚ × ℚ) :=
  [(1 / 100, 325 / 10000), (325 / 10000, 55 / 1000), (55 / 1000, 775 / 10000),
    (775 / 10000, 1 / 10)]

/-- The points of a sub-range: `filtered.filter(p => p.x >= start && p.x <= end)`. -/
def segmentOf (filtered : List Pt) (r : ℚ × ℚ) : List Pt :=
  filtered.filter (fun p => p.1.ge (.fin r.1) && p.1.le (.fin r.2))

/-- The slope computed for one segment (source lines 196 to 204). -/
def regressionSlope (segment : List Pt) : JSNum :=
  let n := JSNum.fin (segment.length : ℚ)
  let sumX := segment.foldl (fun (a : JSNum) p => a.add p.1) (.fin 0)
  let sumY := segment.foldl (fun (a : JSNum) p => a.add p.2) (.fin 0)
  let sumXY := segment.foldl (fun (a : JSNum) p => a.add (p.1.mul p.2)) (.fin 0)
  let sumXX := segment.foldl (fun (a : JSNum) p => a.add (p.1.mul p.1)) (.fin 0)
  ((n.mul sumXY).sub (sumX.mul sumY)).div ((n.mul sumXX).sub (sumX.mul sumX))

/-- One turn of the loop over the sub-ranges (source lines 192 to 206). -/
def stepMaxSlope (filtered : List Pt) (maxSlope : JSNum) (r : ℚ × ℚ) : JSNum :=
  let segment := segmentOf filtered r
  if segment.length < 2 then maxSlope
  else if (regressionSlope segment).gt maxSlope then regressionSlope segment else maxSlope

/-- The local `maxSlope` after the loop over the sub-ranges. -/
def segmentedMaxSlope (filtered : List Pt) : JSNum :=
  ranges.foldl (stepMaxSlope filtered) .negInf

/-- The array `onLine` for a candidate offset (source line 220). -/
def onLineFlags (allPoints : List Pt) (maxSlope offset : JSNum) : List Bool :=
  allPoints.map (fun p => ((p.2.sub ((maxSlope.mul p.1).add offset)).abs).lt (.fin (5 / 100)))

/-- The triple `(bestOffset, maxPointsCount, pointsOnBestLine)` of step 2. -/
abbrev BestLine := Option JSNum × Nat × Option (List Bool)

/-- One turn of the loop over the candidate points (source lines 218 to 227). -/
def stepBestLine (allPoints : List Pt) (maxSlope : JSNum) (acc : BestLine) (point : Pt) :
    BestLine :=
  let offset := point.2.sub (maxSlope.mul point.1)
  let onLine := onLineFlags allPoints maxSlope offset
  let count := (onLine.filter id).length
  if acc.2.1 < count then (some offset, count, some onLine) else acc

/-- Step 2 of `calculateMaxSlope`. -/
def bestLine (allPoints : List Pt) (maxSlope : JSNum) : BestLine :=
  allPoints.foldl (stepBestLine allPoints maxSlope) (none, 0, none)

/-- The inliers `allPoints.filter((_, i) => pointsOnBestLine[i])`. -/
def selectFlagged (allPoints : List Pt) (flags : List Bool) : List Pt :=
  ((allPoints.zip flags).filter (fun pf => pf.2)).map (fun pf => pf.1)

/-- One turn of the loop of source lines 233 to 236 on `(minXIdx, maxXIdx)`. -/
def stepExtremes (linePoints : List Pt) (acc : Nat × Nat) (i : Nat) : Nat × Nat :=
  let xi := (linePoints.getD i (.nan, .nan)).1
  (if xi.lt (linePoints.getD acc.1 (.nan, .nan)).1 then i else acc.1,
   if xi.gt (linePoints.getD acc.2 (.nan, .nan)).1 then i else acc.2)

/-- The pair `(minXIdx, maxXIdx)` after the loop of source lines 232 to 236. -/
def extremeIdx (linePoints : List Pt) : Nat × Nat :=
  (List.range' 1 (linePoints.length - 1)).foldl (stepExtremes linePoints) (0, 0)

/-- The method `calculateMaxSlope(xCol, yCol)`.  It returns early, leaving every
field as it was, when no sub-range gave a slope. -/
def calculateMaxSlope (st : DataProcessor) (xCol yCol : Column) :
    Except JSError DataProcessor :=
  match st.originalDf with
  | none => .error .typeError
  | some df =>
    let filtered := sortByX (windowPoints (df.get xCol) (df.get yCol))
    let maxSlope := segmentedMaxSlope filtered
    if maxSlope = .negInf then .ok st
    else
      match (bestLine filtered maxSlope).2.2 with
      | none => .ok { st with maxSlope := some maxSlope }
      | some flags =>
        let linePoints := selectFlagged filtered flags
        match linePoints[(extremeIdx linePoints).1]?, linePoints[(extremeIdx linePoints).2]? with
        | some p1, some p2 =>
          let bestOffset := p1.2.sub (maxSlope.mul p1.1)
          let xRange := p2.1.sub p1.1
          let x1Ext := p1.1.sub (xRange.mul (.fin (1 / 2)))
          let x2Ext := p2.1.add (xRange.mul (.fin (1 / 2)))
          .ok { st with
            maxSlope := some maxSlope
            originalSlopePointOne := some p1
            originalSlopePointTwo := some p2
            linePoints := some ((x1Ext, (maxSlope.mul x1Ext).add bestOffset),
              (x2Ext, (maxSlope.mul x2Ext).add bestOffset)) }
        | _, _ => .error .typeError

/-! ## `calculateAreaUnderCurve` -/

/-- The string `x.toFixed(10)`, up to a bijection of the strings it can produce:
`"NaN"`, `"Infinity"`, `"-Infinity"`, the shortest decimal of a value of magnitude at
least `10^21`, or a sign and the magnitude rounded half up to ten decimals. -/
inductive FixedKey where
  | nan
  | posInf
  | negInf
  | big (q : ℚ)
  | dec (negative : Bool) (n : Int)
  deriving DecidableEq

/-- The key `x.toFixed(10)`. -/
def toFixed10 : JSNum → FixedKey
  | .nan => .nan
  | .posInf => .posInf
  | .negInf => .negInf
  | .fin q =>
    if (10 : ℚ) ^ 21 ≤ |q| then .big q
    else .dec (decide (q < 0)) (Rat.floor (|q| * 10 ^ 10 + 1 / 2))

/-- One group of equal keys: the key, the X value of its first sample, and its Y
samples in order. -/
abbrev Group := FixedKey × JSNum × List JSNum

/-- One turn of the grouping loop (source lines 154 to 158); groups stay in insertion
order, the order `Object.values` enumerates these keys in. -/
def addToGroups (key : FixedKey) (x y : JSNum) : List Group → List Group
  | [] => [(key, x, [y])]
  | g :: gs =>
    if g.1 = key then (g.1, g.2.1, g.2.2 ++ [y]) :: gs else g :: addToGroups key x y gs

/-- The object `groups` after the grouping loop. -/
def groupByX (xArr yArr : List JSNum) : List Group :=
  (xArr.zip yArr).foldl (fun groups p => addToGroups (toFixed10 p.1) p.1 p.2 groups) []

/-- The mean `g.ys.reduce((a, b) => a + b, 0) / g.ys.length`. -/
def meanY (ys : List JSNum) : JSNum :=
  (ys.foldl (fun (a : JSNum) b => a.add b) (.fin 0)).div (.fin (ys.length : ℚ))

/-- The trapezoidal loop of source lines 164 to 167, started with `area`. -/
def trapezoidFrom : List Pt → JSNum → JSNum
  | [], area => area
  | [_], area => area
  | a :: b :: rest, area =>
    trapezoidFrom (b :: rest) (area.add (((b.1.sub a.1).mul (b.2.add a.2)).div (.fin 2)))

/-- The array `sorted` of source lines 159 to 161. -/
def sortedGroups (xArr yArr : List JSNum) : List Pt :=
  sortByX ((groupByX xArr yArr).map (fun g => (g.2.1, meanY g.2.2)))

/-- The method `calculateAreaUnderCurve(xCol, yCol)`. -/
def calculateAreaUnderCurve (st : DataProcessor) (xCol yCol : Column) :
    Except JSError DataProcessor :=
  match st.originalDf with
  | none => .error .typeError
  | some df =>
    .ok { st with
      areaUnderCurve :=
        some (trapezoidFrom (sortedGroups (df.get xCol) (df.get yCol)) (.fin 0)) }

/-! ## `setColumns` and the interactive state -/

/-- The `forEach` scan for the minimum (source lines 138 to 142), started at index `i`
with the running `minXIdx` and `minXVal`. -/
def findMinAux : List JSNum → Nat → Nat → JSNum → Nat × JSNum
  | [], _, minIdx, minVal => (minIdx, minVal)
  | v :: vs, i, minIdx, minVal =>
    if v.lt minVal then findMinAux vs (i + 1) i v else findMinAux vs (i + 1) minIdx minVal

/-- The pair `(minXIdx, minXVal)` of source lines 138 to 142. -/
def findMin (xs : List JSNum) : Nat × JSNum :=
  findMinAux xs 0 0 .posInf

/-- The method `setColumns(xCol, yCol)`.  Spreading `originalSlopePointOne` or
`originalSlopePointTwo` raises a `TypeError` when it is `null`. -/
def setColumns (st : DataProcessor) (xCol yCol : Column) : Except JSError DataProcessor :=
  match processData st xCol yCol with
  | .error e => .error e
  | .ok s1 =>
    match s1.originalDf with
    | none => .error .typeError
    | some df =>
      match calculateMaxSlope s1 xCol yCol with
      | .error e => .error e
      | .ok s2 =>
        match s2.originalSlopePointOne, s2.originalSlopePointTwo with
        | some p1, some p2 =>
          calculateAreaUnderCurve
            { s2 with
              customSlope := s2.maxSlope
              customSlopePointOne := some p1
              customSlopePointTwo := some p2
              maxValue := some (findMax (df.get yCol)).2
              maxX := (df.get xCol)[(findMax (df.get yCol)).1]?
              originalYieldDisplacement := (df.get xCol)[(findMin (df.get xCol)).1]?
              originalYieldStrength := (df.get yCol)[(findMin (df.get xCol)).1]?
              yieldDisplacement := (df.get xCol)[(findMin (df.get xCol)).1]?
              yieldStrength := (df.get yCol)[(findMin (df.get xCol)).1]? }
            xCol yCol
        | _, _ => .error .typeError

/-- The method `resetData()`. -/
def resetData (st : DataProcessor) : Except JSError DataProcessor :=
  match st.originalSlopePointOne, st.originalSlopePointTwo with
  | some p1, some p2 =>
    .ok { st with
      customSlope := st.maxSlope
      customSlopePointOne := some p1
      customSlopePointTwo := some p2
      yieldDisplacement := st.originalYieldDisplacement
      yieldStrength := st.originalYieldStrength }
  | _, _ => .error .typeError

/-- The method `setYieldPoint(x, y)`. -/
def setYieldPoint (st : DataProcessor) (x y : JSNum) : DataProcessor :=
  { st with yieldDisplacement := some x, yieldStrength := some y }

/-- The method `setCustomSlopePointOne(x, y)`. -/
def setCustomSlopePointOne (st : DataProcessor) (x y : JSNum) : DataProcessor :=
  { st with customSlopePointOne := some (x, y) }

/-- The method `setCustomSlopePointTwo(x, y)`. -/
def setCustomSlopePointTwo (st : DataProcessor) (x y : JSNum) : DataProcessor :=
  { st with customSlopePointTwo := some (x, y) }

/-- The method `calculateCustomSlope()`. -/
def calculateCustomSlope (st : DataProcessor) : Except JSError DataProcessor :=
  match st.customSlopePointOne, st.customSlopePointTwo with
  | some p1, some p2 =>
    .ok { st with customSlope := some ((p2.2.sub p1.2).div (p2.1.sub p1.1)) }
  | _, _ => .error .typeError

/-! ## Specification-side definitions -/

/-- The lines of a text, split at `\r\n`, `\r` or `\n` (the wording of the
specification, independent of the two `replace` calls of the source). -/
def splitLines : JSString → List JSString
  | [] => [[]]
  | [c] => if c = '\r' ∨ c = '\n' then [[], []] else [[c]]
  | c :: d :: rest =>
    if c = '\r' ∧ d = '\n' then [] :: splitLines rest
    else if c = '\r' ∨ c = '\n' then [] :: splitLines (d :: rest)
    else consHead c (splitLines (d :: rest))

/-- A line is blank when it is empty or made of white space only. -/
def isBlank (l : JSString) : Bool := l.all isWhiteSpace

/-- What the specification keeps of a list of lines: no marker line, not the first five
of the others, no blank line. -/
def keepLines (lines : List JSString) : List JSString :=
  ((lines.filter (fun l => l.take 12 != axialCounts)).drop 5).filter (fun l => !isBlank l)

/-- A list of lines: no entry contains a line terminator. -/
def CleanLines (lines : List JSString) : Prop :=
  ∀ l ∈ lines, '\r' ∉ l ∧ '\n' ∉ l


/-- The acceptance test of a line, on its tokens: exactly five tokens are kept (after
splitting, dropping empty tokens and the first token), and none of them parses to `NaN`. -/
def lineAccepted (delimiter : Char) (line : JSString) : Bool :=
  decide ((keptTokens delimiter line).length = 5) &&
    (keptTokens delimiter line).all (fun t => !(parseFloat (trim t)).isNaN)

/-- The value a line contributes to a column: its kept token of that position, parsed. -/
def lineValue (delimiter : Char) (line : JSString) (c : Column) : JSNum :=
  parseFloat (trim ((keptTokens delimiter line).getD c.index []))

/-- Five header lines, as every instrument file starts with. -/
def header : JSString := "h1\nh2\nh3\nh4\nh5\n".toList

/-- The sign changes `processData` applies to a value of column `c`: one `0 - v` when
`c` is the Y column, and one more when `c` is the X column. -/
def negatedValue (xCol yCol c : Column) (v : JSNum) : JSNum :=
  let v1 := if c = yCol then (JSNum.fin 0).sub v else v
  if c = xCol then (JSNum.fin 0).sub v1 else v1

/-- The offset subtracted from the X column: the first X value after the sign changes,
when it exceeds `0.005`. -/
def xOffset (rows : List (List JSNum)) (xCol yCol : Column) : Option JSNum :=
  match rows with
  | [] => none
  | row :: _ =>
    if (negatedValue xCol yCol xCol (rowValue row xCol)).gt (.fin (5 / 1000)) then
      some (negatedValue xCol yCol xCol (rowValue row xCol))
    else none

/-- The value stored in column `c` for a raw parsed value `v` of that column. -/
def normalizedValue (rows : List (List JSNum)) (xCol yCol c : Column) (v : JSNum) : JSNum :=
  match (if c = xCol then xOffset rows xCol yCol else none) with
  | some o => (negatedValue xCol yCol c v).sub o
  | none => negatedValue xCol yCol c v

/-- The number of samples `processData` retains in every column. -/
def retainedLength (d : Dataset) (yCol : Column) : Nat :=
  match findDrop (d.get yCol) ((findMax (d.get yCol)).1 + 1) with
  | none => (d.get yCol).length
  | some i => i

/-- First data line of the sample file: index, two times, displacement, two loads. -/
def sampleFirst : JSString := "1\t0\t0\t-0.001\t0\t5".toList

/-- The other data lines of the sample file: the load rises to a peak of `2` and then
falls by `2` between the last two lines. -/
def sampleRest : List JSString :=
  ["2\t0\t0\t-0.02\t-1\t5".toList, "3\t0\t0\t-0.03\t-2\t5".toList,
    "4\t0\t0\t-0.04\t0\t5".toList]

/-- A processor that has read the sample file (five header lines, then the data lines,
separated by `\n`). -/
def sampleProcessor : DataProcessor :=
  processFile DataProcessor.fresh
    (header ++ joinWith ['\n'] (sampleFirst :: sampleRest)) "sample.csv".toList

/-- First data line of a comma-separated file whose displacement starts at `-0.5`. -/
def shiftedFirst : JSString := "a,0,0,-0.5,0,0".toList

/-- Second data line of that file. -/
def shiftedRest : List JSString := ["b,0,0,-0.75,-1,0".toList]

/-- A processor that has read that file. -/
def shiftedProcessor : DataProcessor :=
  processFile DataProcessor.fresh
    (header ++ joinWith ['\n'] (shiftedFirst :: shiftedRest)) "shifted.csv".toList

/-- The value `m` is the maximum of `ys` and `i` is the first index where it occurs. -/
def IsFirstMaxAt (ys : List JSNum) (i : Nat) (m : JSNum) : Prop :=
  ys[i]? = some m ∧ (∀ v ∈ ys, v.gt m = false) ∧ ∀ j, j < i → ys[j]? ≠ some m

/-- The rational value of a finite number (and `0` for the others). -/
def JSNum.toRat : JSNum → ℚ
  | .fin q => q
  | _ => 0

/-- The ordinary least-squares slope of a list of samples,
`(n*Sum(xy) - Sum(x)*Sum(y)) / (n*Sum(x^2) - Sum(x)^2)`, over the rationals. -/
def olsSlope (seg : List Pt) : ℚ :=
  ((seg.length : ℚ) * (seg.map (fun p => p.1.toRat * p.2.toRat)).sum
      - (seg.map (fun p => p.1.toRat)).sum * (seg.map (fun p => p.2.toRat)).sum)
    / ((seg.length : ℚ) * (seg.map (fun p => p.1.toRat * p.1.toRat)).sum
      - (seg.map (fun p => p.1.toRat)).sum * (seg.map (fun p => p.1.toRat)).sum)

/-- Both coordinates of every point are finite. -/
def AllFinite (seg : List Pt) : Prop :=
  ∀ p ∈ seg, p.1.isFinite = true ∧ p.2.isFinite = true

/-- The samples of a dataset with X strictly between `0.01` and `0.1` that lie in the
closed range `r`, in dataset order. -/
def rangeSamples (df : Dataset) (xCol yCol : Column) (r : ℚ × ℚ) : List Pt :=
  segmentOf (windowPoints (df.get xCol) (df.get yCol)) r

/-- The dataset `processData` builds from the sample file for X `Display 1` and Y
`Load 1`. -/
def sampleDataset : Dataset :=
  truncateAfterDrop
    (normalizeColumns (parseRows (sampleFirst :: sampleRest)) Column.display1 Column.load1)
    Column.load1

/-- The sample processor after `processData('Display 1', 'Load 1')`. -/
def sampleProcessed : DataProcessor :=
  { sampleProcessor with originalDf := some sampleDataset }

/-- The outcome of `processFile` and `processData('Display 1', 'Load 1')` on a file whose
third data line carries the load `-Infinity`. -/
def infiniteLoadProcessed : Except JSError DataProcessor :=
  processData
    (processFile DataProcessor.fresh
      (header ++ "1\t0\t0\t-0.001\t0\t5\n2\t0\t0\t-0.02\t-1\t5\n3\t0\t0\t-0.03\t-Infinity\t5".toList)
      "inf.csv".toList)
    Column.display1 Column.load1

/-- One interactive call on the processor: `setYieldPoint(x, y)`,
`setCustomSlopePointOne(x, y)`, `setCustomSlopePointTwo(x, y)` or
`calculateCustomSlope()`. -/
inductive PointEdit where
  | yieldPoint (x y : JSNum)
  | pointOne (x y : JSNum)
  | pointTwo (x y : JSNum)
  | customSlope

/-- The effect of one interactive call. -/
def applyEdit (st : DataProcessor) : PointEdit → Except JSError DataProcessor
  | .yieldPoint x y => .ok (setYieldPoint st x y)
  | .pointOne x y => .ok (setCustomSlopePointOne st x y)
  | .pointTwo x y => .ok (setCustomSlopePointTwo st x y)
  | .customSlope => calculateCustomSlope st

/-- The effect of a finite sequence of interactive calls, stopping at the first one that
raises. -/
def applyEdits (st : DataProcessor) : List PointEdit → Except JSError DataProcessor
  | [] => .ok st
  | e :: es =>
    match applyEdit st e with
    | .error err => .error err
    | .ok s => applyEdits s es

/-- The value `m` is a minimum of `xs` (no sample is less than it) and `i` is the first
index where it occurs. -/
def IsFirstMinAt (xs : List JSNum) (i : Nat) (m : JSNum) : Prop :=
  xs[i]? = some m ∧ (∀ v ∈ xs, v.lt m = false) ∧ ∀ j, j < i → xs[j]? ≠ some m

/-- The sample processor after `processData('Elapsed Time', 'Load 1')`, with no earlier
column selection: every slope field is still `null`. -/
def freshSelection : Except JSError DataProcessor :=
  processData sampleProcessor Column.elapsedTime Column.load1

/-- The sample processor after `setColumns('Display 1', 'Load 1')` and then
`processData('Elapsed Time', 'Load 1')`: the slope fields hold the results of the first
selection. -/
def secondSelection : Except JSError DataProcessor :=
  match setColumns sampleProcessor Column.display1 Column.load1 with
  | .error e => .error e
  | .ok s => processData s Column.elapsedTime Column.load1

/-- The record of the four fields `calculateMaxSlope` writes. -/
structure SlopeResult where
  maxSlope : Option JSNum
  pointOne : Option Pt
  pointTwo : Option Pt
  linePoints : Option (Pt × Pt)
  deriving DecidableEq

/-- The slope result a processor holds: `maxSlope`, `originalSlopePointOne`,
`originalSlopePointTwo` and `linePoints`. -/
def slopeFields (s : DataProcessor) : SlopeResult :=
  { maxSlope := s.maxSlope
    pointOne := s.originalSlopePointOne
    pointTwo := s.originalSlopePointTwo
    linePoints := s.linePoints }

/-- The offset of the line of slope `m` through the point `q`: `q.y - m * q.x`. -/
def candidateOffset (m : JSNum) (q : Pt) : JSNum :=
  q.2.sub (m.mul q.1)

/-- A point is an inlier of the line `y = m * x + b` when its absolute residual
`|p.y - (m * p.x + b)|` is below `0.05`. -/
def isInlier (m b : JSNum) (p : Pt) : Bool :=
  ((p.2.sub ((m.mul p.1).add b)).abs).lt (.fin (5 / 100))

/-- The number of points of `P` that are inliers of the candidate line of slope `m`
through `q`. -/
def inlierCount (P : List Pt) (m : JSNum) (q : Pt) : Nat :=
  (P.filter (isInlier m (candidateOffset m q))).length

/-- The point `p` has the least X of `pts` and `i` is the first index with that X. -/
def IsFirstMinXAt (pts : List Pt) (i : Nat) (p : Pt) : Prop :=
  pts[i]? = some p ∧ (∀ q ∈ pts, q.1.lt p.1 = false) ∧
    ∀ (j : Nat) (q : Pt), j < i → pts[j]? = some q → q.1 ≠ p.1

/-- The point `p` has the greatest X of `pts` and `i` is the first index with that X. -/
def IsFirstMaxXAt (pts : List Pt) (i : Nat) (p : Pt) : Prop :=
  pts[i]? = some p ∧ (∀ q ∈ pts, q.1.gt p.1 = false) ∧
    ∀ (j : Nat) (q : Pt), j < i → pts[j]? = some q → q.1 ≠ p.1

/-- The X of the point of index `j` as the loop of source lines 233 to 236 reads it. -/
def xAt (lp : List Pt) (j : Nat) : JSNum :=
  (lp.getD j (.nan, .nan)).1

/-- The state `(minXIdx, maxXIdx)` of the loop of source lines 233 to 236 before it
examines index `t`: both indices are below `t`, no earlier X is less than the X of the
first, every X before the first is greater, and likewise for the second. -/
def ExtremesUpTo (lp : List Pt) (t : Nat) (acc : Nat × Nat) : Prop :=
  acc.1 < t ∧ acc.2 < t ∧
    (∀ j, j < t → (xAt lp j).lt (xAt lp acc.1) = false) ∧
    (∀ j, j < acc.1 → (xAt lp acc.1).lt (xAt lp j) = true) ∧
    (∀ j, j < t → (xAt lp acc.2).lt (xAt lp j) = false) ∧
    (∀ j, j < acc.2 → (xAt lp j).lt (xAt lp acc.2) = true)

/-- The windowed points of the sample dataset in ascending X order: `(0.02, 1)` and
`(0.03, 2)`. -/
def samplePoints : List Pt :=
  sortByX (windowPoints (sampleDataset.get Column.display1) (sampleDataset.get Column.load1))

/-- The Y samples of the samples whose X has the key `k`, in dataset order. -/
def groupYs (samples : List Pt) (k : FixedKey) : List JSNum :=
  (samples.filter (fun p => decide (toFixed10 p.1 = k))).map (fun p => p.2)

/-- The X of the first sample whose X has the key `k`. -/
def groupX (samples : List Pt) (k : FixedKey) : Option JSNum :=
  ((samples.filter (fun p => decide (toFixed10 p.1 = k))).head?).map (fun p => p.1)

/-- The list `G` groups the samples by the key of their X at ten decimals: its keys are
distinct, every sample's key is one of them, and the group of a key holds the Y samples
of exactly the samples with that key, in order, with the X of the first of them. -/
def IsGrouping (G : List Group) (samples : List Pt) : Prop :=
  (G.map (fun g => g.1)).Nodup ∧
    (∀ p ∈ samples, toFixed10 p.1 ∈ G.map (fun g => g.1)) ∧
    ∀ g ∈ G, g.2.2 = groupYs samples g.1 ∧ groupX samples g.1 = some g.2.1

/-- The trapezoidal sum over consecutive points in JavaScript arithmetic, from left to
right: `(x[i] - x[i-1]) * (y[i] + y[i-1]) / 2` added for `i = 1, 2, ...`. -/
def trapezoidPairs (pts : List Pt) : JSNum :=
  (pts.zip pts.tail).foldl
    (fun (area : JSNum) ab =>
      area.add (((ab.2.1.sub ab.1.1).mul (ab.2.2.add ab.1.2)).div (.fin 2)))
    (.fin 0)

/-- The trapezoidal sum `Sum over i >= 1 of (x[i] - x[i-1]) * (y[i] + y[i-1]) / 2` of
finite points, over the rationals. -/
def trapezoidSum (pts : List Pt) : ℚ :=
  ((pts.zip pts.tail).map
    (fun ab => (ab.2.1.toRat - ab.1.1.toRat) * (ab.2.2.toRat + ab.1.2.toRat) / 2)).sum

/-- The arithmetic mean of finite samples, over the rationals. -/
def meanQ (ys : List JSNum) : ℚ :=
  (ys.map (fun v => v.toRat)).sum / (ys.length : ℚ)

/-- A processor holding the curve `(0,0), (1,2), (2,0)` in `Display 1` and `Load 1`. -/
def exampleCurve : DataProcessor :=
  { DataProcessor.fresh with
    originalDf := some
      { elapsedTime := [], scanTime := []
        display1 := [JSNum.fin 0, JSNum.fin 1, JSNum.fin 2]
        load1 := [JSNum.fin 0, JSNum.fin 2, JSNum.fin 0]
        load2 := [] } }

/-! # Theorems -/

/-! ## Ingestion (`processFile`) -/

theorem dropWhile_eq_nil_of_all {α : Type} (p : α → Bool) (l : List α) :
    l.dropWhile p = [] ↔ l.all p = true := by
  induction l with
  | nil => simp
  | cons a t ih =>
    by_cases h : p a = true
    · simp [List.dropWhile_cons, h, ih]
    · simp [List.dropWhile_cons, h]

theorem trim_eq_nil_iff (l : JSString) : trim l = [] ↔ isBlank l = true := by
  unfold trim isBlank
  rw [List.reverse_eq_nil_iff]
  constructor
  · intro h
    by_contra hb
    have h1 : l.dropWhile isWhiteSpace ≠ [] := by
      intro h2
      exact hb ((dropWhile_eq_nil_of_all _ _).1 h2)
    obtain ⟨a, t, hat⟩ := List.exists_cons_of_ne_nil h1
    have ha : isWhiteSpace a = false := by
      have := List.head_dropWhile_not isWhiteSpace l h1
      simpa [hat] using this
    have h3 := (dropWhile_eq_nil_of_all _ _).1 h
    rw [hat] at h3
    simp [ha] at h3
  · intro h
    rw [(dropWhile_eq_nil_of_all _ _).2 h]
    rfl

theorem splitOn_normalise (text : JSString) :
    splitOn '\n' (replaceCR (replaceCRLF text)) = splitLines text := by
  induction text using replaceCRLF.induct with
  | case1 => rfl
  | case2 c =>
    by_cases h1 : c = '\r'
    · subst h1; decide
    · by_cases h2 : c = '\n'
      · subst h2; decide
      · simp [replaceCRLF, replaceCR, splitOn, splitLines, h1, h2, consHead]
  | case3 c d rest h ih =>
    obtain ⟨hc, hd⟩ := h
    subst hc; subst hd
    simp only [replaceCRLF, splitLines, and_self, if_true]
    simp only [replaceCR, List.map_cons] at ih ⊢
    simp [splitOn, ih]
  | case4 c d rest h ih =>
    simp only [replaceCRLF, splitLines, h, if_false]
    simp only [replaceCR, List.map_cons] at ih ⊢
    by_cases h1 : c = '\r'
    · subst h1
      simp [splitOn, ih]
    · by_cases h2 : c = '\n'
      · subst h2
        simp [splitOn, ih]
      · simp [splitOn, ih, h1, h2]

theorem ingestLines_eq_keepLines (text : JSString) :
    ingestLines text = keepLines (splitLines text) := by
  unfold ingestLines keepLines
  simp only [splitOn_normalise]
  congr 1
  funext l
  have := trim_eq_nil_iff l
  by_cases hb : isBlank l = true
  · simp [hb, this.2 hb]
  · have h2 : trim l ≠ [] := fun h => hb (this.1 h)
    simp [hb, h2]

theorem replaceCRLF_cons_of_ne (c : Char) (s : JSString) (h : c ≠ '\r') :
    replaceCRLF (c :: s) = c :: replaceCRLF s := by
  cases s with
  | nil => simp [replaceCRLF]
  | cons d t => simp [replaceCRLF, h]

theorem replaceCRLF_append_of_clean (l t : JSString) (h : '\r' ∉ l) :
    replaceCRLF (l ++ t) = l ++ replaceCRLF t := by
  induction l with
  | nil => rfl
  | cons c l ih =>
    have hc : c ≠ '\r' := fun e => h (by simp [e])
    have hl : '\r' ∉ l := fun e => h (by simp [e])
    rw [List.cons_append, replaceCRLF_cons_of_ne _ _ hc, ih hl]
    rfl

theorem replaceCRLF_of_clean (l : JSString) (h : '\r' ∉ l) : replaceCRLF l = l := by
  have := replaceCRLF_append_of_clean l [] h
  simpa [replaceCRLF] using this

theorem replaceCRLF_of_no_lf (s : JSString) (h : '\n' ∉ s) : replaceCRLF s = s := by
  induction s using replaceCRLF.induct with
  | case1 => rfl
  | case2 c => rfl
  | case3 c d rest hcd ih =>
    exact absurd (by simp [hcd.2]) h
  | case4 c d rest hcd ih =>
    have h2 : '\n' ∉ d :: rest := fun e => h (List.mem_cons_of_mem _ e)
    simp only [replaceCRLF, hcd, if_false, ih h2]

theorem replaceCR_of_clean (l : JSString) (h : '\r' ∉ l) : replaceCR l = l := by
  induction l with
  | nil => rfl
  | cons c l ih =>
    have hc : c ≠ '\r' := fun e => h (by simp [e])
    have hl : '\r' ∉ l := fun e => h (by simp [e])
    have := ih hl
    simp only [replaceCR, List.map_cons] at this ⊢
    simp [hc, this]

theorem replaceCR_append (a b : JSString) : replaceCR (a ++ b) = replaceCR a ++ replaceCR b := by
  simp [replaceCR]

theorem not_mem_joinWith (c : Char) (sep : JSString) (lines : List JSString)
    (hs : c ∉ sep) (h : ∀ l ∈ lines, c ∉ l) : c ∉ joinWith sep lines := by
  induction lines using joinWith.induct sep with
  | case1 => simp [joinWith]
  | case2 l => simpa [joinWith] using h
  | case3 l l2 ls ih =>
    have h1 : c ∉ l := h l (by simp)
    have h2 : c ∉ joinWith sep (l2 :: ls) := ih (fun x hx => h x (List.mem_cons_of_mem _ hx))
    simp [joinWith, h1, hs, h2]

theorem normalise_join_lf (lines : List JSString) (h : CleanLines lines) :
    replaceCR (replaceCRLF (joinWith ['\n'] lines)) = joinWith ['\n'] lines := by
  have hr : '\r' ∉ joinWith ['\n'] lines :=
    not_mem_joinWith _ _ _ (by decide) (fun l hl => (h l hl).1)
  rw [replaceCRLF_of_clean _ hr, replaceCR_of_clean _ hr]

theorem normalise_join_crlf (lines : List JSString) (h : CleanLines lines) :
    replaceCR (replaceCRLF (joinWith ['\r', '\n'] lines)) = joinWith ['\n'] lines := by
  induction lines using joinWith.induct ['\n'] with
  | case1 => rfl
  | case2 l =>
    have hl := h l (by simp)
    simp only [joinWith, replaceCRLF_of_clean _ hl.1, replaceCR_of_clean _ hl.1]
  | case3 l l2 ls ih =>
    have hl := h l (by simp)
    have ih2 := ih (fun x hx => h x (List.mem_cons_of_mem _ hx))
    simp only [joinWith, List.append_assoc, List.cons_append, List.nil_append]
    rw [replaceCRLF_append_of_clean _ _ hl.1]
    have e : replaceCRLF ('\r' :: '\n' :: joinWith ['\r', '\n'] (l2 :: ls))
        = '\n' :: replaceCRLF (joinWith ['\r', '\n'] (l2 :: ls)) := by
      simp [replaceCRLF]
    rw [e, replaceCR_append, replaceCR_of_clean _ hl.1]
    have e2 : ∀ s, replaceCR ('\n' :: s) = '\n' :: replaceCR s := by
      intro s; simp [replaceCR]
    rw [e2, ih2]

theorem normalise_join_cr (lines : List JSString) (h : CleanLines lines) :
    replaceCR (replaceCRLF (joinWith ['\r'] lines)) = joinWith ['\n'] lines := by
  have hn : '\n' ∉ joinWith ['\r'] lines :=
    not_mem_joinWith _ _ _ (by decide) (fun l hl => (h l hl).2)
  rw [replaceCRLF_of_no_lf _ hn]
  induction lines using joinWith.induct ['\n'] with
  | case1 => rfl
  | case2 l => simpa [joinWith] using replaceCR_of_clean l (h l (by simp)).1
  | case3 l l2 ls ih =>
    have hl := h l (by simp)
    have hn2 : '\n' ∉ joinWith ['\r'] (l2 :: ls) :=
      not_mem_joinWith _ _ _ (by decide) (fun x hx => (h x (List.mem_cons_of_mem _ hx)).2)
    have ih2 := ih (fun x hx => h x (List.mem_cons_of_mem _ hx)) hn2
    simp only [joinWith, List.append_assoc, List.cons_append, List.nil_append]
    rw [replaceCR_append, replaceCR_of_clean _ hl.1]
    have e2 : ∀ s, replaceCR ('\r' :: s) = '\n' :: replaceCR s := by
      intro s; simp [replaceCR]
    rw [e2, ih2]

theorem splitOn_of_not_mem (c : Char) (l : JSString) (h : c ∉ l) : splitOn c l = [l] := by
  induction l with
  | nil => rfl
  | cons a l ih =>
    have ha : a ≠ c := fun e => h (by simp [e])
    have hl : c ∉ l := fun e => h (by simp [e])
    simp [splitOn, ha, ih hl, consHead]

theorem splitOn_append_sep (c : Char) (l t : JSString) (h : c ∉ l) :
    splitOn c (l ++ c :: t) = l :: splitOn c t := by
  induction l with
  | nil => simp [splitOn]
  | cons a l ih =>
    have ha : a ≠ c := fun e => h (by simp [e])
    have hl : c ∉ l := fun e => h (by simp [e])
    simp [splitOn, ha, ih hl, consHead]

theorem splitOn_joinWith (lines : List JSString) (h : CleanLines lines) (hne : lines ≠ []) :
    splitOn '\n' (joinWith ['\n'] lines) = lines := by
  induction lines using joinWith.induct ['\n'] with
  | case1 => exact absurd rfl hne
  | case2 l => simpa [joinWith] using splitOn_of_not_mem '\n' l (h l (by simp)).2
  | case3 l l2 ls ih =>
    have hl := h l (by simp)
    have ih2 := ih (fun x hx => h x (List.mem_cons_of_mem _ hx)) (by simp)
    simp only [joinWith, List.append_assoc, List.cons_append, List.nil_append]
    rw [splitOn_append_sep _ _ _ hl.2, ih2]

theorem ingestLines_joinWith (sep : JSString) (lines : List JSString) (h : CleanLines lines)
    (hsep : replaceCR (replaceCRLF (joinWith sep lines)) = joinWith ['\n'] lines) :
    ingestLines (joinWith sep lines) = keepLines lines := by
  have e := ingestLines_eq_keepLines (joinWith sep lines)
  rw [← splitOn_normalise, hsep] at e
  rw [e]
  by_cases hne : lines = []
  · subst hne; decide
  · rw [splitOn_joinWith lines h hne]

/-- C1: `processFile` sets `rawData` to the lines of the text (split at `\r\n`, `\r` or
`\n`) without the lines starting with `Axial Counts`, without the first five of the
remaining lines and without the blank lines; and for every list of lines, joining them
with `\n`, with `\r\n` or with `\r` gives the same `rawData`, namely what is kept of
those lines. -/
theorem processFile_rawData (st : DataProcessor) (text fileName : JSString)
    (lines : List JSString) (hlines : ∀ l ∈ lines, '\r' ∉ l ∧ '\n' ∉ l) :
    (processFile st text fileName).rawData = some (keepLines (splitLines text)) ∧
    (processFile st (joinWith ['\n'] lines) fileName).rawData = some (keepLines lines) ∧
    (processFile st (joinWith ['\r', '\n'] lines) fileName).rawData
      = some (keepLines lines) ∧
    (processFile st (joinWith ['\r'] lines) fileName).rawData = some (keepLines lines) := by
  refine ⟨?_, ?_, ?_, ?_⟩
  · simp only [processFile, ingestLines_eq_keepLines]
  · simp only [processFile,
      ingestLines_joinWith _ lines hlines (normalise_join_lf lines hlines)]
  · simp only [processFile,
      ingestLines_joinWith _ lines hlines (normalise_join_crlf lines hlines)]
  · simp only [processFile,
      ingestLines_joinWith _ lines hlines (normalise_join_cr lines hlines)]

/-- Witness for C1: a file of eight lines (five header lines, one marker line, one
blank line, two data lines) read with `\r\n` line ends. -/
theorem processFile_rawData_witness :
    (∀ l ∈ ["h1".toList, "h2".toList, "Axial Counts 7".toList, "h3".toList, "h4".toList,
        "h5".toList, "  ".toList, "1,2".toList, "3,4".toList], '\r' ∉ l ∧ '\n' ∉ l) ∧
    (processFile DataProcessor.fresh
        (joinWith ['\r', '\n'] ["h1".toList, "h2".toList, "Axial Counts 7".toList,
          "h3".toList, "h4".toList, "h5".toList, "  ".toList, "1,2".toList, "3,4".toList])
        "a.csv".toList).rawData = some ["1,2".toList, "3,4".toList] :=
  ⟨by decide,
   (processFile_rawData DataProcessor.fresh [] "a.csv".toList _ (by decide)).2.2.1.trans
     (by decide)⟩

/-! ## Column algebra shared by the normalisation results -/

theorem buildColumns_get (rows : List (List JSNum)) (c : Column) :
    (buildColumns rows).get c = rows.map (fun row => rowValue row c) := by
  cases c <;> rfl

theorem Column.index_lt (c : Column) : c.index < 5 := by
  cases c <;> decide

theorem Dataset.get_set (d : Dataset) (c c2 : Column) (v : List JSNum) :
    (d.set c v).get c2 = if c2 = c then v else d.get c2 := by
  cases c <;> cases c2 <;> rfl

theorem JSNum.zero_sub (v : JSNum) : (JSNum.fin 0).sub v = v.neg := by
  cases v <;> simp [JSNum.sub, JSNum.neg]

theorem negateColumns_get (d : Dataset) (xCol yCol c : Column) :
    (negateColumns d xCol yCol).get c = (d.get c).map (negatedValue xCol yCol c) := by
  unfold negateColumns negatedValue
  simp only [Dataset.get_set]
  by_cases hx : c = xCol
  · subst hx
    by_cases hy : c = yCol
    · subst hy
      simp
    · have hy2 : ¬ yCol = c := fun e => hy e.symm
      simp [hy]
  · by_cases hy : c = yCol
    · subst hy
      simp [hx]
    · simp [hx, hy]

theorem normalizeColumns_get (rows : List (List JSNum)) (xCol yCol c : Column) :
    (normalizeColumns rows xCol yCol).get c
      = rows.map (fun row => normalizedValue rows xCol yCol c (rowValue row c)) := by
  unfold normalizeColumns shiftX
  have hx : (negateColumns (buildColumns rows) xCol yCol).get xCol
      = rows.map (fun row => negatedValue xCol yCol xCol (rowValue row xCol)) := by
    rw [negateColumns_get, buildColumns_get, List.map_map]; rfl
  have hc : (negateColumns (buildColumns rows) xCol yCol).get c
      = rows.map (fun row => negatedValue xCol yCol c (rowValue row c)) := by
    rw [negateColumns_get, buildColumns_get, List.map_map]; rfl
  cases rows with
  | nil =>
    rw [hx]
    simp [hc]
  | cons row rows =>
    rw [hx]
    simp only [List.map_cons, List.head?_cons]
    by_cases hg : (negatedValue xCol yCol xCol (rowValue row xCol)).gt (.fin (5 / 1000)) = true
    · rw [if_pos hg, Dataset.get_set]
      by_cases hcx : c = xCol
      · subst hcx
        simp [normalizedValue, xOffset, hg]
      · rw [if_neg hcx, hc]
        simp [normalizedValue, hcx]
    · rw [if_neg hg, hc]
      by_cases hcx : c = xCol
      · subst hcx
        simp [normalizedValue, xOffset, hg]
      · simp [normalizedValue, hcx]

theorem normalizeColumns_length (rows : List (List JSNum)) (xCol yCol c : Column) :
    ((normalizeColumns rows xCol yCol).get c).length = rows.length := by
  rw [normalizeColumns_get, List.length_map]

theorem Dataset.truncate_get (d : Dataset) (i : Nat) (c : Column) :
    (d.truncate i).get c = (d.get c).take i := by
  cases c <;> rfl

theorem truncateAfterDrop_get (d : Dataset) (yCol c : Column)
    (hlen : (d.get c).length = (d.get yCol).length) :
    (truncateAfterDrop d yCol).get c = (d.get c).take (retainedLength d yCol) := by
  unfold truncateAfterDrop retainedLength
  cases h : findDrop (d.get yCol) ((findMax (d.get yCol)).1 + 1) with
  | none => simp [← hlen]
  | some i => simp [Dataset.truncate_get]

theorem processData_ok (st : DataProcessor) (first : JSString) (rest : List JSString)
    (xCol yCol : Column) (h : st.rawData = some (first :: rest)) :
    processData st xCol yCol = .ok { st with
      originalDf := some
        (truncateAfterDrop (normalizeColumns (parseRows (first :: rest)) xCol yCol) yCol) } := by
  unfold processData
  rw [h]

/-- Every column of the dataset `processData` stores is the normalised column of the
accepted rows, cut to the retained length. -/
theorem processed_column (rows : List (List JSNum)) (xCol yCol c : Column) :
    (truncateAfterDrop (normalizeColumns rows xCol yCol) yCol).get c
      = (rows.map (fun row => normalizedValue rows xCol yCol c (rowValue row c))).take
          (retainedLength (normalizeColumns rows xCol yCol) yCol) := by
  rw [truncateAfterDrop_get, normalizeColumns_get]
  rw [normalizeColumns_length, normalizeColumns_length]

theorem processed_sample (rows : List (List JSNum)) (xCol yCol c : Column) (i : Nat)
    (row : List JSNum)
    (hi : i < ((truncateAfterDrop (normalizeColumns rows xCol yCol) yCol).get c).length)
    (hrow : rows[i]? = some row) :
    ((truncateAfterDrop (normalizeColumns rows xCol yCol) yCol).get c)[i]?
      = some (normalizedValue rows xCol yCol c (rowValue row c)) := by
  rw [processed_column] at hi ⊢
  rw [List.length_take] at hi
  rw [List.getElem?_take_of_lt (lt_of_lt_of_le hi (Nat.min_le_left _ _)), List.getElem?_map, hrow]
  rfl

theorem processed_length_le (rows : List (List JSNum)) (xCol yCol c : Column) :
    ((truncateAfterDrop (normalizeColumns rows xCol yCol) yCol).get c).length ≤ rows.length := by
  rw [processed_column, List.length_take, List.length_map]
  exact Nat.min_le_right _ _

theorem rowValue_not_nan (row : List JSNum) (c : Column) (h : rowAccepted row = true) :
    (rowValue row c).isNaN = false := by
  simp only [rowAccepted, Bool.and_eq_true, decide_eq_true_eq, List.all_eq_true] at h
  have hlt : c.index < row.length := by rw [h.1]; exact c.index_lt
  have hm : rowValue row c ∈ row := by
    simp only [rowValue, List.getD_eq_getElem?_getD, List.getElem?_eq_getElem hlt,
      Option.getD_some]
    exact List.getElem_mem hlt
  simpa using h.2 _ hm

theorem rowAccepted_of_mem_parseRows (raw : List JSString) (row : List JSNum)
    (h : row ∈ parseRows raw) : rowAccepted row = true := by
  cases raw with
  | nil => simp [parseRows] at h
  | cons first rest =>
    simp only [parseRows, List.mem_filter] at h
    exact h.2

theorem exists_ok_of_isSome {α : Type} (e : Except JSError α)
    (h : e.toOption.isSome = true) : ∃ a, e = .ok a := by
  cases e with
  | error err => simp [Except.toOption] at h
  | ok a => exact ⟨a, rfl⟩

theorem calculateMaxSlope_originalDf (s s2 : DataProcessor) (xCol yCol : Column)
    (h : calculateMaxSlope s xCol yCol = .ok s2) : s2.originalDf = s.originalDf := by
  unfold calculateMaxSlope at h
  split at h
  · cases h
  · rename_i df hdf
    simp only at h
    split at h
    · cases h; rfl
    · split at h
      · cases h; rfl
      · split at h
        · cases h; rfl
        · cases h

/-- What a successful `setColumns` leaves in the fields that do not depend on the slope
analysis: the processed dataset, the peak, and the yield point. -/
theorem setColumns_fields (st st2 : DataProcessor) (first : JSString) (rest : List JSString)
    (xCol yCol : Column) (df : Dataset) (hraw : st.rawData = some (first :: rest))
    (hdf : df = truncateAfterDrop (normalizeColumns (parseRows (first :: rest)) xCol yCol) yCol)
    (hok : setColumns st xCol yCol = .ok st2) :
    st2.originalDf = some df ∧
    st2.maxValue = some (findMax (df.get yCol)).2 ∧
    st2.maxX = (df.get xCol)[(findMax (df.get yCol)).1]? ∧
    st2.originalYieldDisplacement = (df.get xCol)[(findMin (df.get xCol)).1]? ∧
    st2.originalYieldStrength = (df.get yCol)[(findMin (df.get xCol)).1]? ∧
    st2.yieldDisplacement = st2.originalYieldDisplacement ∧
    st2.yieldStrength = st2.originalYieldStrength := by
  unfold setColumns at hok
  rw [processData_ok st first rest xCol yCol hraw] at hok
  simp only [← hdf] at hok
  split at hok
  · cases hok
  · rename_i s2 hs2
    have hdf2 := calculateMaxSlope_originalDf _ _ _ _ hs2
    simp only at hdf2
    split at hok
    · unfold calculateAreaUnderCurve at hok
      simp only [hdf2] at hok
      cases hok
      simp [hdf2]
    · cases hok

/-! ## Row parsing (`processData`, source lines 77 to 89) -/

theorem all_map_eq {α β : Type} (f : α → β) (p : β → Bool) (l : List α) :
    (l.map f).all p = l.all (fun a => p (f a)) := by
  induction l with
  | nil => rfl
  | cons a l ih => simp [ih]

theorem rowAccepted_parseRow (d : Char) (line : JSString) :
    rowAccepted (parseRow d line) = lineAccepted d line := by
  simp only [rowAccepted, parseRow, lineAccepted, all_map_eq, List.length_map]

theorem parseFloat_nil : parseFloat [] = JSNum.nan := by decide

theorem trim_nil : trim [] = [] := rfl

theorem rowValue_parseRow (d : Char) (line : JSString) (c : Column) :
    rowValue (parseRow d line) c = lineValue d line c := by
  unfold rowValue parseRow lineValue
  simp only [List.getD_eq_getElem?_getD, List.getElem?_map]
  cases h : (keptTokens d line)[c.index]? with
  | none => simp [trim_nil, parseFloat_nil]
  | some t => simp

theorem parseRows_cons (first : JSString) (rest : List JSString) :
    parseRows (first :: rest)
      = (((first :: rest).filter (lineAccepted (detectDelimiter first))).map
          (parseRow (detectDelimiter first))) := by
  simp only [parseRows, List.filter_map]
  congr 1
  apply List.filter_congr
  intro l _
  simp [rowAccepted_parseRow]

/-- C2 (amended): with the delimiter of the first retained line, the dataset built by
`processData` holds one row per line whose kept tokens (split on the delimiter, empty
tokens dropped, first token dropped, at most five taken) are exactly five and none of
which parses to `NaN`, in file order and with all five values of the line; every other
line is dropped whole, and no stored value is `NaN` (an infinity may be stored). -/
theorem parsed_rows_accepted (first : JSString) (rest : List JSString) (c : Column) :
    (buildColumns (parseRows (first :: rest))).get c
      = (((first :: rest).filter (lineAccepted (detectDelimiter first))).map
          (fun line => lineValue (detectDelimiter first) line c)) ∧
    ((buildColumns (parseRows (first :: rest))).get c).length
      = ((first :: rest).filter (lineAccepted (detectDelimiter first))).length ∧
    ∀ v ∈ (buildColumns (parseRows (first :: rest))).get c, v.isNaN = false := by
  have e : (buildColumns (parseRows (first :: rest))).get c
      = (((first :: rest).filter (lineAccepted (detectDelimiter first))).map
          (fun line => lineValue (detectDelimiter first) line c)) := by
    rw [buildColumns_get, parseRows_cons, List.map_map]
    apply List.map_congr_left
    intro l _
    exact rowValue_parseRow _ l c
  refine ⟨e, ?_, ?_⟩
  · rw [e, List.length_map]
  · intro v hv
    rw [buildColumns_get, List.mem_map] at hv
    obtain ⟨row, hrow, rfl⟩ := hv
    exact rowValue_not_nan row c (rowAccepted_of_mem_parseRows _ row hrow)

/-- C2 (counterexample): the line `r,Infinity,1,2,3,4` is accepted although its first
value is not a finite number, and `Infinity` is stored in the dataset. -/
theorem parsed_rows_not_all_finite :
    ((processData (processFile DataProcessor.fresh (header ++ "r,Infinity,1,2,3,4".toList)
        "a.csv".toList) Column.display1 Column.load1).toOption.bind
      (fun s => s.originalDf.map (fun df => df.elapsedTime))) = some [JSNum.posInf] ∧
    JSNum.posInf.isFinite = false := by
  decide!

/-! ## Sign normalisation (`processData`, source lines 91 to 99) -/

theorem normalizedValue_y (rows : List (List JSNum)) (xCol yCol : Column) (v : JSNum)
    (hxy : xCol ≠ yCol) : normalizedValue rows xCol yCol yCol v = v.neg := by
  have h : ¬ yCol = xCol := fun e => hxy e.symm
  simp [normalizedValue, negatedValue, h, JSNum.zero_sub]

/-- C3 (amended): when the X and Y columns are distinct, `processData` succeeds on every
non-empty `rawData` and each retained sample of the Y column is the negation of the raw
parsed value of the same accepted row in that column. -/
theorem processData_negates_y (st : DataProcessor) (first : JSString) (rest : List JSString)
    (xCol yCol : Column) (hraw : st.rawData = some (first :: rest)) (hxy : xCol ≠ yCol) :
    ∃ st2 df, processData st xCol yCol = .ok st2 ∧ st2.originalDf = some df ∧
      (df.get yCol).length ≤ (parseRows (first :: rest)).length ∧
      ∀ i row, i < (df.get yCol).length → (parseRows (first :: rest))[i]? = some row →
        (df.get yCol)[i]? = some (rowValue row yCol).neg := by
  refine ⟨_, _, processData_ok st first rest xCol yCol hraw, rfl,
    processed_length_le _ _ _ _, ?_⟩
  intro i row hi hrow
  rw [processed_sample _ _ _ _ i row hi hrow, normalizedValue_y _ _ _ _ hxy]

/-- Witness for C3: the sample file with X `Display 1` and Y `Load 1`. -/
theorem processData_negates_y_witness :
    sampleProcessor.rawData = some (sampleFirst :: sampleRest) ∧
    Column.display1 ≠ Column.load1 ∧
    ∃ st2 df, processData sampleProcessor Column.display1 Column.load1 = .ok st2 ∧
      st2.originalDf = some df ∧
      (df.get Column.load1).length ≤ (parseRows (sampleFirst :: sampleRest)).length ∧
      ∀ i row, i < (df.get Column.load1).length →
        (parseRows (sampleFirst :: sampleRest))[i]? = some row →
        (df.get Column.load1)[i]? = some (rowValue row Column.load1).neg :=
  ⟨by decide!, by decide,
    processData_negates_y sampleProcessor sampleFirst sampleRest Column.display1 Column.load1
      (by decide!) (by decide)⟩

/-- C3 (counterexample): with `Load 1` chosen both as X and as Y, the raw value `-1` is
stored as `-1`, not as its negation `1`. -/
theorem processData_same_column_not_negated :
    (parseRows (ingestLines (header ++ "a,0,0,0,-1,0".toList))).map
        (fun row => rowValue row Column.load1) = [JSNum.fin (-1)] ∧
    ((processData (processFile DataProcessor.fresh (header ++ "a,0,0,0,-1,0".toList)
        "a.csv".toList) Column.load1 Column.load1).toOption.bind
      (fun s => s.originalDf.map (fun df => df.get Column.load1))) = some [JSNum.fin (-1)] ∧
    (JSNum.fin (-1)).neg ≠ JSNum.fin (-1) := by
  decide!

/-! ## Offset normalisation (`processData`, source lines 95 to 99) -/

theorem JSNum.sub_self_of_finite (v : JSNum) (h : v.isFinite = true) :
    v.sub v = JSNum.fin 0 := by
  cases v <;> simp [JSNum.isFinite] at h
  simp [JSNum.sub]

theorem JSNum.neg_isFinite (v : JSNum) : v.neg.isFinite = v.isFinite := by
  cases v <;> rfl

theorem normalizedValue_x (rows : List (List JSNum)) (xCol yCol : Column) (v : JSNum)
    (hxy : xCol ≠ yCol) :
    normalizedValue rows xCol yCol xCol v
      = (xOffset rows xCol yCol).elim v.neg (fun o => v.neg.sub o) := by
  unfold normalizedValue
  rw [if_pos rfl]
  cases xOffset rows xCol yCol <;> simp [negatedValue, hxy, JSNum.zero_sub]

theorem xOffset_cons (row : List JSNum) (rows : List (List JSNum)) (xCol yCol : Column)
    (hxy : xCol ≠ yCol) :
    xOffset (row :: rows) xCol yCol =
      if (rowValue row xCol).neg.gt (.fin (5 / 1000)) then some (rowValue row xCol).neg
      else none := by
  simp [xOffset, negatedValue, hxy, JSNum.zero_sub]

theorem findDrop_ge (ys : List JSNum) (start i : Nat) (h : findDrop ys start = some i) :
    start ≤ i ∧ i < ys.length ∧ dropExceeds ys i = true := by
  unfold findDrop at h
  have hm := List.mem_of_find?_eq_some h
  have hp := List.find?_some h
  rw [List.mem_range'_1] at hm
  refine ⟨hm.1, by omega, hp⟩

theorem retainedLength_pos (d : Dataset) (yCol : Column) (h : d.get yCol ≠ []) :
    0 < retainedLength d yCol := by
  unfold retainedLength
  cases hf : findDrop (d.get yCol) ((findMax (d.get yCol)).1 + 1) with
  | none => exact List.length_pos.2 h
  | some i =>
    have := (findDrop_ge _ _ _ hf).1
    simp only
    omega

theorem processed_length_pos (row : List JSNum) (rows : List (List JSNum))
    (xCol yCol c : Column) :
    0 < ((truncateAfterDrop (normalizeColumns (row :: rows) xCol yCol) yCol).get c).length := by
  rw [processed_column, List.length_take, List.length_map]
  have h : (normalizeColumns (row :: rows) xCol yCol).get yCol ≠ [] := by
    rw [normalizeColumns_get]; simp
  have := retainedLength_pos _ yCol h
  simp only [List.length_cons]
  omega

/-- C4 (amended): for a non-empty parsed dataset and distinct X and Y columns, if the
negated first raw X value exceeds `0.005` then every retained X sample is the negated raw
X of its row minus the negated first raw X, and the first X sample is exactly `0` whenever
that first value is finite; if it does not exceed `0.005`, every retained X sample is the
negated raw X of its row. -/
theorem processData_shifts_x (st : DataProcessor) (first : JSString) (rest : List JSString)
    (xCol yCol : Column) (row0 : List JSNum) (rows : List (List JSNum))
    (hraw : st.rawData = some (first :: rest)) (hxy : xCol ≠ yCol)
    (hrows : parseRows (first :: rest) = row0 :: rows) :
    ∃ st2 df, processData st xCol yCol = .ok st2 ∧ st2.originalDf = some df ∧
      ((rowValue row0 xCol).neg.gt (.fin (5 / 1000)) = true →
        (∀ i row, i < (df.get xCol).length → (row0 :: rows)[i]? = some row →
          (df.get xCol)[i]? = some ((rowValue row xCol).neg.sub (rowValue row0 xCol).neg)) ∧
        ((rowValue row0 xCol).isFinite = true → (df.get xCol)[0]? = some (JSNum.fin 0))) ∧
      ((rowValue row0 xCol).neg.gt (.fin (5 / 1000)) = false →
        ∀ i row, i < (df.get xCol).length → (row0 :: rows)[i]? = some row →
          (df.get xCol)[i]? = some (rowValue row xCol).neg) := by
  refine ⟨_, _, processData_ok st first rest xCol yCol hraw, rfl, ?_, ?_⟩
  · intro hgt
    have hall : ∀ i row,
        i < ((truncateAfterDrop (normalizeColumns (parseRows (first :: rest)) xCol yCol)
          yCol).get xCol).length → (row0 :: rows)[i]? = some row →
        ((truncateAfterDrop (normalizeColumns (parseRows (first :: rest)) xCol yCol)
          yCol).get xCol)[i]? = some ((rowValue row xCol).neg.sub (rowValue row0 xCol).neg) := by
      intro i row hi hrow
      rw [hrows] at hi ⊢
      rw [processed_sample _ _ _ _ i row hi hrow, normalizedValue_x _ _ _ _ hxy,
        xOffset_cons _ _ _ _ hxy, if_pos hgt]
      rfl
    refine ⟨hall, ?_⟩
    intro hfin
    have hpos := processed_length_pos row0 rows xCol yCol xCol
    rw [← hrows] at hpos
    rw [hall 0 row0 hpos (by simp), JSNum.sub_self_of_finite]
    rw [JSNum.neg_isFinite]; exact hfin
  · intro hgt i row hi hrow
    rw [hrows] at hi ⊢
    rw [processed_sample _ _ _ _ i row hi hrow, normalizedValue_x _ _ _ _ hxy,
      xOffset_cons _ _ _ _ hxy, hgt]
    rfl

/-- Witness for C4: a file whose negated first displacement `0.5` exceeds `0.005`. -/
theorem processData_shifts_x_witness :
    shiftedProcessor.rawData = some (shiftedFirst :: shiftedRest) ∧
    Column.display1 ≠ Column.load1 ∧
    parseRows (shiftedFirst :: shiftedRest)
      = [JSNum.fin 0, JSNum.fin 0, JSNum.fin (-1 / 2), JSNum.fin 0, JSNum.fin 0] ::
        [[JSNum.fin 0, JSNum.fin 0, JSNum.fin (-3 / 4), JSNum.fin (-1), JSNum.fin 0]] ∧
    (rowValue [JSNum.fin 0, JSNum.fin 0, JSNum.fin (-1 / 2), JSNum.fin 0, JSNum.fin 0]
      Column.display1).neg.gt (.fin (5 / 1000)) = true ∧
    ∃ st2 df, processData shiftedProcessor Column.display1 Column.load1 = .ok st2 ∧
      st2.originalDf = some df ∧ (df.get Column.display1)[0]? = some (JSNum.fin 0) := by
  refine ⟨by decide!, by decide, by decide!, by decide!, ?_⟩
  obtain ⟨st2, df, hok, hdf, hshift, _⟩ :=
    processData_shifts_x shiftedProcessor shiftedFirst shiftedRest Column.display1
      Column.load1 [JSNum.fin 0, JSNum.fin 0, JSNum.fin (-1 / 2), JSNum.fin 0, JSNum.fin 0]
      [[JSNum.fin 0, JSNum.fin 0, JSNum.fin (-3 / 4), JSNum.fin (-1), JSNum.fin 0]]
      (by decide!) (by decide) (by decide!)
  exact ⟨st2, df, hok, hdf, (hshift (by decide!)).2 (by decide!)⟩

/-- C4 (counterexample): when the first raw X value is `-Infinity`, its negation exceeds
`0.005`, the offset is `Infinity`, and the first X sample becomes `Infinity - Infinity`,
which is `NaN` and not `0`. -/
theorem processData_infinite_offset :
    parseRows (ingestLines (header ++ "a,0,0,-Infinity,0,0".toList))
      = [[JSNum.fin 0, JSNum.fin 0, JSNum.negInf, JSNum.fin 0, JSNum.fin 0]] ∧
    JSNum.negInf.neg.gt (.fin (5 / 1000)) = true ∧
    ((processData (processFile DataProcessor.fresh (header ++ "a,0,0,-Infinity,0,0".toList)
        "a.csv".toList) Column.display1 Column.load1).toOption.bind
      (fun s => s.originalDf.map (fun df => df.get Column.display1))) = some [JSNum.nan] ∧
    JSNum.nan ≠ JSNum.fin 0 := by
  decide!

/-! ## Truncation (`processData`, source lines 101 to 117) -/

theorem findMaxAux_append (l1 l2 : List JSNum) (i mi : Nat) (mv : JSNum) :
    findMaxAux (l1 ++ l2) i mi mv
      = findMaxAux l2 (i + l1.length) (findMaxAux l1 i mi mv).1 (findMaxAux l1 i mi mv).2 := by
  induction l1 generalizing i mi mv with
  | nil => simp [findMaxAux]
  | cons v l1 ih =>
    have e : i + 1 + l1.length = i + (l1.length + 1) := by omega
    simp only [List.cons_append, findMaxAux, List.length_cons]
    by_cases h : v.gt mv = true
    · rw [if_pos h, if_pos h, ← e]
      exact ih (i + 1) i v
    · rw [if_neg h, if_neg h, ← e]
      exact ih (i + 1) mi mv

theorem findMaxAux_idx (l : List JSNum) (k mi : Nat) (mv : JSNum) :
    findMaxAux l k mi mv = (mi, mv) ∨ k ≤ (findMaxAux l k mi mv).1 := by
  induction l generalizing k mi mv with
  | nil => left; rfl
  | cons v l ih =>
    simp only [findMaxAux]
    by_cases h : v.gt mv = true
    · rw [if_pos h]
      right
      rcases ih (k + 1) k v with h1 | h1
      · rw [h1]
      · omega
    · rw [if_neg h]
      rcases ih (k + 1) mi mv with h1 | h1
      · left; exact h1
      · right; omega

theorem findMax_take (ys : List JSNum) (n : Nat) (h : (findMax ys).1 < n) :
    findMax (ys.take n) = findMax ys := by
  by_cases hn : ys.length ≤ n
  · rw [List.take_of_length_le hn]
  · have hlen : (ys.take n).length = n := by
      rw [List.length_take]; omega
    have e : findMax ys
        = findMaxAux (ys.drop n) (0 + (ys.take n).length) (findMax (ys.take n)).1
            (findMax (ys.take n)).2 := by
      unfold findMax
      rw [← findMaxAux_append, List.take_append_drop]
    rw [hlen] at e
    rcases findMaxAux_idx (ys.drop n) (0 + n) (findMax (ys.take n)).1
        (findMax (ys.take n)).2 with h1 | h1
    · rw [e, h1]
    · rw [← e] at h1
      omega

theorem find_range_spec (p : Nat → Bool) (n s : Nat) :
    match (List.range' s n).find? p with
    | none => ∀ j, s ≤ j → j < s + n → p j = false
    | some i => s ≤ i ∧ i < s + n ∧ p i = true ∧ ∀ j, s ≤ j → j < i → p j = false := by
  induction n generalizing s with
  | zero =>
    simp only [List.range'_zero, List.find?_nil]
    intro j h1 h2
    omega
  | succ n ih =>
    rw [List.range'_succ, List.find?_cons]
    by_cases hp : p s = true
    · simp only [hp]
      refine ⟨le_refl _, by omega, trivial, ?_⟩
      intro j h1 h2
      omega
    · have hps : p s = false := by simpa using hp
      simp only [hps]
      have := ih (s + 1)
      cases hf : (List.range' (s + 1) n).find? p with
      | none =>
        rw [hf] at this
        intro j h1 h2
        by_cases hj : j = s
        · rw [hj]; exact hps
        · exact this j (by omega) (by omega)
      | some i =>
        rw [hf] at this
        obtain ⟨h1, h2, h3, h4⟩ := this
        refine ⟨by omega, by omega, h3, ?_⟩
        intro j hj1 hj2
        by_cases hj : j = s
        · rw [hj]; exact hps
        · exact h4 j (by omega) hj2

theorem findDrop_none (ys : List JSNum) (start : Nat) (h : findDrop ys start = none) :
    ∀ j, start ≤ j → j < ys.length → dropExceeds ys j = false := by
  unfold findDrop at h
  have := find_range_spec (fun i => dropExceeds ys i) (ys.length - start) start
  rw [h] at this
  intro j h1 h2
  exact this j h1 (by omega)

theorem findDrop_some (ys : List JSNum) (start i : Nat) (h : findDrop ys start = some i) :
    start ≤ i ∧ i < ys.length ∧ dropExceeds ys i = true ∧
      ∀ j, start ≤ j → j < i → dropExceeds ys j = false := by
  unfold findDrop at h
  have := find_range_spec (fun i => dropExceeds ys i) (ys.length - start) start
  rw [h] at this
  obtain ⟨h1, h2, h3, h4⟩ := this
  exact ⟨h1, by omega, h3, h4⟩

theorem dropExceeds_take (ys : List JSNum) (n i : Nat) (h : i < n) :
    dropExceeds (ys.take n) i = dropExceeds ys i := by
  unfold dropExceeds
  simp only [List.getD_eq_getElem?_getD]
  rw [List.getElem?_take_of_lt h, List.getElem?_take_of_lt (by omega)]

theorem retainedLength_gt_max (d : Dataset) (yCol : Column) :
    (findMax (d.get yCol)).1 < retainedLength d yCol ∨
      retainedLength d yCol = (d.get yCol).length := by
  unfold retainedLength
  cases hf : findDrop (d.get yCol) ((findMax (d.get yCol)).1 + 1) with
  | none => right; rfl
  | some i =>
    left
    have := (findDrop_some _ _ _ hf).1
    simp only
    omega

theorem findMax_retained (d : Dataset) (yCol : Column) :
    findMax ((d.get yCol).take (retainedLength d yCol)) = findMax (d.get yCol) := by
  by_cases h : d.get yCol = []
  · simp [h]
  · rcases retainedLength_gt_max d yCol with h1 | h1
    · exact findMax_take _ _ h1
    · rw [h1, List.take_length]

theorem no_drop_after_max (d : Dataset) (yCol : Column) (i : Nat)
    (h1 : (findMax (d.get yCol)).1 < i) (h2 : i < retainedLength d yCol)
    (h3 : i < (d.get yCol).length) :
    dropExceeds (d.get yCol) i = false := by
  unfold retainedLength at h2
  cases hf : findDrop (d.get yCol) ((findMax (d.get yCol)).1 + 1) with
  | none => exact findDrop_none _ _ hf i (by omega) h3
  | some k =>
    rw [hf] at h2
    exact (findDrop_some _ _ _ hf).2.2.2 i (by omega) h2

/-- C5 (amended): after `processData`, the final Y column has no adjacent pair of
samples after the position of its maximum (first occurrence) whose drop
`Y[i-1] - Y[i]` is greater than `1`; pairs before the maximum are never examined. -/
theorem processData_no_drop_after_peak (st : DataProcessor) (first : JSString)
    (rest : List JSString) (xCol yCol : Column) (hraw : st.rawData = some (first :: rest)) :
    ∃ st2 df, processData st xCol yCol = .ok st2 ∧ st2.originalDf = some df ∧
      ∀ i, (findMax (df.get yCol)).1 < i → i < (df.get yCol).length →
        dropExceeds (df.get yCol) i = false := by
  refine ⟨_, _, processData_ok st first rest xCol yCol hraw, rfl, ?_⟩
  intro i hi1 hi2
  rw [truncateAfterDrop_get _ _ _ rfl] at hi1 hi2 ⊢
  rw [findMax_retained] at hi1
  rw [List.length_take] at hi2
  rw [dropExceeds_take _ _ _ (by omega)]
  exact no_drop_after_max _ _ i hi1 (by omega) (by omega)

/-- Witness for C5: the sample file, whose last line falls by `2` after the peak and is
cut off. -/
theorem processData_no_drop_after_peak_witness :
    sampleProcessor.rawData = some (sampleFirst :: sampleRest) ∧
    ∃ st2 df, processData sampleProcessor Column.display1 Column.load1 = .ok st2 ∧
      st2.originalDf = some df ∧
      ∀ i, (findMax (df.get Column.load1)).1 < i → i < (df.get Column.load1).length →
        dropExceeds (df.get Column.load1) i = false :=
  ⟨by decide!,
    processData_no_drop_after_peak sampleProcessor sampleFirst sampleRest Column.display1
      Column.load1 (by decide!)⟩

/-- C5 (counterexample): the loads `5, 0, 10` (raw `-5, 0, -10`) are kept as they are,
because the maximum is the last sample, although the load falls by `5` between the first
two samples. -/
theorem processData_keeps_drop_before_peak :
    ((processData (processFile DataProcessor.fresh
        (header ++ "a,0,0,0,-5,0\nb,0,0,0,0,0\nc,0,0,0,-10,0".toList) "a.csv".toList)
        Column.display1 Column.load1).toOption.bind
      (fun s => s.originalDf.map (fun df => df.get Column.load1)))
      = some [JSNum.fin 5, JSNum.fin 0, JSNum.fin 10] ∧
    ((JSNum.fin 5).sub (JSNum.fin 0)).gt (JSNum.fin 1) = true ∧
    dropExceeds [JSNum.fin 5, JSNum.fin 0, JSNum.fin 10] 1 = true := by
  decide!

/-! ## The peak survives truncation (`processData` and `setColumns`) -/

theorem jsLt_irrefl (a : JSNum) : a.lt a = false := by
  cases a <;> simp [JSNum.lt]

theorem jsLt_trans (a b c : JSNum) (h1 : a.lt b = true) (h2 : b.lt c = true) :
    a.lt c = true := by
  cases a <;> cases b <;> cases c <;> simp_all [JSNum.lt]
  exact lt_trans h1 h2

theorem jsLt_asymm (a b : JSNum) (h : a.lt b = true) : b.lt a = false := by
  cases a <;> cases b <;> simp_all [JSNum.lt]
  exact le_of_lt h

/-- From `a <= b` (as `b < a` false) and `b < c`, for numbers: `a < c`. -/
theorem jsLt_of_not_gt_of_lt (a b c : JSNum) (ha : a.isNaN = false) (hb : b.isNaN = false)
    (h1 : b.lt a = false) (h2 : b.lt c = true) : a.lt c = true := by
  cases a <;> cases b <;> cases c <;> simp_all [JSNum.lt, JSNum.isNaN]
  exact lt_of_le_of_lt h1 h2

/-- From `a < b` and `b <= c` (as `c < b` false), for numbers: `a < c`. -/
theorem jsLt_of_lt_of_not_gt (a b c : JSNum) (hb : b.isNaN = false) (hc : c.isNaN = false)
    (h1 : a.lt b = true) (h2 : c.lt b = false) : a.lt c = true := by
  cases a <;> cases b <;> cases c <;> simp_all [JSNum.lt, JSNum.isNaN]
  exact lt_of_lt_of_le h1 h2

/-- Transitivity of `<=` written with `<`: from `a <= b` and `b <= c`, `a <= c`. -/
theorem jsNotGt_trans (a b c : JSNum) (hb : b.isNaN = false)
    (h1 : b.lt a = false) (h2 : c.lt b = false) : c.lt a = false := by
  cases a <;> cases b <;> cases c <;> simp_all [JSNum.lt, JSNum.isNaN]
  exact le_trans h1 h2

theorem jsLt_isNaN_left (a b : JSNum) (h : a.lt b = true) : a.isNaN = false := by
  cases a <;> cases b <;> simp_all [JSNum.lt, JSNum.isNaN]

theorem jsEq_negInf_of_not_gt (a : JSNum) (ha : a.isNaN = false)
    (h : JSNum.negInf.lt a = false) : a = JSNum.negInf := by
  cases a <;> simp_all [JSNum.lt, JSNum.isNaN]

theorem findMaxAux_spec (l : List JSNum) (k mi : Nat) (mv : JSNum)
    (hl : ∀ v ∈ l, v.isNaN = false) (hmv : mv.isNaN = false) :
    (findMaxAux l k mi mv).2.isNaN = false ∧
    (findMaxAux l k mi mv).2.lt mv = false ∧
    (∀ v ∈ l, (findMaxAux l k mi mv).2.lt v = false) ∧
    (findMaxAux l k mi mv = (mi, mv) ∨
      (k ≤ (findMaxAux l k mi mv).1 ∧
        l[(findMaxAux l k mi mv).1 - k]? = some (findMaxAux l k mi mv).2 ∧
        mv.lt (findMaxAux l k mi mv).2 = true ∧
        ∀ j w, j < (findMaxAux l k mi mv).1 - k → l[j]? = some w →
          w.lt (findMaxAux l k mi mv).2 = true)) := by
  induction l generalizing k mi mv with
  | nil =>
    refine ⟨hmv, jsLt_irrefl mv, ?_, Or.inl rfl⟩
    intro v hv
    simp at hv
  | cons v l ih =>
    have hv : v.isNaN = false := hl v (by simp)
    have hl2 : ∀ w ∈ l, w.isNaN = false := fun w hw => hl w (List.mem_cons_of_mem _ hw)
    simp only [findMaxAux]
    by_cases h : v.gt mv = true
    · rw [if_pos h]
      simp only [JSNum.gt] at h
      obtain ⟨r1, r2, r3, r4⟩ := ih (k + 1) k v hl2 hv
      have hmvr : mv.lt (findMaxAux l (k + 1) k v).2 = true :=
        jsLt_of_lt_of_not_gt _ _ _ hv r1 h r2
      refine ⟨r1, jsLt_asymm _ _ hmvr, ?_, Or.inr ?_⟩
      · intro w hw
        rcases List.mem_cons.1 hw with e | hw2
        · rw [e]; exact r2
        · exact r3 w hw2
      · rcases r4 with e | ⟨q1, q2, qlt, q3⟩
        · rw [e]
          refine ⟨le_refl _, by simp, h, ?_⟩
          intro j w hj
          simp at hj
        · refine ⟨by omega, ?_, hmvr, ?_⟩
          · have e2 : (findMaxAux l (k + 1) k v).1 - k
                = ((findMaxAux l (k + 1) k v).1 - (k + 1)) + 1 := by omega
            rw [e2, List.getElem?_cons_succ]
            exact q2
          · intro j w hj hw
            cases j with
            | zero =>
              simp only [List.getElem?_cons_zero, Option.some.injEq] at hw
              rw [← hw]
              exact qlt
            | succ j =>
              rw [List.getElem?_cons_succ] at hw
              exact q3 j w (by omega) hw
    · rw [if_neg h]
      have h2 : mv.lt v = false := by
        simp only [JSNum.gt] at h
        simpa using h
      obtain ⟨r1, r2, r3, r4⟩ := ih (k + 1) mi mv hl2 hmv
      refine ⟨r1, r2, ?_, ?_⟩
      · intro w hw
        rcases List.mem_cons.1 hw with e | hw2
        · rw [e]; exact jsNotGt_trans _ _ _ hmv h2 r2
        · exact r3 w hw2
      · rcases r4 with e | ⟨q1, q2, qlt, q3⟩
        · left; exact e
        · right
          refine ⟨by omega, ?_, qlt, ?_⟩
          · have e2 : (findMaxAux l (k + 1) mi mv).1 - k
                = ((findMaxAux l (k + 1) mi mv).1 - (k + 1)) + 1 := by omega
            rw [e2, List.getElem?_cons_succ]
            exact q2
          · intro j w hj hw
            cases j with
            | zero =>
              simp only [List.getElem?_cons_zero, Option.some.injEq] at hw
              rw [← hw]
              exact jsLt_of_not_gt_of_lt _ _ _ hv hmv h2 qlt
            | succ j =>
              rw [List.getElem?_cons_succ] at hw
              exact q3 j w (by omega) hw

theorem findMax_isFirstMaxAt (ys : List JSNum) (hne : ys ≠ [])
    (hl : ∀ v ∈ ys, v.isNaN = false) :
    IsFirstMaxAt ys (findMax ys).1 (findMax ys).2 := by
  obtain ⟨r1, _, r3, r4⟩ := findMaxAux_spec ys 0 0 .negInf hl rfl
  have hgt : ∀ v ∈ ys, v.gt (findMax ys).2 = false := fun v hv => r3 v hv
  rcases r4 with e | ⟨_, q2, qlt, q3⟩
  · have e2 : findMax ys = (0, JSNum.negInf) := e
    obtain ⟨y0, t, rfl⟩ := List.exists_cons_of_ne_nil hne
    have hy0 : y0 = JSNum.negInf := by
      apply jsEq_negInf_of_not_gt _ (hl y0 (by simp))
      have := hgt y0 (by simp)
      rw [e2] at this
      exact this
    refine ⟨?_, hgt, ?_⟩
    · rw [e2, hy0]; simp
    · intro j hj
      rw [e2] at hj
      simp at hj
  · refine ⟨by simpa using q2, hgt, ?_⟩
    intro j hj hw
    have := q3 j _ (by simpa using hj) hw
    have h0 := jsLt_irrefl (findMax ys).2
    unfold findMax at this h0
    rw [h0] at this
    exact absurd this (by simp)

theorem JSNum.neg_isNaN (v : JSNum) : v.neg.isNaN = v.isNaN := by
  cases v <;> rfl

theorem normalized_y_not_nan (raw : List JSString) (xCol yCol : Column) (hxy : xCol ≠ yCol) :
    ∀ v ∈ (normalizeColumns (parseRows raw) xCol yCol).get yCol, v.isNaN = false := by
  intro v hv
  rw [normalizeColumns_get, List.mem_map] at hv
  obtain ⟨row, hrow, rfl⟩ := hv
  rw [normalizedValue_y _ _ _ _ hxy, JSNum.neg_isNaN]
  exact rowValue_not_nan row yCol (rowAccepted_of_mem_parseRows raw row hrow)

/-- Truncation never removes the peak.  For a non-empty parsed dataset and distinct X and
Y columns `processData` succeeds; the maximum `m` of the whole normalised Y column as it
was before truncation, at its first index `i`, is still sample `i` of the truncated Y
column, and the scan after truncation finds the same index and value; the normalised X
sample `x` of index `i` is retained too; and every `setColumns` call that completes leaves
`m` in `maxValue` and `x` in `maxX`. -/
theorem setColumns_keeps_peak (st : DataProcessor) (first : JSString)
    (rest : List JSString) (xCol yCol : Column)
    (hraw : st.rawData = some (first :: rest)) (hxy : xCol ≠ yCol)
    (hne : parseRows (first :: rest) ≠ []) :
    ∃ df i m x, processData st xCol yCol = .ok { st with originalDf := some df } ∧
      IsFirstMaxAt ((normalizeColumns (parseRows (first :: rest)) xCol yCol).get yCol) i m ∧
      findMax ((normalizeColumns (parseRows (first :: rest)) xCol yCol).get yCol) = (i, m) ∧
      findMax (df.get yCol) = (i, m) ∧
      (df.get yCol)[i]? = some m ∧
      ((normalizeColumns (parseRows (first :: rest)) xCol yCol).get xCol)[i]? = some x ∧
      (df.get xCol)[i]? = some x ∧
      ∀ st2, setColumns st xCol yCol = .ok st2 →
        st2.originalDf = some df ∧ st2.maxValue = some m ∧ st2.maxX = some x := by
  have hyne : (normalizeColumns (parseRows (first :: rest)) xCol yCol).get yCol ≠ [] := by
    intro e
    have := normalizeColumns_length (parseRows (first :: rest)) xCol yCol yCol
    rw [e] at this
    exact hne (List.length_eq_zero.1 this.symm)
  have hmax := findMax_isFirstMaxAt _ hyne (normalized_y_not_nan _ xCol yCol hxy)
  have hpost : findMax ((truncateAfterDrop
      (normalizeColumns (parseRows (first :: rest)) xCol yCol) yCol).get yCol)
      = findMax ((normalizeColumns (parseRows (first :: rest)) xCol yCol).get yCol) := by
    rw [truncateAfterDrop_get _ _ _ rfl, findMax_retained]
  -- the peak index lies inside the retained part of every column
  have hylen : (findMax ((normalizeColumns (parseRows (first :: rest)) xCol yCol).get yCol)).1
      < ((normalizeColumns (parseRows (first :: rest)) xCol yCol).get yCol).length := by
    have := hmax.1
    by_contra hcon
    rw [List.getElem?_eq_none (by omega)] at this
    cases this
  have hidx : (findMax ((normalizeColumns (parseRows (first :: rest)) xCol yCol).get yCol)).1
      < retainedLength (normalizeColumns (parseRows (first :: rest)) xCol yCol) yCol := by
    rcases retainedLength_gt_max (normalizeColumns (parseRows (first :: rest)) xCol yCol)
      yCol with h1 | h1
    · exact h1
    · rw [h1]; exact hylen
  have hxlen : (findMax ((normalizeColumns (parseRows (first :: rest)) xCol yCol).get yCol)).1
      < ((normalizeColumns (parseRows (first :: rest)) xCol yCol).get xCol).length := by
    rw [normalizeColumns_length, ← normalizeColumns_length _ xCol yCol yCol]
    exact hylen
  have hkeep : ∀ c, ((truncateAfterDrop
      (normalizeColumns (parseRows (first :: rest)) xCol yCol) yCol).get c)[
        (findMax ((normalizeColumns (parseRows (first :: rest)) xCol yCol).get yCol)).1]?
      = ((normalizeColumns (parseRows (first :: rest)) xCol yCol).get c)[
        (findMax ((normalizeColumns (parseRows (first :: rest)) xCol yCol).get yCol)).1]? := by
    intro c
    rw [truncateAfterDrop_get _ _ _ (by rw [normalizeColumns_length, normalizeColumns_length]),
      List.getElem?_take_of_lt hidx]
  refine ⟨_, _, _, _, processData_ok st first rest xCol yCol hraw, hmax, rfl, hpost, ?_,
    List.getElem?_eq_getElem hxlen, ?_, ?_⟩
  · rw [hkeep]; exact hmax.1
  · rw [hkeep]; exact List.getElem?_eq_getElem hxlen
  · intro st2 hok
    obtain ⟨f1, f2, f3, _⟩ := setColumns_fields st st2 first rest xCol yCol _ hraw rfl hok
    rw [hpost] at f2 f3
    refine ⟨f1, f2, ?_⟩
    rw [f3, hkeep]; exact List.getElem?_eq_getElem hxlen

/-- On the sample file the peak `2` at displacement `0.03` survives the truncation from
four samples to three, and `setColumns` stores it in `maxValue` and `maxX`. -/
theorem setColumns_keeps_peak_witness :
    sampleProcessor.rawData = some (sampleFirst :: sampleRest) ∧
    Column.display1 ≠ Column.load1 ∧
    parseRows (sampleFirst :: sampleRest) ≠ [] ∧
    ((normalizeColumns (parseRows (sampleFirst :: sampleRest)) Column.display1
      Column.load1).get Column.load1).length = 4 ∧
    ∃ st2 df, setColumns sampleProcessor Column.display1 Column.load1 = .ok st2 ∧
      st2.originalDf = some df ∧ (df.get Column.load1).length = 3 ∧
      st2.maxValue = some (JSNum.fin 2) ∧ st2.maxX = some (JSNum.fin (3 / 100)) := by
  refine ⟨by decide!, by decide, by decide!, by decide!, ?_⟩
  obtain ⟨st2, hok⟩ := exists_ok_of_isSome
    (setColumns sampleProcessor Column.display1 Column.load1) (by decide!)
  obtain ⟨df, i, m, x, hpd, _, hfm, _, _, hx, _, hset⟩ :=
    setColumns_keeps_peak sampleProcessor sampleFirst sampleRest Column.display1
      Column.load1 (by decide!) (by decide) (by decide!)
  have e : findMax ((normalizeColumns (parseRows (sampleFirst :: sampleRest))
      Column.display1 Column.load1).get Column.load1) = (2, JSNum.fin 2) := by decide!
  rw [e] at hfm
  cases hfm
  have e2 : ((normalizeColumns (parseRows (sampleFirst :: sampleRest))
      Column.display1 Column.load1).get Column.display1)[2]? = some (JSNum.fin (3 / 100)) := by
    decide!
  rw [e2] at hx
  cases hx
  have hdf : df = sampleDataset := by
    have h2 := processData_ok sampleProcessor sampleFirst sampleRest Column.display1
      Column.load1 (by decide!)
    rw [h2] at hpd
    have h3 := congrArg (fun s : DataProcessor => s.originalDf) (Except.ok.inj hpd)
    simp only [Option.some.injEq] at h3
    exact h3.symm
  obtain ⟨h1, h2, h3⟩ := hset st2 hok
  refine ⟨st2, df, hok, h1, ?_, h2, h3⟩
  rw [hdf]
  decide!

/-- C6 (failing input): a comma-separated file with the loads `-5` and `0` at displacement
`0` gives a non-empty dataset whose normalised Y column `[5, 0]` has its peak `5` at index
`0` and is truncated to `[5]`; no sample lies in a sub-range, so on a processor that has
just read the file `calculateMaxSlope` leaves both slope points `null` and `setColumns`
raises a `TypeError` at the spread of `originalSlopePointOne`, before `maxValue` and
`maxX` are assigned: both are still `null`. -/
theorem setColumns_truncated_peak_unset :
    (processFile DataProcessor.fresh (header ++ "a,0,0,0,-5,0\nb,0,0,0,0,0".toList)
        "a.csv".toList).rawData.map parseRows
      = some [[JSNum.fin 0, JSNum.fin 0, JSNum.fin 0, JSNum.fin (-5), JSNum.fin 0],
          [JSNum.fin 0, JSNum.fin 0, JSNum.fin 0, JSNum.fin 0, JSNum.fin 0]] ∧
    (normalizeColumns
        [[JSNum.fin 0, JSNum.fin 0, JSNum.fin 0, JSNum.fin (-5), JSNum.fin 0],
          [JSNum.fin 0, JSNum.fin 0, JSNum.fin 0, JSNum.fin 0, JSNum.fin 0]]
        Column.display1 Column.load1).get Column.load1 = [JSNum.fin 5, JSNum.fin 0] ∧
    findMax [JSNum.fin 5, JSNum.fin 0] = (0, JSNum.fin 5) ∧
    ((processData (processFile DataProcessor.fresh
        (header ++ "a,0,0,0,-5,0\nb,0,0,0,0,0".toList) "a.csv".toList)
        Column.display1 Column.load1).toOption.bind (fun s => s.originalDf)).map
        (fun df => (df.get Column.display1, df.get Column.load1))
      = some ([JSNum.fin 0], [JSNum.fin 5]) ∧
    ((processData (processFile DataProcessor.fresh
        (header ++ "a,0,0,0,-5,0\nb,0,0,0,0,0".toList) "a.csv".toList)
        Column.display1 Column.load1).toOption.bind
        (fun s => (calculateMaxSlope s Column.display1 Column.load1).toOption)).map
        (fun s => [s.originalSlopePointOne, s.originalSlopePointTwo])
      = some [none, none] ∧
    ((processData (processFile DataProcessor.fresh
        (header ++ "a,0,0,0,-5,0\nb,0,0,0,0,0".toList) "a.csv".toList)
        Column.display1 Column.load1).toOption.bind
        (fun s => (calculateMaxSlope s Column.display1 Column.load1).toOption)).map
        (fun s => [s.maxValue, s.maxX])
      = some [none, none] ∧
    setColumns (processFile DataProcessor.fresh
        (header ++ "a,0,0,0,-5,0\nb,0,0,0,0,0".toList) "a.csv".toList)
      Column.display1 Column.load1 = .error .typeError := by
  refine ⟨by decide!, by decide!, by decide!, by decide!, by decide!, by decide!, ?_⟩
  have h : (setColumns (processFile DataProcessor.fresh
      (header ++ "a,0,0,0,-5,0\nb,0,0,0,0,0".toList) "a.csv".toList)
      Column.display1 Column.load1).toOption = none := by decide!
  cases hs : setColumns (processFile DataProcessor.fresh
      (header ++ "a,0,0,0,-5,0\nb,0,0,0,0,0".toList) "a.csv".toList)
      Column.display1 Column.load1 with
  | error e => cases e; rfl
  | ok s => rw [hs] at h; cases h

/-! ## Column alignment (`processData`, source lines 84 to 117) -/

/-- C7: after `processData`, for every X and Y column (equal or not, truncation or not),
the five columns have one common length `n`, and sample `i` of every column `c` is the
value of column `c` of the accepted row `i`, normalised as column `c` is (sign changes
for the X and Y columns, the offset for the X column, nothing for the other columns). -/
theorem processData_columns_aligned (st : DataProcessor) (first : JSString)
    (rest : List JSString) (xCol yCol : Column) (hraw : st.rawData = some (first :: rest)) :
    ∃ st2 df n, processData st xCol yCol = .ok st2 ∧ st2.originalDf = some df ∧
      n ≤ (parseRows (first :: rest)).length ∧
      (∀ c, (df.get c).length = n) ∧
      ∀ c i row, i < n → (parseRows (first :: rest))[i]? = some row →
        (df.get c)[i]? = some
          (normalizedValue (parseRows (first :: rest)) xCol yCol c (rowValue row c)) := by
  have hlen : ∀ c, ((truncateAfterDrop (normalizeColumns (parseRows (first :: rest))
      xCol yCol) yCol).get c).length
      = min (retainedLength (normalizeColumns (parseRows (first :: rest)) xCol yCol) yCol)
          (parseRows (first :: rest)).length := by
    intro c
    rw [processed_column, List.length_take, List.length_map]
  refine ⟨_, _, _, processData_ok st first rest xCol yCol hraw, rfl, Nat.min_le_right _ _,
    hlen, ?_⟩
  intro c i row hi hrow
  exact processed_sample _ _ _ _ i row (by rw [hlen]; exact hi) hrow

/-- Witness for C7: the sample file, with X `Display 1` and Y `Load 1`. -/
theorem processData_columns_aligned_witness :
    sampleProcessor.rawData = some (sampleFirst :: sampleRest) ∧
    ∃ st2 df n, processData sampleProcessor Column.display1 Column.load1 = .ok st2 ∧
      st2.originalDf = some df ∧
      n ≤ (parseRows (sampleFirst :: sampleRest)).length ∧
      (∀ c, (df.get c).length = n) ∧
      ∀ c i row, i < n → (parseRows (sampleFirst :: sampleRest))[i]? = some row →
        (df.get c)[i]? = some
          (normalizedValue (parseRows (sampleFirst :: sampleRest)) Column.display1
            Column.load1 c (rowValue row c)) :=
  ⟨by decide!,
    processData_columns_aligned sampleProcessor sampleFirst sampleRest Column.display1
      Column.load1 (by decide!)⟩

/-! ## Degenerate inputs (`setColumns` on a fresh processor) -/

theorem insertByX_length (p : Pt) (l : List Pt) : (insertByX p l).length = l.length + 1 := by
  induction l with
  | nil => rfl
  | cons q qs ih =>
    simp only [insertByX]
    split
    · rfl
    · simp [ih]

theorem sortByX_length_aux (ps acc : List Pt) :
    (ps.foldl (fun acc p => insertByX p acc) acc).length = acc.length + ps.length := by
  induction ps generalizing acc with
  | nil => rfl
  | cons p ps ih =>
    rw [List.foldl_cons, ih, insertByX_length, List.length_cons]
    omega

theorem sortByX_length (ps : List Pt) : (sortByX ps).length = ps.length := by
  unfold sortByX
  rw [sortByX_length_aux]
  simp

theorem windowPoints_length_le (xs ys : List JSNum) :
    (windowPoints xs ys).length ≤ xs.length := by
  unfold windowPoints
  refine le_trans (List.length_filter_le _ _) ?_
  rw [List.length_zip]
  exact Nat.min_le_left _ _

theorem stepMaxSlope_of_short (filtered : List Pt) (m : JSNum) (r : ℚ × ℚ)
    (h : filtered.length < 2) : stepMaxSlope filtered m r = m := by
  unfold stepMaxSlope
  have : (segmentOf filtered r).length < 2 :=
    lt_of_le_of_lt (List.length_filter_le _ _) h
  simp [this]

theorem segmentedMaxSlope_of_short (filtered : List Pt) (h : filtered.length < 2) :
    segmentedMaxSlope filtered = JSNum.negInf := by
  unfold segmentedMaxSlope ranges
  simp [stepMaxSlope_of_short filtered _ _ h]

theorem calculateMaxSlope_of_short (s : DataProcessor) (df : Dataset) (xCol yCol : Column)
    (hdf : s.originalDf = some df) (h : (df.get xCol).length < 2) :
    calculateMaxSlope s xCol yCol = .ok s := by
  unfold calculateMaxSlope
  rw [hdf]
  have hshort : (sortByX (windowPoints (df.get xCol) (df.get yCol))).length < 2 := by
    rw [sortByX_length]
    exact lt_of_le_of_lt (windowPoints_length_le _ _) h
  simp [segmentedMaxSlope_of_short _ hshort]

/-- With fewer than two valid rows (none included), `setColumns` on a processor that has
just read the file raises a `TypeError`, for every text, file name and column pair. -/
theorem setColumns_few_rows_raises (text fileName : JSString) (xCol yCol : Column)
    (h : (parseRows (ingestLines text)).length < 2) :
    setColumns (processFile DataProcessor.fresh text fileName) xCol yCol
      = .error .typeError := by
  cases hraw : ingestLines text with
  | nil =>
    simp [setColumns, processData, processFile, hraw]
  | cons first rest =>
    have hr : (processFile DataProcessor.fresh text fileName).rawData
        = some (first :: rest) := by
      simp [processFile, hraw]
    unfold setColumns
    rw [processData_ok _ first rest xCol yCol hr]
    simp only
    have hlen : ((truncateAfterDrop (normalizeColumns (parseRows (first :: rest)) xCol yCol)
        yCol).get xCol).length < 2 := by
      rw [hraw] at h
      exact lt_of_le_of_lt (processed_length_le _ _ _ _) h
    rw [calculateMaxSlope_of_short _ _ xCol yCol rfl hlen]
    simp [processFile, DataProcessor.fresh]

/-- C8 (failing inputs): on a fresh processor, an empty file makes `setColumns` raise a
`TypeError` (at `this.rawData[0].includes`), and so does a file with a single valid row
(at the spread of `originalSlopePointOne`, still `null`); `areaUnderCurve` is never set. -/
theorem setColumns_degenerate_raises :
    (parseRows (ingestLines [])).length = 0 ∧
    setColumns (processFile DataProcessor.fresh [] "a.csv".toList) Column.display1
      Column.load1 = .error .typeError ∧
    (parseRows (ingestLines (header ++ sampleFirst))).length = 1 ∧
    setColumns (processFile DataProcessor.fresh (header ++ sampleFirst) "a.csv".toList)
      Column.display1 Column.load1 = .error .typeError :=
  ⟨by decide!, setColumns_few_rows_raises _ _ _ _ (by decide!), by decide!,
    setColumns_few_rows_raises _ _ _ _ (by decide!)⟩

/-! ## The preferred load column (`getPreferredLoadColumn`) -/

/-- C9 (failing inputs): `getPreferredLoadColumn` reads the first retained line, not the
first accepted row.  After a first line `junk` the first accepted row has `Load 1 = 1` and
`Load 2 = -1`, yet the answer is `Load 1`; and after a first line that is rejected for a
non-numeric time but carries the loads `1, -1`, the first accepted row has `Load 1 = -1`,
yet the answer is `Load 2`. -/
theorem getPreferredLoadColumn_reads_first_line :
    (processFile DataProcessor.fresh (header ++ "junk\ni\t0\t0\t0\t1\t-1".toList)
      "a.csv".toList).rawData = some ["junk".toList, "i\t0\t0\t0\t1\t-1".toList] ∧
    parseRows ["junk".toList, "i\t0\t0\t0\t1\t-1".toList]
      = [[JSNum.fin 0, JSNum.fin 0, JSNum.fin 0, JSNum.fin 1, JSNum.fin (-1)]] ∧
    getPreferredLoadColumn (processFile DataProcessor.fresh
      (header ++ "junk\ni\t0\t0\t0\t1\t-1".toList) "a.csv".toList) = Column.load1 ∧
    parseRows ["i\tx\t0\t0\t1\t-1".toList, "j\t0\t0\t0\t-1\t1".toList]
      = [[JSNum.fin 0, JSNum.fin 0, JSNum.fin 0, JSNum.fin (-1), JSNum.fin 1]] ∧
    getPreferredLoadColumn (processFile DataProcessor.fresh
      (header ++ "i\tx\t0\t0\t1\t-1\nj\t0\t0\t0\t-1\t1".toList) "a.csv".toList)
      = Column.load2 := by
  decide!

/-! ## Segmented regression (`calculateMaxSlope`, source lines 171 to 209) -/

theorem JSNum.eq_fin_of_isFinite (v : JSNum) (h : v.isFinite = true) :
    v = JSNum.fin v.toRat := by
  cases v <;> simp [JSNum.isFinite] at h
  rfl

theorem JSNum.add_fin (a b : ℚ) : (JSNum.fin a).add (JSNum.fin b) = JSNum.fin (a + b) := rfl

theorem JSNum.sub_fin (a b : ℚ) : (JSNum.fin a).sub (JSNum.fin b) = JSNum.fin (a - b) := rfl

theorem JSNum.mul_fin (a b : ℚ) : (JSNum.fin a).mul (JSNum.fin b) = JSNum.fin (a * b) := rfl

theorem JSNum.div_fin (a b : ℚ) (h : b ≠ 0) :
    (JSNum.fin a).div (JSNum.fin b) = JSNum.fin (a / b) := by
  simp [JSNum.div, h]

theorem foldl_add_fin (seg : List Pt) (f : Pt → JSNum) (g : Pt → ℚ) (c : ℚ)
    (h : ∀ p ∈ seg, f p = JSNum.fin (g p)) :
    seg.foldl (fun (a : JSNum) p => a.add (f p)) (JSNum.fin c)
      = JSNum.fin (c + (seg.map g).sum) := by
  induction seg generalizing c with
  | nil => simp
  | cons p seg ih =>
    have hp := h p (by simp)
    have hs : ∀ q ∈ seg, f q = JSNum.fin (g q) := fun q hq => h q (List.mem_cons_of_mem _ hq)
    rw [List.foldl_cons, hp, JSNum.add_fin, ih _ hs, List.map_cons, List.sum_cons, add_assoc]

theorem regressionSlope_eq (seg : List Pt) (hfin : AllFinite seg)
    (hden : (seg.length : ℚ) * (seg.map (fun p => p.1.toRat * p.1.toRat)).sum
      - (seg.map (fun p => p.1.toRat)).sum * (seg.map (fun p => p.1.toRat)).sum ≠ 0) :
    regressionSlope seg = JSNum.fin (olsSlope seg) := by
  unfold regressionSlope olsSlope
  have hx : ∀ p ∈ seg, p.1 = JSNum.fin p.1.toRat :=
    fun p hp => JSNum.eq_fin_of_isFinite _ (hfin p hp).1
  have hy : ∀ p ∈ seg, p.2 = JSNum.fin p.2.toRat :=
    fun p hp => JSNum.eq_fin_of_isFinite _ (hfin p hp).2
  have hxy : ∀ p ∈ seg, p.1.mul p.2 = JSNum.fin (p.1.toRat * p.2.toRat) := by
    intro p hp
    conv_lhs => rw [hx p hp, hy p hp]
    rfl
  have hxx : ∀ p ∈ seg, p.1.mul p.1 = JSNum.fin (p.1.toRat * p.1.toRat) := by
    intro p hp
    conv_lhs => rw [hx p hp]
    rfl
  rw [foldl_add_fin seg (fun p => p.1) _ 0 hx, foldl_add_fin seg (fun p => p.2) _ 0 hy,
    foldl_add_fin seg (fun p => p.1.mul p.2) _ 0 hxy,
    foldl_add_fin seg (fun p => p.1.mul p.1) _ 0 hxx]
  simp only [zero_add, JSNum.mul_fin, JSNum.sub_fin]
  rw [JSNum.div_fin _ _ hden]

theorem sum_sq_expand (c s : ℚ) (xs : List ℚ) :
    (xs.map (fun x => (c * x - s) * (c * x - s))).sum
      = c * c * (xs.map (fun x => x * x)).sum - 2 * c * s * xs.sum
        + (xs.length : ℚ) * (s * s) := by
  induction xs with
  | nil => simp
  | cons x xs ih =>
    simp only [List.map_cons, List.sum_cons, List.length_cons, Nat.cast_add, Nat.cast_one, ih]
    ring

theorem sum_sq_eq_zero (f : ℚ → ℚ) (xs : List ℚ) (h : (xs.map (fun x => f x * f x)).sum = 0) :
    ∀ x ∈ xs, f x = 0 := by
  induction xs with
  | nil => intro x hx; simp at hx
  | cons a xs ih =>
    have hnn : 0 ≤ (xs.map (fun x => f x * f x)).sum := by
      apply List.sum_nonneg
      intro y hy
      rw [List.mem_map] at hy
      obtain ⟨x, _, rfl⟩ := hy
      exact mul_self_nonneg _
    simp only [List.map_cons, List.sum_cons] at h
    have ha : f a * f a = 0 := by
      have := mul_self_nonneg (f a)
      linarith
    have hs : (xs.map (fun x => f x * f x)).sum = 0 := by linarith
    intro x hx
    rcases List.mem_cons.1 hx with e | hx2
    · rw [e]; exact mul_self_eq_zero.1 ha
    · exact ih hs x hx2

theorem denominator_ne_zero (xs : List ℚ) (a b : ℚ) (ha : a ∈ xs) (hb : b ∈ xs)
    (hab : a ≠ b) :
    (xs.length : ℚ) * (xs.map (fun x => x * x)).sum - xs.sum * xs.sum ≠ 0 := by
  intro h0
  have hlen : (xs.length : ℚ) ≠ 0 := by
    have : 0 < xs.length := List.length_pos_of_mem ha
    exact_mod_cast this.ne'
  have hexp := sum_sq_expand (xs.length : ℚ) xs.sum xs
  have hz : (xs.map (fun x => ((xs.length : ℚ) * x - xs.sum)
      * ((xs.length : ℚ) * x - xs.sum))).sum = 0 := by
    rw [hexp]
    have : (xs.length : ℚ) * (xs.length : ℚ) * (xs.map (fun x => x * x)).sum
        - 2 * (xs.length : ℚ) * xs.sum * xs.sum + (xs.length : ℚ) * (xs.sum * xs.sum)
        = (xs.length : ℚ) * ((xs.length : ℚ) * (xs.map (fun x => x * x)).sum
          - xs.sum * xs.sum) := by ring
    rw [this, h0, mul_zero]
  have hall := sum_sq_eq_zero (fun x => (xs.length : ℚ) * x - xs.sum) xs hz
  have e1 := hall a ha
  have e2 := hall b hb
  simp only at e1 e2
  have : (xs.length : ℚ) * a = (xs.length : ℚ) * b := by linarith
  exact hab (mul_left_cancel₀ hlen this)

theorem olsSlope_denominator_ne_zero (seg : List Pt) (p q : Pt) (hp : p ∈ seg) (hq : q ∈ seg)
    (hpq : p.1.toRat ≠ q.1.toRat) :
    (seg.length : ℚ) * (seg.map (fun p => p.1.toRat * p.1.toRat)).sum
      - (seg.map (fun p => p.1.toRat)).sum * (seg.map (fun p => p.1.toRat)).sum ≠ 0 := by
  have := denominator_ne_zero (seg.map (fun p => p.1.toRat)) p.1.toRat q.1.toRat
    (List.mem_map_of_mem _ hp) (List.mem_map_of_mem _ hq) hpq
  simpa [List.map_map, Function.comp_def] using this

theorem insertByX_perm (p : Pt) (l : List Pt) : (insertByX p l).Perm (p :: l) := by
  induction l with
  | nil => exact List.Perm.refl _
  | cons q qs ih =>
    simp only [insertByX]
    split
    · exact List.Perm.refl _
    · exact (List.Perm.cons q ih).trans (List.Perm.swap p q qs)

theorem sortByX_perm_aux (ps acc : List Pt) :
    (ps.foldl (fun acc p => insertByX p acc) acc).Perm (acc ++ ps) := by
  induction ps generalizing acc with
  | nil => simp
  | cons p ps ih =>
    rw [List.foldl_cons]
    refine (ih _).trans ?_
    refine ((insertByX_perm p acc).append_right ps).trans ?_
    simp only [List.cons_append]
    exact List.perm_middle.symm

theorem sortByX_perm (ps : List Pt) : (sortByX ps).Perm ps := by
  have := sortByX_perm_aux ps []
  simpa [sortByX] using this

theorem segmentOf_sortByX_perm (w : List Pt) (r : ℚ × ℚ) :
    (segmentOf (sortByX w) r).Perm (segmentOf w r) :=
  (sortByX_perm w).filter _

theorem olsSlope_perm (l1 l2 : List Pt) (h : l1.Perm l2) : olsSlope l1 = olsSlope l2 := by
  unfold olsSlope
  rw [h.length_eq, (h.map (fun p => p.1.toRat * p.2.toRat)).sum_eq,
    (h.map (fun p => p.1.toRat)).sum_eq, (h.map (fun p => p.2.toRat)).sum_eq,
    (h.map (fun p => p.1.toRat * p.1.toRat)).sum_eq]

theorem jsFin_lt_fin (a b : ℚ) : (JSNum.fin a).lt (JSNum.fin b) = decide (a < b) := rfl

/-- The loop over the sub-ranges, started with a running maximum that is `-Infinity` or
finite, on segments whose slope is finite: the result is the running maximum or the slope
of a segment with at least two points, it is at least each of them, and it is finite as
soon as one segment has two points. -/
theorem foldl_stepMaxSlope_spec (filtered : List Pt) (rs : List (ℚ × ℚ)) (acc : JSNum)
    (hslope : ∀ r ∈ rs, 2 ≤ (segmentOf filtered r).length →
      regressionSlope (segmentOf filtered r) = JSNum.fin (olsSlope (segmentOf filtered r)))
    (hacc : acc = JSNum.negInf ∨ ∃ a, acc = JSNum.fin a) :
    (rs.foldl (stepMaxSlope filtered) acc = acc ∨
      ∃ r ∈ rs, 2 ≤ (segmentOf filtered r).length ∧
        rs.foldl (stepMaxSlope filtered) acc = JSNum.fin (olsSlope (segmentOf filtered r))) ∧
    (rs.foldl (stepMaxSlope filtered) acc).lt acc = false ∧
    (∀ r ∈ rs, 2 ≤ (segmentOf filtered r).length →
      (rs.foldl (stepMaxSlope filtered) acc).lt
        (JSNum.fin (olsSlope (segmentOf filtered r))) = false) ∧
    (rs.foldl (stepMaxSlope filtered) acc = JSNum.negInf ∨
      ∃ a, rs.foldl (stepMaxSlope filtered) acc = JSNum.fin a) ∧
    ((∃ r ∈ rs, 2 ≤ (segmentOf filtered r).length) →
      ∃ a, rs.foldl (stepMaxSlope filtered) acc = JSNum.fin a) := by
  induction rs generalizing acc with
  | nil =>
    refine ⟨Or.inl rfl, jsLt_irrefl _, ?_, hacc, ?_⟩
    · intro r hr; simp at hr
    · rintro ⟨r, hr, _⟩; simp at hr
  | cons r rs ih =>
    have hslope2 : ∀ r2 ∈ rs, 2 ≤ (segmentOf filtered r2).length →
        regressionSlope (segmentOf filtered r2)
          = JSNum.fin (olsSlope (segmentOf filtered r2)) :=
      fun r2 h2 => hslope r2 (List.mem_cons_of_mem _ h2)
    have haccN : acc.isNaN = false := by
      rcases hacc with e | ⟨a, e⟩ <;> rw [e] <;> rfl
    rw [List.foldl_cons]
    by_cases hq : 2 ≤ (segmentOf filtered r).length
    · have hs := hslope r (by simp) hq
      by_cases hg : (regressionSlope (segmentOf filtered r)).gt acc = true
      · have hstep : stepMaxSlope filtered acc r
            = JSNum.fin (olsSlope (segmentOf filtered r)) := by
          unfold stepMaxSlope
          simp only [not_lt.2 hq, if_false]
          rw [if_pos hg, hs]
        rw [hstep]
        rw [hs] at hg
        simp only [JSNum.gt] at hg
        obtain ⟨i1, i2, i3, i4, i5⟩ := ih (JSNum.fin (olsSlope (segmentOf filtered r)))
          hslope2 (Or.inr ⟨_, rfl⟩)
        have hres : ∃ a, rs.foldl (stepMaxSlope filtered)
            (JSNum.fin (olsSlope (segmentOf filtered r))) = JSNum.fin a := by
          rcases i4 with e | e
          · rw [e] at i2; simp [JSNum.lt] at i2
          · exact e
        obtain ⟨a, ha⟩ := hres
        refine ⟨Or.inr ?_, ?_, ?_, Or.inr ⟨a, ha⟩, fun _ => ⟨a, ha⟩⟩
        · rcases i1 with e | ⟨r2, hr2, hq2, e⟩
          · exact ⟨r, by simp, hq, e⟩
          · exact ⟨r2, List.mem_cons_of_mem _ hr2, hq2, e⟩
        · exact jsLt_asymm _ _ (jsLt_of_lt_of_not_gt acc (JSNum.fin (olsSlope (segmentOf filtered r))) _
            rfl (by rw [ha]; rfl) hg i2)
        · intro r2 hr2 hq2
          rcases List.mem_cons.1 hr2 with e | hr3
          · rw [e]; exact i2
          · exact i3 r2 hr3 hq2
      · have hstep : stepMaxSlope filtered acc r = acc := by
          unfold stepMaxSlope
          simp only [not_lt.2 hq, if_false]
          rw [if_neg hg]
        rw [hstep]
        have hg2 : acc.lt (JSNum.fin (olsSlope (segmentOf filtered r))) = false := by
          rw [hs] at hg
          simp only [JSNum.gt] at hg
          simpa using hg
        obtain ⟨i1, i2, i3, i4, i5⟩ := ih acc hslope2 hacc
        have hres : ∃ a, rs.foldl (stepMaxSlope filtered) acc = JSNum.fin a := by
          rcases hacc with e | ⟨a, e⟩
          · rw [e] at hg2; simp [JSNum.lt] at hg2
          · rcases i4 with e2 | e2
            · rw [e2, e] at i2; simp [JSNum.lt] at i2
            · exact e2
        refine ⟨?_, i2, ?_, i4, fun _ => hres⟩
        · rcases i1 with e | ⟨r2, hr2, hq2, e⟩
          · exact Or.inl e
          · exact Or.inr ⟨r2, List.mem_cons_of_mem _ hr2, hq2, e⟩
        · intro r2 hr2 hq2
          rcases List.mem_cons.1 hr2 with e | hr3
          · rw [e]; exact jsNotGt_trans _ _ _ haccN hg2 i2
          · exact i3 r2 hr3 hq2
    · have hstep : stepMaxSlope filtered acc r = acc := by
        unfold stepMaxSlope
        simp [not_le.1 hq]
      rw [hstep]
      obtain ⟨i1, i2, i3, i4, i5⟩ := ih acc hslope2 hacc
      refine ⟨?_, i2, ?_, i4, ?_⟩
      · rcases i1 with e | ⟨r2, hr2, hq2, e⟩
        · exact Or.inl e
        · exact Or.inr ⟨r2, List.mem_cons_of_mem _ hr2, hq2, e⟩
      · intro r2 hr2 hq2
        rcases List.mem_cons.1 hr2 with e | hr3
        · rw [e] at hq2; exact absurd hq2 hq
        · exact i3 r2 hr3 hq2
      · rintro ⟨r2, hr2, hq2⟩
        rcases List.mem_cons.1 hr2 with e | hr3
        · rw [e] at hq2; exact absurd hq2 hq
        · exact i5 ⟨r2, hr3, hq2⟩

theorem onLineFlags_length (allPoints : List Pt) (m offset : JSNum) :
    (onLineFlags allPoints m offset).length = allPoints.length := by
  simp [onLineFlags]

theorem foldl_stepBestLine_spec (allPoints ps : List Pt) (m : JSNum) (acc : BestLine)
    (hacc : ∀ flags, acc.2.2 = some flags →
      flags.length = allPoints.length ∧ 0 < (flags.filter id).length) :
    ∀ flags, (ps.foldl (stepBestLine allPoints m) acc).2.2 = some flags →
      flags.length = allPoints.length ∧ 0 < (flags.filter id).length := by
  induction ps generalizing acc with
  | nil => exact hacc
  | cons p ps ih =>
    rw [List.foldl_cons]
    apply ih
    intro flags hflags
    unfold stepBestLine at hflags
    simp only at hflags
    split at hflags
    · rename_i hlt
      simp only [Option.some.injEq] at hflags
      rw [← hflags]
      exact ⟨onLineFlags_length _ _ _, by omega⟩
    · exact hacc flags hflags

theorem bestLine_flags (allPoints : List Pt) (m : JSNum) (flags : List Bool)
    (h : (bestLine allPoints m).2.2 = some flags) :
    flags.length = allPoints.length ∧ 0 < (flags.filter id).length := by
  unfold bestLine at h
  refine foldl_stepBestLine_spec allPoints allPoints m (none, 0, none) ?_ flags h
  intro f hf
  simp at hf

theorem selectFlagged_length (allPoints : List Pt) (flags : List Bool)
    (h : flags.length = allPoints.length) :
    (selectFlagged allPoints flags).length = (flags.filter id).length := by
  unfold selectFlagged
  rw [List.length_map]
  have e : flags = (allPoints.zip flags).map Prod.snd := by
    rw [List.map_snd_zip]
    omega
  conv_rhs => rw [e, List.filter_map, List.length_map]
  rfl

theorem foldl_stepExtremes_lt (lp : List Pt) (idxs : List Nat) (acc : Nat × Nat) (n : Nat)
    (hidx : ∀ i ∈ idxs, i < n) (h1 : acc.1 < n) (h2 : acc.2 < n) :
    (idxs.foldl (stepExtremes lp) acc).1 < n ∧ (idxs.foldl (stepExtremes lp) acc).2 < n := by
  induction idxs generalizing acc with
  | nil => exact ⟨h1, h2⟩
  | cons i idxs ih =>
    rw [List.foldl_cons]
    have hi : i < n := hidx i (by simp)
    apply ih _ (fun j hj => hidx j (List.mem_cons_of_mem _ hj))
    · unfold stepExtremes
      simp only
      split <;> assumption
    · unfold stepExtremes
      simp only
      split <;> assumption

theorem extremeIdx_lt (lp : List Pt) (h : 0 < lp.length) :
    (extremeIdx lp).1 < lp.length ∧ (extremeIdx lp).2 < lp.length := by
  unfold extremeIdx
  apply foldl_stepExtremes_lt lp _ (0, 0) lp.length _ h h
  intro i hi
  rw [List.mem_range'_1] at hi
  omega

/-- When the loop over the sub-ranges gives a slope, `calculateMaxSlope` completes and
stores that slope in `maxSlope`. -/
theorem calculateMaxSlope_sets_maxSlope (st : DataProcessor) (df : Dataset)
    (xCol yCol : Column) (hdf : st.originalDf = some df)
    (hm : segmentedMaxSlope (sortByX (windowPoints (df.get xCol) (df.get yCol)))
      ≠ JSNum.negInf) :
    ∃ st2, calculateMaxSlope st xCol yCol = .ok st2 ∧
      st2.maxSlope
        = some (segmentedMaxSlope (sortByX (windowPoints (df.get xCol) (df.get yCol)))) := by
  unfold calculateMaxSlope
  rw [hdf]
  simp only [if_neg hm]
  cases hb : (bestLine (sortByX (windowPoints (df.get xCol) (df.get yCol)))
      (segmentedMaxSlope (sortByX (windowPoints (df.get xCol) (df.get yCol))))).2.2 with
  | none => exact ⟨_, rfl, rfl⟩
  | some flags =>
    obtain ⟨hlen, hpos⟩ := bestLine_flags _ _ flags hb
    have hsel := selectFlagged_length _ flags hlen
    obtain ⟨h1, h2⟩ := extremeIdx_lt
      (selectFlagged (sortByX (windowPoints (df.get xCol) (df.get yCol))) flags)
      (by rw [hsel]; exact hpos)
    simp only [List.getElem?_eq_getElem h1, List.getElem?_eq_getElem h2]
    exact ⟨_, rfl, rfl⟩

theorem windowPoints_x_finite (xs ys : List JSNum) (p : Pt) (h : p ∈ windowPoints xs ys) :
    p.1.isFinite = true := by
  unfold windowPoints at h
  rw [List.mem_filter] at h
  have h2 := h.2
  simp only [Bool.and_eq_true, JSNum.gt] at h2
  obtain ⟨h3, h4⟩ := h2
  cases hp : p.1 <;> rw [hp] at h3 h4 <;> simp_all [JSNum.lt, JSNum.isFinite]

theorem mem_rangeSamples_window (df : Dataset) (xCol yCol : Column) (r : ℚ × ℚ) (p : Pt)
    (h : p ∈ rangeSamples df xCol yCol r) :
    p ∈ windowPoints (df.get xCol) (df.get yCol) := by
  unfold rangeSamples segmentOf at h
  exact (List.mem_filter.1 h).1

/-- C10 (amended): when at least one of the four ranges holds at least two of the samples
with X strictly between `0.01` and `0.1`, every such range has two samples with distinct
X, and the Y samples of these ranges are finite, `calculateMaxSlope` completes and sets
`maxSlope` to the maximum, over the ranges holding at least two samples, of the ordinary
least-squares slope of the samples of the range. -/
theorem calculateMaxSlope_is_max_ols (st : DataProcessor) (df : Dataset)
    (xCol yCol : Column) (hdf : st.originalDf = some df)
    (hsome : ∃ r ∈ ranges, 2 ≤ (rangeSamples df xCol yCol r).length)
    (hdistinct : ∀ r ∈ ranges, 2 ≤ (rangeSamples df xCol yCol r).length →
      ∃ p ∈ rangeSamples df xCol yCol r, ∃ q ∈ rangeSamples df xCol yCol r, p.1 ≠ q.1)
    (hfinY : ∀ r ∈ ranges, 2 ≤ (rangeSamples df xCol yCol r).length →
      ∀ p ∈ rangeSamples df xCol yCol r, p.2.isFinite = true) :
    ∃ st2 m, calculateMaxSlope st xCol yCol = .ok st2 ∧ st2.maxSlope = some (JSNum.fin m) ∧
      (∃ r ∈ ranges, 2 ≤ (rangeSamples df xCol yCol r).length ∧
        m = olsSlope (rangeSamples df xCol yCol r)) ∧
      ∀ r ∈ ranges, 2 ≤ (rangeSamples df xCol yCol r).length →
        olsSlope (rangeSamples df xCol yCol r) ≤ m := by
  have hperm : ∀ r, (segmentOf (sortByX (windowPoints (df.get xCol) (df.get yCol))) r).Perm
      (rangeSamples df xCol yCol r) := fun r => segmentOf_sortByX_perm _ r
  have hslope : ∀ r ∈ ranges,
      2 ≤ (segmentOf (sortByX (windowPoints (df.get xCol) (df.get yCol))) r).length →
      regressionSlope (segmentOf (sortByX (windowPoints (df.get xCol) (df.get yCol))) r)
        = JSNum.fin
          (olsSlope (segmentOf (sortByX (windowPoints (df.get xCol) (df.get yCol))) r)) := by
    intro r hr hlen
    rw [(hperm r).length_eq] at hlen
    have hfin : AllFinite (segmentOf (sortByX (windowPoints (df.get xCol) (df.get yCol))) r) := by
      intro p hp
      have hp2 := (hperm r).mem_iff.1 hp
      exact ⟨windowPoints_x_finite _ _ p (mem_rangeSamples_window _ _ _ _ p hp2),
        hfinY r hr hlen p hp2⟩
    obtain ⟨p, hp, q, hq, hpq⟩ := hdistinct r hr hlen
    have hp2 := (hperm r).mem_iff.2 hp
    have hq2 := (hperm r).mem_iff.2 hq
    apply regressionSlope_eq _ hfin
    apply olsSlope_denominator_ne_zero _ p q hp2 hq2
    intro e
    apply hpq
    rw [JSNum.eq_fin_of_isFinite _ (hfin p hp2).1, JSNum.eq_fin_of_isFinite _ (hfin q hq2).1, e]
  obtain ⟨i1, _, i3, _, i5⟩ := foldl_stepMaxSlope_spec
    (sortByX (windowPoints (df.get xCol) (df.get yCol))) ranges JSNum.negInf hslope (Or.inl rfl)
  obtain ⟨r0, hr0, hlen0⟩ := hsome
  obtain ⟨a, ha⟩ := i5 ⟨r0, hr0, by rw [(hperm r0).length_eq]; exact hlen0⟩
  have hseg : segmentedMaxSlope (sortByX (windowPoints (df.get xCol) (df.get yCol)))
      = JSNum.fin a := ha
  obtain ⟨st2, hok, hms⟩ := calculateMaxSlope_sets_maxSlope st df xCol yCol hdf
    (by rw [hseg]; simp)
  refine ⟨st2, a, hok, by rw [hms, hseg], ?_, ?_⟩
  · rcases i1 with e | ⟨r, hr, hlen, e⟩
    · rw [ha] at e; cases e
    · rw [ha] at e
      refine ⟨r, hr, by rw [← (hperm r).length_eq]; exact hlen, ?_⟩
      rw [← olsSlope_perm _ _ (hperm r)]
      exact JSNum.fin.inj e
  · intro r hr hlen
    have := i3 r hr (by rw [(hperm r).length_eq]; exact hlen)
    rw [ha, jsFin_lt_fin, olsSlope_perm _ _ (hperm r)] at this
    simpa using this

/-- Witness for C10: the sample dataset, whose first range holds the samples `(0.02, 1)`
and `(0.03, 2)`. -/
theorem calculateMaxSlope_is_max_ols_witness :
    sampleProcessed.originalDf = some sampleDataset ∧
    (∃ r ∈ ranges, 2 ≤ (rangeSamples sampleDataset Column.display1 Column.load1 r).length) ∧
    (∀ r ∈ ranges, 2 ≤ (rangeSamples sampleDataset Column.display1 Column.load1 r).length →
      ∃ p ∈ rangeSamples sampleDataset Column.display1 Column.load1 r,
        ∃ q ∈ rangeSamples sampleDataset Column.display1 Column.load1 r, p.1 ≠ q.1) ∧
    (∀ r ∈ ranges, 2 ≤ (rangeSamples sampleDataset Column.display1 Column.load1 r).length →
      ∀ p ∈ rangeSamples sampleDataset Column.display1 Column.load1 r,
        p.2.isFinite = true) ∧
    ∃ st2 m, calculateMaxSlope sampleProcessed Column.display1 Column.load1 = .ok st2 ∧
      st2.maxSlope = some (JSNum.fin m) ∧
      (∃ r ∈ ranges, 2 ≤ (rangeSamples sampleDataset Column.display1 Column.load1 r).length ∧
        m = olsSlope (rangeSamples sampleDataset Column.display1 Column.load1 r)) ∧
      ∀ r ∈ ranges, 2 ≤ (rangeSamples sampleDataset Column.display1 Column.load1 r).length →
        olsSlope (rangeSamples sampleDataset Column.display1 Column.load1 r) ≤ m :=
  ⟨rfl, by decide!, by decide!, by decide!,
    calculateMaxSlope_is_max_ols sampleProcessed sampleDataset Column.display1 Column.load1
      rfl (by decide!) (by decide!) (by decide!)⟩

/-- C10 (counterexample): with the samples `(0.02, 1)` and `(0.03, Infinity)` in the first
range (two samples, distinct X), the regression slope is `NaN`, no slope is ever greater
than `-Infinity`, and `calculateMaxSlope` returns without setting `maxSlope`. -/
theorem calculateMaxSlope_infinite_load_unset :
    ((1 / 100, 325 / 10000) : ℚ × ℚ) ∈ ranges ∧
    (infiniteLoadProcessed.toOption.bind (fun s => s.originalDf)).map
        (fun df => rangeSamples df Column.display1 Column.load1 (1 / 100, 325 / 10000))
      = some [(JSNum.fin (1 / 50), JSNum.fin 1), (JSNum.fin (3 / 100), JSNum.posInf)] ∧
    regressionSlope [(JSNum.fin (1 / 50), JSNum.fin 1), (JSNum.fin (3 / 100), JSNum.posInf)]
      = JSNum.nan ∧
    (infiniteLoadProcessed.toOption.bind
        (fun s => (calculateMaxSlope s Column.display1 Column.load1).toOption)).map
        (fun s => s.maxSlope) = some none := by
  decide!

/-! ## When the segmented regression finds a slope -/

theorem jsLt_isNaN_right (a b : JSNum) (h : a.lt b = true) : b.isNaN = false := by
  cases a <;> cases b <;> simp_all [JSNum.lt, JSNum.isNaN]

theorem foldl_stepMaxSlope_found (filtered : List Pt) (rs : List (ℚ × ℚ)) (acc : JSNum) :
    rs.foldl (stepMaxSlope filtered) acc = acc ∨
    ∃ r ∈ rs, 2 ≤ (segmentOf filtered r).length ∧
      rs.foldl (stepMaxSlope filtered) acc = regressionSlope (segmentOf filtered r) ∧
      (regressionSlope (segmentOf filtered r)).isNaN = false := by
  induction rs generalizing acc with
  | nil => left; rfl
  | cons r rs ih =>
    rw [List.foldl_cons]
    by_cases hq : 2 ≤ (segmentOf filtered r).length
    · by_cases hg : (regressionSlope (segmentOf filtered r)).gt acc = true
      · have hstep : stepMaxSlope filtered acc r = regressionSlope (segmentOf filtered r) := by
          unfold stepMaxSlope
          simp only [not_lt.2 hq, if_false]
          rw [if_pos hg]
        rw [hstep]
        right
        rcases ih (regressionSlope (segmentOf filtered r)) with e | ⟨r2, hr2, hq2, e, hn⟩
        · exact ⟨r, by simp, hq, e, jsLt_isNaN_right _ _ hg⟩
        · exact ⟨r2, List.mem_cons_of_mem _ hr2, hq2, e, hn⟩
      · have hstep : stepMaxSlope filtered acc r = acc := by
          unfold stepMaxSlope
          simp only [not_lt.2 hq, if_false]
          rw [if_neg hg]
        rw [hstep]
        rcases ih acc with e | ⟨r2, hr2, hq2, e, hn⟩
        · exact Or.inl e
        · exact Or.inr ⟨r2, List.mem_cons_of_mem _ hr2, hq2, e, hn⟩
    · have hstep : stepMaxSlope filtered acc r = acc := by
        unfold stepMaxSlope
        simp [not_le.1 hq]
      rw [hstep]
      rcases ih acc with e | ⟨r2, hr2, hq2, e, hn⟩
      · exact Or.inl e
      · exact Or.inr ⟨r2, List.mem_cons_of_mem _ hr2, hq2, e, hn⟩

theorem infTimes_pos (q : ℚ) (h : 0 < q) : JSNum.infTimes q = JSNum.posInf := by
  simp [JSNum.infTimes, h]

theorem infTimes_neg (q : ℚ) (h : 0 < q) : JSNum.infTimes (-q) = JSNum.negInf := by
  have h1 : ¬ (0 < -q) := by linarith
  have h2 : -q < 0 := by linarith
  simp [JSNum.infTimes, h1, h2]

theorem infTimes_zero : JSNum.infTimes 0 = JSNum.nan := by
  simp [JSNum.infTimes]

/-- One step of the two running sums `Sum(xy)` and `Sum(y)` for a positive finite `x`: the
sums stay both finite, or equal and not finite. -/
theorem kind_step (a b y : JSNum) (q : ℚ) (hq : 0 < q)
    (h : (a.isFinite = true ∧ b.isFinite = true) ∨ (a = b ∧ a.isFinite = false)) :
    ((a.add ((JSNum.fin q).mul y)).isFinite = true ∧ (b.add y).isFinite = true) ∨
      (a.add ((JSNum.fin q).mul y) = b.add y ∧
        (a.add ((JSNum.fin q).mul y)).isFinite = false) := by
  rcases h with ⟨h1, h2⟩ | ⟨h1, h2⟩
  · cases a <;> cases b <;> simp [JSNum.isFinite] at h1 h2
    cases y <;>
      simp [JSNum.add, JSNum.mul, JSNum.isFinite, infTimes_pos q hq, infTimes_neg q hq]
  · subst h1
    cases a <;> simp [JSNum.isFinite] at h2 <;> cases y <;>
      simp [JSNum.add, JSNum.mul, JSNum.isFinite, infTimes_pos q hq, infTimes_neg q hq]

theorem kind_fold (seg : List Pt) (hx : ∀ p ∈ seg, ∃ q, 0 < q ∧ p.1 = JSNum.fin q)
    (a b : JSNum)
    (h : (a.isFinite = true ∧ b.isFinite = true) ∨ (a = b ∧ a.isFinite = false)) :
    ((seg.foldl (fun (a : JSNum) p => a.add (p.1.mul p.2)) a).isFinite = true ∧
        (seg.foldl (fun (a : JSNum) p => a.add p.2) b).isFinite = true) ∨
      (seg.foldl (fun (a : JSNum) p => a.add (p.1.mul p.2)) a
          = seg.foldl (fun (a : JSNum) p => a.add p.2) b ∧
        (seg.foldl (fun (a : JSNum) p => a.add (p.1.mul p.2)) a).isFinite = false) := by
  induction seg generalizing a b with
  | nil => exact h
  | cons p seg ih =>
    obtain ⟨q, hq, hp⟩ := hx p (by simp)
    simp only [List.foldl_cons]
    apply ih (fun p2 h2 => hx p2 (List.mem_cons_of_mem _ h2))
    rw [hp]
    exact kind_step a b p.2 q hq h

theorem add_isFinite (a b : JSNum) (h : (a.add b).isFinite = true) :
    a.isFinite = true ∧ b.isFinite = true := by
  cases a <;> cases b <;> simp_all [JSNum.add, JSNum.isFinite]

theorem foldl_add_isFinite (seg : List Pt) (f : Pt → JSNum) (a : JSNum)
    (h : (seg.foldl (fun (a : JSNum) p => a.add (f p)) a).isFinite = true) :
    a.isFinite = true ∧ ∀ p ∈ seg, (f p).isFinite = true := by
  induction seg generalizing a with
  | nil => exact ⟨h, fun p hp => by simp at hp⟩
  | cons p seg ih =>
    rw [List.foldl_cons] at h
    obtain ⟨h1, h2⟩ := ih _ h
    obtain ⟨h3, h4⟩ := add_isFinite _ _ h1
    refine ⟨h3, ?_⟩
    intro p2 hp2
    rcases List.mem_cons.1 hp2 with e | hp3
    · rw [e]; exact h4
    · exact h2 p2 hp3

theorem infTimes_not_finite (q : ℚ) : (JSNum.infTimes q).isFinite = false := by
  unfold JSNum.infTimes
  split_ifs <;> rfl

theorem mul_fin_isFinite (a : ℚ) (u : JSNum) (h : ((JSNum.fin a).mul u).isFinite = true) :
    u.isFinite = true := by
  cases u with
  | nan => simp [JSNum.mul, JSNum.isFinite] at h
  | negInf => simp [JSNum.mul, infTimes_not_finite] at h
  | posInf => simp [JSNum.mul, infTimes_not_finite] at h
  | fin q => rfl

theorem sub_not_nan (a b : JSNum) (h : (a.sub b).isNaN = false)
    (hk : (a.isFinite = true ∧ b.isFinite = true) ∨ (a = b ∧ a.isFinite = false)) :
    a.isFinite = true ∧ b.isFinite = true := by
  rcases hk with hk | ⟨h1, h2⟩
  · exact hk
  · subst h1
    cases a <;> simp_all [JSNum.sub, JSNum.isFinite, JSNum.isNaN]

theorem div_not_nan (a b : JSNum) (h : (a.div b).isNaN = false) : a.isNaN = false := by
  cases a <;> simp_all [JSNum.div, JSNum.isNaN]

theorem kind_mul (u v : JSNum) (a b : ℚ) (ha : 0 < a) (hb : 0 < b)
    (h : (u.isFinite = true ∧ v.isFinite = true) ∨ (u = v ∧ u.isFinite = false)) :
    (((JSNum.fin a).mul u).isFinite = true ∧ ((JSNum.fin b).mul v).isFinite = true) ∨
      ((JSNum.fin a).mul u = (JSNum.fin b).mul v ∧
        ((JSNum.fin a).mul u).isFinite = false) := by
  rcases h with ⟨h1, h2⟩ | ⟨h1, h2⟩
  · cases u <;> cases v <;> simp [JSNum.isFinite] at h1 h2
    left
    exact ⟨rfl, rfl⟩
  · subst h1
    cases u <;> simp [JSNum.isFinite] at h2 <;>
      simp [JSNum.mul, JSNum.isFinite, infTimes_pos a ha, infTimes_pos b hb,
        infTimes_neg a ha, infTimes_neg b hb]

theorem sum_map_const {α : Type} (seg : List α) (f : α → ℚ) (c : ℚ)
    (h : ∀ p ∈ seg, f p = c) : (seg.map f).sum = (seg.length : ℚ) * c := by
  induction seg with
  | nil => simp
  | cons p seg ih =>
    rw [List.map_cons, List.sum_cons, h p (by simp),
      ih (fun q hq => h q (List.mem_cons_of_mem _ hq)), List.length_cons]
    push_cast
    ring

theorem sum_map_mul_const {α : Type} (seg : List α) (f g : α → ℚ) (c : ℚ)
    (h : ∀ p ∈ seg, f p = c) :
    (seg.map (fun p => f p * g p)).sum = c * (seg.map g).sum := by
  induction seg with
  | nil => simp
  | cons p seg ih =>
    rw [List.map_cons, List.sum_cons, h p (by simp),
      ih (fun q hq => h q (List.mem_cons_of_mem _ hq)), List.map_cons, List.sum_cons]
    ring

/-- With a zero denominator all X values coincide, and the numerator is zero too. -/
theorem numerator_zero_of_denominator_zero (seg : List Pt)
    (hden : (seg.length : ℚ) * (seg.map (fun p => p.1.toRat * p.1.toRat)).sum
      - (seg.map (fun p => p.1.toRat)).sum * (seg.map (fun p => p.1.toRat)).sum = 0) :
    (seg.length : ℚ) * (seg.map (fun p => p.1.toRat * p.2.toRat)).sum
      - (seg.map (fun p => p.1.toRat)).sum * (seg.map (fun p => p.2.toRat)).sum = 0 := by
  cases seg with
  | nil => simp
  | cons p0 seg =>
    have hall : ∀ p ∈ p0 :: seg, p.1.toRat = p0.1.toRat := by
      intro p hp
      by_contra hne
      exact olsSlope_denominator_ne_zero (p0 :: seg) p p0 hp (by simp) hne hden
    rw [sum_map_mul_const (p0 :: seg) (fun p => p.1.toRat) (fun p => p.2.toRat) _ hall,
      sum_map_const (p0 :: seg) (fun p => p.1.toRat) _ hall]
    ring

theorem regressionSlope_fin (seg : List Pt) (hfin : AllFinite seg) :
    regressionSlope seg
      = (JSNum.fin ((seg.length : ℚ) * (seg.map (fun p => p.1.toRat * p.2.toRat)).sum
          - (seg.map (fun p => p.1.toRat)).sum * (seg.map (fun p => p.2.toRat)).sum)).div
        (JSNum.fin ((seg.length : ℚ) * (seg.map (fun p => p.1.toRat * p.1.toRat)).sum
          - (seg.map (fun p => p.1.toRat)).sum * (seg.map (fun p => p.1.toRat)).sum)) := by
  unfold regressionSlope
  have hx : ∀ p ∈ seg, p.1 = JSNum.fin p.1.toRat :=
    fun p hp => JSNum.eq_fin_of_isFinite _ (hfin p hp).1
  have hy : ∀ p ∈ seg, p.2 = JSNum.fin p.2.toRat :=
    fun p hp => JSNum.eq_fin_of_isFinite _ (hfin p hp).2
  have hxy : ∀ p ∈ seg, p.1.mul p.2 = JSNum.fin (p.1.toRat * p.2.toRat) := by
    intro p hp
    conv_lhs => rw [hx p hp, hy p hp]
    rfl
  have hxx : ∀ p ∈ seg, p.1.mul p.1 = JSNum.fin (p.1.toRat * p.1.toRat) := by
    intro p hp
    conv_lhs => rw [hx p hp]
    rfl
  rw [foldl_add_fin seg (fun p => p.1) _ 0 hx, foldl_add_fin seg (fun p => p.2) _ 0 hy,
    foldl_add_fin seg (fun p => p.1.mul p.2) _ 0 hxy,
    foldl_add_fin seg (fun p => p.1.mul p.1) _ 0 hxx]
  simp only [zero_add, JSNum.mul_fin, JSNum.sub_fin]

/-- A segment of points with positive finite X whose regression slope is not `NaN` has
finite Y samples, and its slope is the finite least-squares slope. -/
theorem regressionSlope_not_nan (seg : List Pt)
    (hx : ∀ p ∈ seg, ∃ q, 0 < q ∧ p.1 = JSNum.fin q) (hne : seg ≠ [])
    (hnn : (regressionSlope seg).isNaN = false) :
    AllFinite seg ∧ regressionSlope seg = JSNum.fin (olsSlope seg) := by
  have hxf : ∀ p ∈ seg, p.1 = JSNum.fin p.1.toRat := by
    intro p hp
    obtain ⟨q, _, e⟩ := hx p hp
    rw [e]; rfl
  have hsx : seg.foldl (fun (a : JSNum) p => a.add p.1) (JSNum.fin 0)
      = JSNum.fin (0 + (seg.map (fun p => p.1.toRat)).sum) :=
    foldl_add_fin seg (fun p => p.1) _ 0 hxf
  have hxx : ∀ p ∈ seg, p.1.mul p.1 = JSNum.fin (p.1.toRat * p.1.toRat) := by
    intro p hp
    conv_lhs => rw [hxf p hp]
    rfl
  have hsxx := foldl_add_fin seg (fun p => p.1.mul p.1) _ 0 hxx
  have hpos : 0 < 0 + (seg.map (fun p => p.1.toRat)).sum := by
    rw [zero_add]
    apply List.sum_pos
    · intro v hv
      rw [List.mem_map] at hv
      obtain ⟨p, hp, rfl⟩ := hv
      obtain ⟨q, hq, e⟩ := hx p hp
      rw [e]; exact hq
    · simpa using hne
  have hlen : (0 : ℚ) < (seg.length : ℚ) := by
    have : 0 < seg.length := List.length_pos.2 hne
    exact_mod_cast this
  have hk := kind_fold seg hx (JSNum.fin 0) (JSNum.fin 0) (Or.inl ⟨rfl, rfl⟩)
  have hk2 := kind_mul _ _ (seg.length : ℚ) _ hlen hpos hk
  have hyfin : ∀ p ∈ seg, p.2.isFinite = true := by
    unfold regressionSlope at hnn
    simp only at hnn
    rw [hsx] at hnn
    have h1 := div_not_nan _ _ hnn
    have h2 := sub_not_nan _ _ h1 hk2
    have h3 := mul_fin_isFinite _ _ h2.2
    exact (foldl_add_isFinite seg (fun p => p.2) _ h3).2
  have hfin : AllFinite seg := by
    intro p hp
    refine ⟨?_, hyfin p hp⟩
    rw [hxf p hp]; rfl
  refine ⟨hfin, ?_⟩
  apply regressionSlope_eq seg hfin
  intro hden
  rw [regressionSlope_fin seg hfin, hden, numerator_zero_of_denominator_zero seg hden] at hnn
  simp [JSNum.div, infTimes_zero, JSNum.isNaN] at hnn

theorem windowPoints_x_pos (xs ys : List JSNum) (p : Pt) (h : p ∈ windowPoints xs ys) :
    ∃ q, 0 < q ∧ p.1 = JSNum.fin q := by
  unfold windowPoints at h
  rw [List.mem_filter] at h
  have h2 := h.2
  simp only [Bool.and_eq_true, JSNum.gt] at h2
  obtain ⟨h3, _⟩ := h2
  cases hp : p.1 with
  | nan => rw [hp] at h3; simp [JSNum.lt] at h3
  | negInf => rw [hp] at h3; simp [JSNum.lt] at h3
  | posInf =>
    have h4 := h.2
    simp only [Bool.and_eq_true, JSNum.gt] at h4
    rw [hp] at h4
    simp [JSNum.lt] at h4
  | fin q =>
    rw [hp] at h3
    simp only [JSNum.lt, decide_eq_true_eq] at h3
    exact ⟨q, by linarith, rfl⟩

theorem mem_segmentOf_sorted (w : List Pt) (r : ℚ × ℚ) (p : Pt)
    (h : p ∈ segmentOf (sortByX w) r) : p ∈ w := by
  unfold segmentOf at h
  exact (sortByX_perm w).mem_iff.1 (List.mem_filter.1 h).1

/-- When the loop over the sub-ranges gives a slope, that slope is finite: it is the
least-squares slope of a sub-range with at least two points, all of them finite. -/
theorem segmentedMaxSlope_found (xs ys : List JSNum)
    (hfound : segmentedMaxSlope (sortByX (windowPoints xs ys)) ≠ JSNum.negInf) :
    ∃ r ∈ ranges, 2 ≤ (segmentOf (sortByX (windowPoints xs ys)) r).length ∧
      AllFinite (segmentOf (sortByX (windowPoints xs ys)) r) ∧
      segmentedMaxSlope (sortByX (windowPoints xs ys))
        = JSNum.fin (olsSlope (segmentOf (sortByX (windowPoints xs ys)) r)) := by
  rcases foldl_stepMaxSlope_found (sortByX (windowPoints xs ys)) ranges JSNum.negInf with
    e | ⟨r, hr, hlen, e, hnn⟩
  · exact absurd e hfound
  · have hx : ∀ p ∈ segmentOf (sortByX (windowPoints xs ys)) r,
        ∃ q, 0 < q ∧ p.1 = JSNum.fin q :=
      fun p hp => windowPoints_x_pos xs ys p (mem_segmentOf_sorted _ r p hp)
    have hne : segmentOf (sortByX (windowPoints xs ys)) r ≠ [] := by
      intro e2
      rw [e2] at hlen
      simp at hlen
    obtain ⟨hfin, hs⟩ := regressionSlope_not_nan _ hx hne hnn
    exact ⟨r, hr, hlen, hfin, e.trans hs⟩

/-! ## The best-supported line (`calculateMaxSlope`, source lines 211 to 227) -/

theorem selectFlagged_map (P : List Pt) (f : Pt → Bool) :
    selectFlagged P (P.map f) = P.filter f := by
  unfold selectFlagged
  induction P with
  | nil => rfl
  | cons p P ih =>
    simp only [List.map_cons, List.zip_cons_cons, List.filter_cons]
    by_cases h : f p = true
    · simp only [h, if_true, List.map_cons, ih]
    · have hf : f p = false := by simpa using h
      simp only [hf, Bool.false_eq_true, if_false, ih]

theorem selectFlagged_onLineFlags (P : List Pt) (m b : JSNum) :
    selectFlagged P (onLineFlags P m b) = P.filter (isInlier m b) :=
  selectFlagged_map P _

theorem count_onLineFlags (P : List Pt) (m : JSNum) (q : Pt) :
    ((onLineFlags P m (q.2.sub (m.mul q.1))).filter id).length = inlierCount P m q := by
  rw [← selectFlagged_length P _ (onLineFlags_length P m _), selectFlagged_onLineFlags]
  rfl

theorem stepBestLine_eq (P : List Pt) (m : JSNum) (acc : BestLine) (q : Pt) :
    stepBestLine P m acc q
      = if acc.2.1 < inlierCount P m q then
          (some (candidateOffset m q), inlierCount P m q,
            some (onLineFlags P m (candidateOffset m q)))
        else acc := by
  unfold stepBestLine
  simp only [count_onLineFlags]
  rfl

/-- The scan of the candidate points keeps the first candidate whose inlier count exceeds
the running count and is not exceeded later. -/
theorem foldl_stepBestLine_first (P l : List Pt) (m : JSNum) (acc : BestLine) :
    (l.foldl (stepBestLine P m) acc = acc ∧ ∀ q ∈ l, inlierCount P m q ≤ acc.2.1) ∨
    ∃ i q, l[i]? = some q ∧
      l.foldl (stepBestLine P m) acc
        = (some (candidateOffset m q), inlierCount P m q,
            some (onLineFlags P m (candidateOffset m q))) ∧
      acc.2.1 < inlierCount P m q ∧
      (∀ (j : Nat) (p : Pt), j < i → l[j]? = some p →
        inlierCount P m p < inlierCount P m q) ∧
      ∀ p ∈ l, inlierCount P m p ≤ inlierCount P m q := by
  induction l generalizing acc with
  | nil => left; exact ⟨rfl, fun q hq => by simp at hq⟩
  | cons q l ih =>
    rw [List.foldl_cons, stepBestLine_eq]
    by_cases h : acc.2.1 < inlierCount P m q
    · rw [if_pos h]
      right
      rcases ih (some (candidateOffset m q), inlierCount P m q,
          some (onLineFlags P m (candidateOffset m q))) with ⟨e, hle⟩ | ⟨i, q2, hi, e, hlt, hfirst, hall⟩
      · refine ⟨0, q, by simp, e, h, ?_, ?_⟩
        · intro j p hj
          simp at hj
        · intro p hp
          rcases List.mem_cons.1 hp with e2 | hp2
          · rw [e2]
          · exact hle p hp2
      · simp only at hlt
        refine ⟨i + 1, q2, by simpa using hi, e, by omega, ?_, ?_⟩
        · intro j p hj hp
          cases j with
          | zero =>
            simp only [List.getElem?_cons_zero, Option.some.injEq] at hp
            rw [← hp]; exact hlt
          | succ j =>
            rw [List.getElem?_cons_succ] at hp
            exact hfirst j p (by omega) hp
        · intro p hp
          rcases List.mem_cons.1 hp with e2 | hp2
          · rw [e2]; omega
          · exact hall p hp2
    · rw [if_neg h]
      rcases ih acc with ⟨e, hle⟩ | ⟨i, q2, hi, e, hlt, hfirst, hall⟩
      · left
        refine ⟨e, ?_⟩
        intro p hp
        rcases List.mem_cons.1 hp with e2 | hp2
        · rw [e2]; omega
        · exact hle p hp2
      · right
        refine ⟨i + 1, q2, by simpa using hi, e, hlt, ?_, ?_⟩
        · intro j p hj hp
          cases j with
          | zero =>
            simp only [List.getElem?_cons_zero, Option.some.injEq] at hp
            rw [← hp]; omega
          | succ j =>
            rw [List.getElem?_cons_succ] at hp
            exact hfirst j p (by omega) hp
        · intro p hp
          rcases List.mem_cons.1 hp with e2 | hp2
          · rw [e2]; omega
          · exact hall p hp2

/-- A finite point is an inlier of the candidate line of finite slope through itself. -/
theorem isInlier_self (m x y : ℚ) :
    isInlier (JSNum.fin m) (candidateOffset (JSNum.fin m) (JSNum.fin x, JSNum.fin y))
      (JSNum.fin x, JSNum.fin y) = true := by
  simp only [isInlier, candidateOffset, JSNum.mul_fin, JSNum.sub_fin, JSNum.add_fin,
    JSNum.abs, JSNum.lt, decide_eq_true_eq]
  have : y - (m * x + (y - m * x)) = 0 := by ring
  rw [this]
  norm_num

/-- With a finite slope and a finite point among the candidates, the scan of step 2 ends
on the first candidate of maximal inlier count, and that count is positive. -/
theorem bestLine_found (P : List Pt) (m x0 y0 : ℚ) (hp0 : (JSNum.fin x0, JSNum.fin y0) ∈ P) :
    ∃ i q, P[i]? = some q ∧
      bestLine P (JSNum.fin m)
        = (some (candidateOffset (JSNum.fin m) q), inlierCount P (JSNum.fin m) q,
            some (onLineFlags P (JSNum.fin m) (candidateOffset (JSNum.fin m) q))) ∧
      0 < inlierCount P (JSNum.fin m) q ∧
      (∀ (j : Nat) (p : Pt), j < i → P[j]? = some p →
        inlierCount P (JSNum.fin m) p < inlierCount P (JSNum.fin m) q) ∧
      ∀ p ∈ P, inlierCount P (JSNum.fin m) p ≤ inlierCount P (JSNum.fin m) q := by
  have hself : 0 < inlierCount P (JSNum.fin m) (JSNum.fin x0, JSNum.fin y0) := by
    unfold inlierCount
    apply List.length_pos_of_mem (a := (JSNum.fin x0, JSNum.fin y0))
    rw [List.mem_filter]
    exact ⟨hp0, isInlier_self m x0 y0⟩
  rcases foldl_stepBestLine_first P P (JSNum.fin m) (none, 0, none) with
    ⟨_, hle⟩ | ⟨i, q, hi, e, hlt, hfirst, hall⟩
  · have := hle _ hp0
    simp only at this
    omega
  · exact ⟨i, q, hi, e, by simp only at hlt; omega, hfirst, hall⟩

/-- The record `calculateMaxSlope` returns when the loop over the sub-ranges gives a
slope and step 2 gives a best line. -/
theorem calculateMaxSlope_found_eq (st : DataProcessor) (df : Dataset) (xCol yCol : Column)
    (flags : List Bool) (p1 p2 : Pt) (hdf : st.originalDf = some df)
    (hm : segmentedMaxSlope (sortByX (windowPoints (df.get xCol) (df.get yCol)))
      ≠ JSNum.negInf)
    (hflags : (bestLine (sortByX (windowPoints (df.get xCol) (df.get yCol)))
      (segmentedMaxSlope (sortByX (windowPoints (df.get xCol) (df.get yCol))))).2.2
      = some flags)
    (h1 : (selectFlagged (sortByX (windowPoints (df.get xCol) (df.get yCol))) flags)[
      (extremeIdx (selectFlagged (sortByX (windowPoints (df.get xCol) (df.get yCol)))
        flags)).1]? = some p1)
    (h2 : (selectFlagged (sortByX (windowPoints (df.get xCol) (df.get yCol))) flags)[
      (extremeIdx (selectFlagged (sortByX (windowPoints (df.get xCol) (df.get yCol)))
        flags)).2]? = some p2) :
    calculateMaxSlope st xCol yCol = .ok { st with
      maxSlope := some (segmentedMaxSlope (sortByX (windowPoints (df.get xCol) (df.get yCol))))
      originalSlopePointOne := some p1
      originalSlopePointTwo := some p2
      linePoints := some
        ((p1.1.sub ((p2.1.sub p1.1).mul (.fin (1 / 2))),
          ((segmentedMaxSlope (sortByX (windowPoints (df.get xCol) (df.get yCol)))).mul
            (p1.1.sub ((p2.1.sub p1.1).mul (.fin (1 / 2))))).add
            (p1.2.sub ((segmentedMaxSlope
              (sortByX (windowPoints (df.get xCol) (df.get yCol)))).mul p1.1))),
         (p2.1.add ((p2.1.sub p1.1).mul (.fin (1 / 2))),
          ((segmentedMaxSlope (sortByX (windowPoints (df.get xCol) (df.get yCol)))).mul
            (p2.1.add ((p2.1.sub p1.1).mul (.fin (1 / 2))))).add
            (p1.2.sub ((segmentedMaxSlope
              (sortByX (windowPoints (df.get xCol) (df.get yCol)))).mul p1.1)))) } := by
  unfold calculateMaxSlope
  rw [hdf]
  simp only [if_neg hm, hflags, h1, h2]

theorem xAt_eq (lp : List Pt) (j : Nat) (p : Pt) (h : lp[j]? = some p) : xAt lp j = p.1 := by
  simp [xAt, List.getD_eq_getElem?_getD, h]

theorem stepExtremes_inv (lp : List Pt) (t : Nat) (acc : Nat × Nat)
    (hnn : ∀ j, j ≤ t → (xAt lp j).isNaN = false) (h : ExtremesUpTo lp t acc) :
    ExtremesUpTo lp (t + 1) (stepExtremes lp acc t) := by
  obtain ⟨b1, b2, m1, m2, n1, n2⟩ := h
  have e : stepExtremes lp acc t
      = (if (xAt lp t).lt (xAt lp acc.1) then t else acc.1,
         if (xAt lp t).gt (xAt lp acc.2) then t else acc.2) := rfl
  rw [e]
  refine ⟨?_, ?_, ?_, ?_, ?_, ?_⟩
  · simp only; split <;> omega
  · simp only; split <;> omega
  · intro j hj
    simp only
    by_cases hlt : (xAt lp t).lt (xAt lp acc.1) = true
    · rw [if_pos hlt]
      by_cases hjt : j = t
      · rw [hjt]; exact jsLt_irrefl _
      · exact jsLt_asymm _ _ (jsLt_of_lt_of_not_gt _ _ _ (hnn _ (by omega)) (hnn _ (by omega))
          hlt (m1 j (by omega)))
    · rw [if_neg hlt]
      by_cases hjt : j = t
      · rw [hjt]; simpa using hlt
      · exact m1 j (by omega)
  · intro j hj
    simp only at hj ⊢
    by_cases hlt : (xAt lp t).lt (xAt lp acc.1) = true
    · rw [if_pos hlt] at hj ⊢
      exact jsLt_of_lt_of_not_gt _ _ _ (hnn _ (by omega)) (hnn _ (by omega)) hlt (m1 j hj)
    · rw [if_neg hlt] at hj ⊢
      exact m2 j hj
  · intro j hj
    simp only
    by_cases hgt : (xAt lp t).gt (xAt lp acc.2) = true
    · rw [if_pos hgt]
      simp only [JSNum.gt] at hgt
      by_cases hjt : j = t
      · rw [hjt]; exact jsLt_irrefl _
      · exact jsLt_asymm _ _ (jsLt_of_not_gt_of_lt _ _ _ (hnn _ (by omega)) (hnn _ (by omega))
          (n1 j (by omega)) hgt)
    · rw [if_neg hgt]
      by_cases hjt : j = t
      · rw [hjt]
        simp only [JSNum.gt] at hgt
        simpa using hgt
      · exact n1 j (by omega)
  · intro j hj
    simp only at hj ⊢
    by_cases hgt : (xAt lp t).gt (xAt lp acc.2) = true
    · rw [if_pos hgt] at hj ⊢
      simp only [JSNum.gt] at hgt
      exact jsLt_of_not_gt_of_lt _ _ _ (hnn _ (by omega)) (hnn _ (by omega)) (n1 j hj) hgt
    · rw [if_neg hgt] at hj ⊢
      exact n2 j hj

theorem foldl_stepExtremes_inv (lp : List Pt) (n s : Nat) (acc : Nat × Nat)
    (hnn : ∀ j, j < s + n → (xAt lp j).isNaN = false) (h : ExtremesUpTo lp s acc) :
    ExtremesUpTo lp (s + n) ((List.range' s n).foldl (stepExtremes lp) acc) := by
  induction n generalizing s acc with
  | zero => simpa using h
  | succ n ih =>
    rw [List.range'_succ, List.foldl_cons]
    have := ih (s + 1) (stepExtremes lp acc s) (fun j hj => hnn j (by omega))
      (stepExtremes_inv lp s acc (fun j hj => hnn j (by omega)) h)
    have e : s + 1 + n = s + (n + 1) := by omega
    rw [e] at this
    exact this

/-- On a non-empty list of points with finite X, the loop of source lines 232 to 236
ends on the first index of the least X and the first index of the greatest X. -/
theorem extremeIdx_spec (lp : List Pt) (hne : lp ≠ [])
    (hfin : ∀ p ∈ lp, p.1.isFinite = true) :
    ∃ p1 p2, IsFirstMinXAt lp (extremeIdx lp).1 p1 ∧ IsFirstMaxXAt lp (extremeIdx lp).2 p2 := by
  have hlen : 0 < lp.length := List.length_pos.2 hne
  have hx : ∀ j (hj : j < lp.length), xAt lp j = lp[j].1 := fun j hj =>
    xAt_eq lp j _ (List.getElem?_eq_getElem hj)
  have hnn : ∀ j, j < 1 + (lp.length - 1) → (xAt lp j).isNaN = false := by
    intro j hj
    have hj2 : j < lp.length := by omega
    rw [hx j hj2]
    have := hfin _ (List.getElem_mem hj2)
    cases h : lp[j].1 <;> rw [h] at this <;> simp_all [JSNum.isFinite, JSNum.isNaN]
  have h0 : ExtremesUpTo lp 1 (0, 0) := by
    refine ⟨by simp, by simp, ?_, ?_, ?_, ?_⟩
    · intro j hj
      have : j = 0 := by omega
      rw [this]; exact jsLt_irrefl _
    · intro j hj; simp at hj
    · intro j hj
      have : j = 0 := by omega
      rw [this]; exact jsLt_irrefl _
    · intro j hj; simp at hj
  have hinv := foldl_stepExtremes_inv lp (lp.length - 1) 1 (0, 0) hnn h0
  have e : 1 + (lp.length - 1) = lp.length := by omega
  rw [e] at hinv
  obtain ⟨b1, b2, m1, m2, n1, n2⟩ := hinv
  have hb1 : (extremeIdx lp).1 < lp.length := b1
  have hb2 : (extremeIdx lp).2 < lp.length := b2
  refine ⟨lp[(extremeIdx lp).1], lp[(extremeIdx lp).2],
    ⟨List.getElem?_eq_getElem hb1, ?_, ?_⟩, ⟨List.getElem?_eq_getElem hb2, ?_, ?_⟩⟩
  · intro q hq
    obtain ⟨j, hj, rfl⟩ := List.getElem_of_mem hq
    rw [← hx j hj, ← hx _ hb1]
    exact m1 j hj
  · intro j q hj hq e2
    have hjl : j < lp.length := by omega
    have h3 := m2 j hj
    rw [hx j hjl] at h3
    have hq2 : lp[j] = q := by
      rw [List.getElem?_eq_getElem hjl] at hq
      exact Option.some.inj hq
    change (xAt lp (extremeIdx lp).1).lt lp[j].1 = true at h3
    rw [hx _ hb1, hq2, e2, jsLt_irrefl] at h3
    cases h3
  · intro q hq
    obtain ⟨j, hj, rfl⟩ := List.getElem_of_mem hq
    simp only [JSNum.gt]
    rw [← hx j hj, ← hx _ hb2]
    exact n1 j hj
  · intro j q hj hq e2
    have hjl : j < lp.length := by omega
    have h3 := n2 j hj
    rw [hx j hjl] at h3
    have hq2 : lp[j] = q := by
      rw [List.getElem?_eq_getElem hjl] at hq
      exact Option.some.inj hq
    change lp[j].1.lt (xAt lp (extremeIdx lp).2) = true at h3
    rw [hx _ hb2, hq2, e2, jsLt_irrefl] at h3
    cases h3

/-- When the loop over the sub-ranges gives a slope, the best line has flags and both
endpoint scans land on a selected inlier. -/
theorem found_flags_points (df : Dataset) (xCol yCol : Column)
    (hfound : segmentedMaxSlope (sortByX (windowPoints (df.get xCol) (df.get yCol)))
      ≠ JSNum.negInf) :
    ∃ flags p1 p2,
      (bestLine (sortByX (windowPoints (df.get xCol) (df.get yCol)))
        (segmentedMaxSlope (sortByX (windowPoints (df.get xCol) (df.get yCol))))).2.2
        = some flags ∧
      (selectFlagged (sortByX (windowPoints (df.get xCol) (df.get yCol))) flags)[
        (extremeIdx (selectFlagged (sortByX (windowPoints (df.get xCol) (df.get yCol)))
          flags)).1]? = some p1 ∧
      (selectFlagged (sortByX (windowPoints (df.get xCol) (df.get yCol))) flags)[
        (extremeIdx (selectFlagged (sortByX (windowPoints (df.get xCol) (df.get yCol)))
          flags)).2]? = some p2 := by
  obtain ⟨r, _, hlen, hfin, hm⟩ := segmentedMaxSlope_found _ _ hfound
  obtain ⟨p0, hp0⟩ : ∃ p0, p0 ∈ segmentOf (sortByX (windowPoints (df.get xCol)
      (df.get yCol))) r := by
    apply List.exists_mem_of_length_pos
    omega
  have hp0P : p0 ∈ sortByX (windowPoints (df.get xCol) (df.get yCol)) :=
    (List.mem_filter.1 hp0).1
  have hp0e : p0 = (JSNum.fin p0.1.toRat, JSNum.fin p0.2.toRat) :=
    Prod.ext (JSNum.eq_fin_of_isFinite _ (hfin p0 hp0).1)
      (JSNum.eq_fin_of_isFinite _ (hfin p0 hp0).2)
  rw [hp0e] at hp0P
  obtain ⟨i, q, _, hbest, hpos, _, _⟩ := bestLine_found _
    (olsSlope (segmentOf (sortByX (windowPoints (df.get xCol) (df.get yCol))) r))
    p0.1.toRat p0.2.toRat hp0P
  rw [← hm] at hbest hpos
  obtain ⟨flags, hfl⟩ : ∃ flags, flags = onLineFlags
      (sortByX (windowPoints (df.get xCol) (df.get yCol)))
      (segmentedMaxSlope (sortByX (windowPoints (df.get xCol) (df.get yCol))))
      (candidateOffset (segmentedMaxSlope (sortByX (windowPoints (df.get xCol)
        (df.get yCol)))) q) := ⟨_, rfl⟩
  have hflags : (bestLine (sortByX (windowPoints (df.get xCol) (df.get yCol)))
      (segmentedMaxSlope (sortByX (windowPoints (df.get xCol) (df.get yCol))))).2.2
      = some flags := by rw [hbest, hfl]
  have hsel : selectFlagged (sortByX (windowPoints (df.get xCol) (df.get yCol))) flags
      = (sortByX (windowPoints (df.get xCol) (df.get yCol))).filter
          (isInlier (segmentedMaxSlope (sortByX (windowPoints (df.get xCol) (df.get yCol))))
            (candidateOffset (segmentedMaxSlope (sortByX (windowPoints (df.get xCol)
              (df.get yCol)))) q)) := by
    rw [hfl]; exact selectFlagged_onLineFlags _ _ _
  have hlpne : selectFlagged (sortByX (windowPoints (df.get xCol) (df.get yCol))) flags
      ≠ [] := by
    rw [hsel]
    exact List.length_pos.1 hpos
  have hlt := extremeIdx_lt _ (List.length_pos.2 hlpne)
  exact ⟨flags, _, _, hflags, List.getElem?_eq_getElem hlt.1,
    List.getElem?_eq_getElem hlt.2⟩

/-- When the loop over the sub-ranges gives a slope, `setColumns` completes. -/
theorem setColumns_completes_when_found (st : DataProcessor) (first : JSString)
    (rest : List JSString) (xCol yCol : Column) (hraw : st.rawData = some (first :: rest))
    (hfound : segmentedMaxSlope (sortByX (windowPoints
        ((truncateAfterDrop (normalizeColumns (parseRows (first :: rest)) xCol yCol)
          yCol).get xCol)
        ((truncateAfterDrop (normalizeColumns (parseRows (first :: rest)) xCol yCol)
          yCol).get yCol))) ≠ JSNum.negInf) :
    ∃ st2, setColumns st xCol yCol = .ok st2 := by
  obtain ⟨flags, p1, p2, hflags, h1, h2⟩ := found_flags_points _ xCol yCol hfound
  unfold setColumns
  rw [processData_ok st first rest xCol yCol hraw]
  simp only
  rw [calculateMaxSlope_found_eq _ _ xCol yCol flags p1 p2 rfl hfound hflags h1 h2]
  simp only [calculateAreaUnderCurve]
  exact ⟨_, rfl⟩

/-! ## The sort by X -/

theorem cmpX_lt_zero (a b : ℚ) (y1 y2 : JSNum) :
    (cmpX (JSNum.fin a, y1) (JSNum.fin b, y2)).lt (JSNum.fin 0) = decide (a < b) := by
  simp only [cmpX, JSNum.sub_fin, jsFin_lt_fin]
  by_cases h : a < b
  · have : a - b < 0 := by linarith
    simp [h, this]
  · have : ¬ (a - b < 0) := by linarith
    simp [h, this]

theorem insertByX_sorted (p : Pt) (l : List Pt) (hp : p.1.isFinite = true)
    (hl : ∀ q ∈ l, q.1.isFinite = true)
    (hs : l.Pairwise (fun a b => a.1.toRat ≤ b.1.toRat)) :
    (insertByX p l).Pairwise (fun a b => a.1.toRat ≤ b.1.toRat) := by
  induction l with
  | nil => simp [insertByX]
  | cons q qs ih =>
    have hq := hl q (by simp)
    have hpe : p = (JSNum.fin p.1.toRat, p.2) := Prod.ext (JSNum.eq_fin_of_isFinite _ hp) rfl
    have hqe : q = (JSNum.fin q.1.toRat, q.2) := Prod.ext (JSNum.eq_fin_of_isFinite _ hq) rfl
    have hc : (cmpX p q).lt (JSNum.fin 0) = decide (p.1.toRat < q.1.toRat) := by
      conv_lhs => rw [hpe, hqe]
      exact cmpX_lt_zero _ _ _ _
    rw [List.pairwise_cons] at hs
    simp only [insertByX, hc]
    by_cases h : p.1.toRat < q.1.toRat
    · simp only [h, decide_True, if_true]
      refine List.Pairwise.cons ?_ (List.Pairwise.cons hs.1 hs.2)
      intro b hb
      rcases List.mem_cons.1 hb with e | hb2
      · rw [e]; exact le_of_lt h
      · exact le_trans (le_of_lt h) (hs.1 b hb2)
    · simp only [h, decide_False, Bool.false_eq_true, if_false]
      refine List.Pairwise.cons ?_ (ih (fun x hx => hl x (List.mem_cons_of_mem _ hx)) hs.2)
      intro b hb
      rcases List.mem_cons.1 ((insertByX_perm p qs).mem_iff.1 hb) with e | hb2
      · rw [e]; exact not_lt.1 h
      · exact hs.1 b hb2

theorem sortByX_sorted_aux (ps acc : List Pt) (hps : ∀ q ∈ ps, q.1.isFinite = true)
    (hacc : ∀ q ∈ acc, q.1.isFinite = true)
    (hs : acc.Pairwise (fun a b => a.1.toRat ≤ b.1.toRat)) :
    (ps.foldl (fun acc p => insertByX p acc) acc).Pairwise
      (fun a b => a.1.toRat ≤ b.1.toRat) := by
  induction ps generalizing acc with
  | nil => exact hs
  | cons p ps ih =>
    rw [List.foldl_cons]
    apply ih _ (fun q hq => hps q (List.mem_cons_of_mem _ hq))
    · intro q hq
      rcases List.mem_cons.1 ((insertByX_perm p acc).mem_iff.1 hq) with e | hq2
      · rw [e]; exact hps p (by simp)
      · exact hacc q hq2
    · exact insertByX_sorted p acc (hps p (by simp)) hacc hs

theorem sortByX_sorted (ps : List Pt) (hps : ∀ q ∈ ps, q.1.isFinite = true) :
    (sortByX ps).Pairwise (fun a b => a.1.toRat ≤ b.1.toRat) :=
  sortByX_sorted_aux ps [] hps (fun q hq => by simp at hq) List.Pairwise.nil


/-! ## Endpoints and extended line (`calculateMaxSlope`, source lines 229 to 252) -/

theorem isInlier_finite (m x : ℚ) (y b : JSNum)
    (h : isInlier (JSNum.fin m) b (JSNum.fin x, y) = true) : y.isFinite = true := by
  cases y <;> cases b <;>
    simp_all [isInlier, JSNum.mul_fin, JSNum.add, JSNum.sub, JSNum.abs, JSNum.lt,
      JSNum.isFinite]

theorem mem_sortByX_window_finite (xs ys : List JSNum) (p : Pt)
    (h : p ∈ sortByX (windowPoints xs ys)) : p.1.isFinite = true :=
  windowPoints_x_finite xs ys p ((sortByX_perm _).mem_iff.1 h)

/-- C11: whenever `calculateMaxSlope` finds a slope, it completes with a finite `maxSlope`
`m`; `originalSlopePointOne` is the inlier `(x1, y1)` of least X and
`originalSlopePointTwo` the inlier `(x2, y2)` of greatest X of the best-supported line
(first occurrence on ties); and `linePoints` is the segment from
`(x1 - 0.5*(x2-x1), m*(x1 - 0.5*(x2-x1)) + b)` to
`(x2 + 0.5*(x2-x1), m*(x2 + 0.5*(x2-x1)) + b)` with `b = y1 - m*x1`, so that the line
passes through `(x1, y1)`, spans twice the inlier X span and has slope `m`. -/
theorem calculateMaxSlope_line (st : DataProcessor) (df : Dataset) (xCol yCol : Column)
    (P : List Pt) (hdf : st.originalDf = some df)
    (hP : P = sortByX (windowPoints (df.get xCol) (df.get yCol)))
    (hfound : segmentedMaxSlope P ≠ JSNum.negInf) :
    ∃ st2 m flags i1 i2 x1 y1 x2 y2,
      calculateMaxSlope st xCol yCol = .ok st2 ∧
      segmentedMaxSlope P = JSNum.fin m ∧ st2.maxSlope = some (JSNum.fin m) ∧
      (bestLine P (JSNum.fin m)).2.2 = some flags ∧
      IsFirstMinXAt (selectFlagged P flags) i1 (JSNum.fin x1, JSNum.fin y1) ∧
      IsFirstMaxXAt (selectFlagged P flags) i2 (JSNum.fin x2, JSNum.fin y2) ∧
      st2.originalSlopePointOne = some (JSNum.fin x1, JSNum.fin y1) ∧
      st2.originalSlopePointTwo = some (JSNum.fin x2, JSNum.fin y2) ∧
      st2.linePoints = some
        ((JSNum.fin (x1 - (x2 - x1) * (1 / 2)),
          JSNum.fin (m * (x1 - (x2 - x1) * (1 / 2)) + (y1 - m * x1))),
         (JSNum.fin (x2 + (x2 - x1) * (1 / 2)),
          JSNum.fin (m * (x2 + (x2 - x1) * (1 / 2)) + (y1 - m * x1)))) ∧
      m * x1 + (y1 - m * x1) = y1 ∧
      (x2 + (x2 - x1) * (1 / 2)) - (x1 - (x2 - x1) * (1 / 2)) = 2 * (x2 - x1) ∧
      (m * (x2 + (x2 - x1) * (1 / 2)) + (y1 - m * x1))
          - (m * (x1 - (x2 - x1) * (1 / 2)) + (y1 - m * x1))
        = m * ((x2 + (x2 - x1) * (1 / 2)) - (x1 - (x2 - x1) * (1 / 2))) := by
  have hf := segmentedMaxSlope_found (df.get xCol) (df.get yCol) (by rw [← hP]; exact hfound)
  rw [← hP] at hf
  obtain ⟨r, _, hlen, hfin, hm0⟩ := hf
  obtain ⟨m, hmdef⟩ : ∃ m, m = olsSlope (segmentOf P r) := ⟨_, rfl⟩
  have hm : segmentedMaxSlope P = JSNum.fin m := by rw [hmdef]; exact hm0
  -- a finite point among the candidates
  obtain ⟨p0, hp0⟩ : ∃ p0, p0 ∈ segmentOf P r := by
    apply List.exists_mem_of_length_pos
    omega
  have hp0P : p0 ∈ P := (List.mem_filter.1 hp0).1
  have hp0e : p0 = (JSNum.fin p0.1.toRat, JSNum.fin p0.2.toRat) :=
    Prod.ext (JSNum.eq_fin_of_isFinite _ (hfin p0 hp0).1)
      (JSNum.eq_fin_of_isFinite _ (hfin p0 hp0).2)
  rw [hp0e] at hp0P
  obtain ⟨i, q, _, hbest, hpos, _, _⟩ := bestLine_found P m p0.1.toRat p0.2.toRat hp0P
  obtain ⟨flags, hfl⟩ : ∃ flags,
      flags = onLineFlags P (JSNum.fin m) (candidateOffset (JSNum.fin m) q) := ⟨_, rfl⟩
  have hflags : (bestLine P (JSNum.fin m)).2.2 = some flags := by rw [hbest, hfl]
  have hsel : selectFlagged P flags
      = P.filter (isInlier (JSNum.fin m) (candidateOffset (JSNum.fin m) q)) := by
    rw [hfl]; exact selectFlagged_onLineFlags P _ _
  have hlpne : selectFlagged P flags ≠ [] := by
    rw [hsel]
    exact List.length_pos.1 hpos
  have hmem : ∀ p ∈ selectFlagged P flags, p.1.isFinite = true ∧ p.2.isFinite = true := by
    intro p hp
    rw [hsel, List.mem_filter] at hp
    have hx : p.1.isFinite = true :=
      mem_sortByX_window_finite (df.get xCol) (df.get yCol) p (by rw [← hP]; exact hp.1)
    refine ⟨hx, ?_⟩
    have hin := hp.2
    have hpe : p = (JSNum.fin p.1.toRat, p.2) := Prod.ext (JSNum.eq_fin_of_isFinite _ hx) rfl
    rw [hpe] at hin
    exact isInlier_finite _ _ _ _ hin
  obtain ⟨p1, p2, hmin, hmax⟩ := extremeIdx_spec _ hlpne (fun p hp => (hmem p hp).1)
  have hp1 := hmem p1 (List.getElem?_mem hmin.1)
  have hp2 := hmem p2 (List.getElem?_mem hmax.1)
  obtain ⟨x1, hx1⟩ : ∃ x1, p1.1 = JSNum.fin x1 := ⟨_, JSNum.eq_fin_of_isFinite _ hp1.1⟩
  obtain ⟨y1, hy1⟩ : ∃ y1, p1.2 = JSNum.fin y1 := ⟨_, JSNum.eq_fin_of_isFinite _ hp1.2⟩
  obtain ⟨x2, hx2⟩ : ∃ x2, p2.1 = JSNum.fin x2 := ⟨_, JSNum.eq_fin_of_isFinite _ hp2.1⟩
  obtain ⟨y2, hy2⟩ : ∃ y2, p2.2 = JSNum.fin y2 := ⟨_, JSNum.eq_fin_of_isFinite _ hp2.2⟩
  have e1 : p1 = (JSNum.fin x1, JSNum.fin y1) := Prod.ext hx1 hy1
  have e2 : p2 = (JSNum.fin x2, JSNum.fin y2) := Prod.ext hx2 hy2
  subst e1; subst e2
  have hres := calculateMaxSlope_found_eq st df xCol yCol flags (JSNum.fin x1, JSNum.fin y1)
    (JSNum.fin x2, JSNum.fin y2) hdf (by rw [← hP]; exact hfound)
    (by rw [← hP, hm]; exact hflags) (by rw [← hP]; exact hmin.1) (by rw [← hP]; exact hmax.1)
  rw [← hP, hm] at hres
  simp only [JSNum.sub_fin, JSNum.mul_fin, JSNum.add_fin] at hres
  exact ⟨_, m, flags, _, _, x1, y1, x2, y2, hres, hm, rfl, hflags, hmin, hmax, rfl, rfl, rfl,
    by ring, by ring, by ring⟩

/-- Witness for C11: the sample dataset, whose best-supported line of slope `100` runs
through `(0.02, 1)` and `(0.03, 2)`. -/
theorem calculateMaxSlope_line_witness :
    sampleProcessed.originalDf = some sampleDataset ∧
    samplePoints = sortByX (windowPoints (sampleDataset.get Column.display1)
      (sampleDataset.get Column.load1)) ∧
    segmentedMaxSlope samplePoints ≠ JSNum.negInf ∧
    ∃ st2 m flags i1 i2 x1 y1 x2 y2,
      calculateMaxSlope sampleProcessed Column.display1 Column.load1 = .ok st2 ∧
      segmentedMaxSlope samplePoints = JSNum.fin m ∧ st2.maxSlope = some (JSNum.fin m) ∧
      (bestLine samplePoints (JSNum.fin m)).2.2 = some flags ∧
      IsFirstMinXAt (selectFlagged samplePoints flags) i1 (JSNum.fin x1, JSNum.fin y1) ∧
      IsFirstMaxXAt (selectFlagged samplePoints flags) i2 (JSNum.fin x2, JSNum.fin y2) ∧
      st2.originalSlopePointOne = some (JSNum.fin x1, JSNum.fin y1) ∧
      st2.originalSlopePointTwo = some (JSNum.fin x2, JSNum.fin y2) ∧
      st2.linePoints = some
        ((JSNum.fin (x1 - (x2 - x1) * (1 / 2)),
          JSNum.fin (m * (x1 - (x2 - x1) * (1 / 2)) + (y1 - m * x1))),
         (JSNum.fin (x2 + (x2 - x1) * (1 / 2)),
          JSNum.fin (m * (x2 + (x2 - x1) * (1 / 2)) + (y1 - m * x1)))) ∧
      m * x1 + (y1 - m * x1) = y1 ∧
      (x2 + (x2 - x1) * (1 / 2)) - (x1 - (x2 - x1) * (1 / 2)) = 2 * (x2 - x1) ∧
      (m * (x2 + (x2 - x1) * (1 / 2)) + (y1 - m * x1))
          - (m * (x1 - (x2 - x1) * (1 / 2)) + (y1 - m * x1))
        = m * ((x2 + (x2 - x1) * (1 / 2)) - (x1 - (x2 - x1) * (1 / 2))) :=
  ⟨rfl, rfl, by decide!,
    calculateMaxSlope_line sampleProcessed sampleDataset Column.display1 Column.load1
      samplePoints rfl rfl (by decide!)⟩

/-! ## Area under the curve (`calculateAreaUnderCurve`) -/

theorem addToGroups_keys (k : FixedKey) (x y : JSNum) (G : List Group) :
    (addToGroups k x y G).map (fun g => g.1)
      = if k ∈ G.map (fun g => g.1) then G.map (fun g => g.1)
        else G.map (fun g => g.1) ++ [k] := by
  induction G with
  | nil => simp [addToGroups]
  | cons g gs ih =>
    simp only [addToGroups]
    by_cases h : g.1 = k
    · simp [h]
    · have h2 : ¬ k = g.1 := fun e => h e.symm
      simp only [h, if_false, List.map_cons, ih, List.mem_cons, h2, false_or]
      split <;> simp

theorem mem_addToGroups (k : FixedKey) (x y : JSNum) (G : List Group) (g2 : Group)
    (hnd : (G.map (fun g => g.1)).Nodup) (h : g2 ∈ addToGroups k x y G) :
    (g2 ∈ G ∧ g2.1 ≠ k) ∨
    (∃ g ∈ G, g.1 = k ∧ g2 = (g.1, g.2.1, g.2.2 ++ [y])) ∨
    (k ∉ G.map (fun g => g.1) ∧ g2 = (k, x, [y])) := by
  induction G with
  | nil =>
    simp only [addToGroups, List.mem_singleton] at h
    right; right
    exact ⟨by simp, h⟩
  | cons g gs ih =>
    rw [List.map_cons, List.nodup_cons] at hnd
    simp only [addToGroups] at h
    by_cases hk : g.1 = k
    · rw [if_pos hk] at h
      rcases List.mem_cons.1 h with e | h2
      · right; left
        exact ⟨g, by simp, hk, e⟩
      · left
        refine ⟨List.mem_cons_of_mem _ h2, ?_⟩
        intro e
        apply hnd.1
        rw [hk, ← e]
        exact List.mem_map_of_mem _ h2
    · rw [if_neg hk] at h
      rcases List.mem_cons.1 h with e | h2
      · left
        rw [e]
        exact ⟨by simp, hk⟩
      · rcases ih hnd.2 h2 with ⟨a1, a2⟩ | ⟨g3, b1, b2, b3⟩ | ⟨c1, c2⟩
        · left; exact ⟨List.mem_cons_of_mem _ a1, a2⟩
        · right; left; exact ⟨g3, List.mem_cons_of_mem _ b1, b2, b3⟩
        · right; right
          refine ⟨?_, c2⟩
          rw [List.map_cons, List.mem_cons]
          rintro (e | e)
          · exact hk e.symm
          · exact c1 e

theorem groupYs_append (l : List Pt) (x y : JSNum) (k : FixedKey) :
    groupYs (l ++ [(x, y)]) k
      = if toFixed10 x = k then groupYs l k ++ [y] else groupYs l k := by
  unfold groupYs
  rw [List.filter_append]
  by_cases h : toFixed10 x = k
  · simp [h]
  · simp [h]

theorem groupX_append (l : List Pt) (x y : JSNum) (k : FixedKey) :
    groupX (l ++ [(x, y)]) k
      = if (l.filter (fun p => decide (toFixed10 p.1 = k))) = [] then
          (if toFixed10 x = k then some x else none)
        else groupX l k := by
  unfold groupX
  rw [List.filter_append]
  cases hf : l.filter (fun p => decide (toFixed10 p.1 = k)) with
  | nil =>
    by_cases h : toFixed10 x = k
    · simp [h]
    · simp [h]
  | cons a t => simp

/-- One turn of the grouping loop keeps the grouping property. -/
theorem addToGroups_grouping (G : List Group) (l : List Pt) (x y : JSNum)
    (h : IsGrouping G l) :
    IsGrouping (addToGroups (toFixed10 x) x y G) (l ++ [(x, y)]) := by
  obtain ⟨hnd, hcov, hg⟩ := h
  refine ⟨?_, ?_, ?_⟩
  · rw [addToGroups_keys]
    split
    · exact hnd
    · rename_i hk
      rw [List.nodup_append]
      refine ⟨hnd, by simp, ?_⟩
      intro a ha hb
      rw [List.mem_singleton] at hb
      exact hk (hb ▸ ha)
  · intro p hp
    rw [addToGroups_keys]
    rcases List.mem_append.1 hp with h1 | h1
    · split
      · exact hcov p h1
      · exact List.mem_append_left _ (hcov p h1)
    · rw [List.mem_singleton] at h1
      rw [h1]
      split
      · assumption
      · simp
  · intro g2 hg2
    rcases mem_addToGroups _ x y G g2 hnd hg2 with ⟨a1, a2⟩ | ⟨g3, b1, b2, b3⟩ | ⟨c1, c2⟩
    · obtain ⟨e1, e2⟩ := hg g2 a1
      have hne : ¬ toFixed10 x = g2.1 := fun e => a2 e.symm
      refine ⟨by rw [groupYs_append, if_neg hne]; exact e1, ?_⟩
      rw [groupX_append, if_neg hne]
      split
      · rename_i hnil
        unfold groupX at e2
        rw [hnil] at e2
        simp at e2
      · exact e2
    · obtain ⟨e1, e2⟩ := hg g3 b1
      rw [b3]
      simp only
      have hk : toFixed10 x = g3.1 := b2.symm
      refine ⟨by rw [groupYs_append, if_pos hk, e1], ?_⟩
      rw [groupX_append]
      split
      · rename_i hnil
        unfold groupX at e2
        rw [hnil] at e2
        simp at e2
      · exact e2
    · rw [c2]
      simp only
      have hnil : l.filter (fun p => decide (toFixed10 p.1 = toFixed10 x)) = [] := by
        rw [List.filter_eq_nil_iff]
        intro p hp
        simp only [decide_eq_true_eq]
        intro e
        apply c1
        rw [← e]
        exact hcov p hp
      refine ⟨?_, ?_⟩
      · rw [groupYs_append, if_pos rfl]
        unfold groupYs
        rw [hnil]
        rfl
      · rw [groupX_append, if_pos hnil, if_pos rfl]

theorem foldl_addToGroups_grouping (rest pre : List Pt) (G : List Group)
    (h : IsGrouping G pre) :
    IsGrouping
      (rest.foldl (fun groups p => addToGroups (toFixed10 p.1) p.1 p.2 groups) G)
      (pre ++ rest) := by
  induction rest generalizing pre G with
  | nil => simpa using h
  | cons p rest ih =>
    rw [List.foldl_cons]
    have := ih (pre ++ [p]) _ (addToGroups_grouping G pre p.1 p.2 h)
    simpa using this

theorem groupByX_grouping (xs ys : List JSNum) :
    IsGrouping (groupByX xs ys) (xs.zip ys) := by
  have := foldl_addToGroups_grouping (xs.zip ys) [] []
    ⟨by simp, fun p hp => by simp at hp, fun g hg => by simp at hg⟩
  simpa [groupByX] using this

theorem trapezoidFrom_eq (pts : List Pt) (area : JSNum) :
    trapezoidFrom pts area
      = (pts.zip pts.tail).foldl
          (fun (area : JSNum) ab =>
            area.add (((ab.2.1.sub ab.1.1).mul (ab.2.2.add ab.1.2)).div (.fin 2)))
          area := by
  induction pts generalizing area with
  | nil => rfl
  | cons a rest ih =>
    cases rest with
    | nil => rfl
    | cons b rest =>
      simp only [trapezoidFrom, List.tail_cons, List.zip_cons_cons, List.foldl_cons]
      rw [ih]
      rfl

theorem foldl_pairs_fin (pairs : List (Pt × Pt)) (c : ℚ)
    (h : ∀ ab ∈ pairs, (ab.1.1.isFinite = true ∧ ab.1.2.isFinite = true) ∧
      (ab.2.1.isFinite = true ∧ ab.2.2.isFinite = true)) :
    pairs.foldl
        (fun (area : JSNum) ab =>
          area.add (((ab.2.1.sub ab.1.1).mul (ab.2.2.add ab.1.2)).div (.fin 2)))
        (JSNum.fin c)
      = JSNum.fin (c + (pairs.map
          (fun ab => (ab.2.1.toRat - ab.1.1.toRat) * (ab.2.2.toRat + ab.1.2.toRat) / 2)).sum) := by
  induction pairs generalizing c with
  | nil => simp
  | cons ab pairs ih =>
    obtain ⟨⟨h1, h2⟩, h3, h4⟩ := h ab (by simp)
    rw [List.foldl_cons]
    have e : ((ab.2.1.sub ab.1.1).mul (ab.2.2.add ab.1.2)).div (.fin 2)
        = JSNum.fin ((ab.2.1.toRat - ab.1.1.toRat) * (ab.2.2.toRat + ab.1.2.toRat) / 2) := by
      conv_lhs =>
        rw [JSNum.eq_fin_of_isFinite _ h1, JSNum.eq_fin_of_isFinite _ h2,
          JSNum.eq_fin_of_isFinite _ h3, JSNum.eq_fin_of_isFinite _ h4]
      simp only [JSNum.sub_fin, JSNum.add_fin, JSNum.mul_fin, JSNum.toRat]
      rw [JSNum.div_fin _ _ (by norm_num)]
    rw [e, JSNum.add_fin, ih _ (fun x hx => h x (List.mem_cons_of_mem _ hx)),
      List.map_cons, List.sum_cons, add_assoc]

theorem trapezoidPairs_fin (pts : List Pt)
    (h : ∀ p ∈ pts, p.1.isFinite = true ∧ p.2.isFinite = true) :
    trapezoidPairs pts = JSNum.fin (trapezoidSum pts) := by
  unfold trapezoidPairs trapezoidSum
  rw [foldl_pairs_fin _ 0, zero_add]
  intro ab hab
  have := List.of_mem_zip hab
  exact ⟨h _ this.1, h _ (List.mem_of_mem_tail this.2)⟩

theorem foldl_add_nums_fin (ys : List JSNum) (c : ℚ) (h : ∀ v ∈ ys, v.isFinite = true) :
    ys.foldl (fun (a : JSNum) b => a.add b) (JSNum.fin c)
      = JSNum.fin (c + (ys.map (fun v => v.toRat)).sum) := by
  induction ys generalizing c with
  | nil => simp
  | cons v ys ih =>
    rw [List.foldl_cons]
    conv_lhs => rw [JSNum.eq_fin_of_isFinite v (h v (by simp))]
    rw [JSNum.add_fin, ih _ (fun w hw => h w (List.mem_cons_of_mem _ hw)), List.map_cons,
      List.sum_cons, add_assoc]

theorem meanY_fin (ys : List JSNum) (hne : ys ≠ []) (h : ∀ v ∈ ys, v.isFinite = true) :
    meanY ys = JSNum.fin (meanQ ys) := by
  unfold meanY meanQ
  rw [foldl_add_nums_fin ys 0 h, zero_add, JSNum.div_fin]
  have : 0 < ys.length := List.length_pos.2 hne
  exact_mod_cast this.ne'

theorem grouping_member (G : List Group) (samples : List Pt) (g : Group)
    (h : IsGrouping G samples) (hg : g ∈ G) :
    g.2.2 ≠ [] ∧ (∃ p ∈ samples, p.1 = g.2.1) ∧ ∀ v ∈ g.2.2, ∃ p ∈ samples, p.2 = v := by
  obtain ⟨e1, e2⟩ := h.2.2 g hg
  unfold groupX at e2
  cases hf : samples.filter (fun p => decide (toFixed10 p.1 = g.1)) with
  | nil => rw [hf] at e2; simp at e2
  | cons a t =>
    rw [hf] at e2
    simp only [List.head?_cons, Option.map_some', Option.some.injEq] at e2
    have ha : a ∈ samples := by
      have : a ∈ samples.filter (fun p => decide (toFixed10 p.1 = g.1)) := by
        rw [hf]; simp
      exact (List.mem_filter.1 this).1
    refine ⟨?_, ⟨a, ha, e2⟩, ?_⟩
    · rw [e1]
      unfold groupYs
      rw [hf]
      simp
    · intro v hv
      rw [e1] at hv
      unfold groupYs at hv
      rw [List.mem_map] at hv
      obtain ⟨p, hp, rfl⟩ := hv
      exact ⟨p, (List.mem_filter.1 hp).1, rfl⟩

theorem sortedGroups_finite (xs ys : List JSNum)
    (hfin : ∀ p ∈ xs.zip ys, p.1.isFinite = true ∧ p.2.isFinite = true) :
    (∀ g ∈ groupByX xs ys, g.2.1.isFinite = true ∧ meanY g.2.2 = JSNum.fin (meanQ g.2.2)) ∧
    ∀ p ∈ sortedGroups xs ys, p.1.isFinite = true ∧ p.2.isFinite = true := by
  have hG := groupByX_grouping xs ys
  have h1 : ∀ g ∈ groupByX xs ys,
      g.2.1.isFinite = true ∧ meanY g.2.2 = JSNum.fin (meanQ g.2.2) := by
    intro g hg
    obtain ⟨hne, ⟨p, hp, hx⟩, hys⟩ := grouping_member _ _ g hG hg
    refine ⟨by rw [← hx]; exact (hfin p hp).1, ?_⟩
    apply meanY_fin _ hne
    intro v hv
    obtain ⟨p2, hp2, e⟩ := hys v hv
    rw [← e]; exact (hfin p2 hp2).2
  refine ⟨h1, ?_⟩
  intro p hp
  unfold sortedGroups at hp
  rw [(sortByX_perm _).mem_iff, List.mem_map] at hp
  obtain ⟨g, hg, rfl⟩ := hp
  obtain ⟨a, b⟩ := h1 g hg
  exact ⟨a, by simp only [b]; rfl⟩

/-- C12: `calculateAreaUnderCurve` completes; the groups it builds group the samples by
the key of their X at ten decimals (`toFixed(10)`), each with the Y samples of its
members; the points it integrates are the groups, each with its first X and the mean of
its Y samples, rearranged by the sort; `areaUnderCurve` is the trapezoidal sum over
consecutive points of that list; at most one sample gives area `0`; for finite samples
the list is ascending in X, the means are the arithmetic means, and the area is the
rational sum `Sum (x[i]-x[i-1])*(y[i]+y[i-1])/2`; and the curve `(0,0), (1,2), (2,0)`
gives area `2`. -/
theorem calculateAreaUnderCurve_trapezoid (st : DataProcessor) (df : Dataset)
    (xCol yCol : Column) (hdf : st.originalDf = some df) :
    ∃ st2, calculateAreaUnderCurve st xCol yCol = .ok st2 ∧
      IsGrouping (groupByX (df.get xCol) (df.get yCol)) ((df.get xCol).zip (df.get yCol)) ∧
      (sortedGroups (df.get xCol) (df.get yCol)).Perm
        ((groupByX (df.get xCol) (df.get yCol)).map (fun g => (g.2.1, meanY g.2.2))) ∧
      st2.areaUnderCurve = some (trapezoidPairs (sortedGroups (df.get xCol) (df.get yCol))) ∧
      (((df.get xCol).zip (df.get yCol)).length ≤ 1 →
        st2.areaUnderCurve = some (JSNum.fin 0)) ∧
      ((∀ p ∈ (df.get xCol).zip (df.get yCol), p.1.isFinite = true ∧ p.2.isFinite = true) →
        (sortedGroups (df.get xCol) (df.get yCol)).Pairwise
          (fun a b => a.1.toRat ≤ b.1.toRat) ∧
        (∀ g ∈ groupByX (df.get xCol) (df.get yCol),
          meanY g.2.2 = JSNum.fin (meanQ g.2.2)) ∧
        st2.areaUnderCurve
          = some (JSNum.fin (trapezoidSum (sortedGroups (df.get xCol) (df.get yCol))))) ∧
      (calculateAreaUnderCurve exampleCurve Column.display1 Column.load1).toOption.bind
        (fun s => s.areaUnderCurve) = some (JSNum.fin 2) := by
  have harea : trapezoidFrom (sortedGroups (df.get xCol) (df.get yCol)) (JSNum.fin 0)
      = trapezoidPairs (sortedGroups (df.get xCol) (df.get yCol)) := trapezoidFrom_eq _ _
  refine ⟨{ st with
      areaUnderCurve :=
        some (trapezoidFrom (sortedGroups (df.get xCol) (df.get yCol)) (.fin 0)) }, ?_,
    groupByX_grouping _ _, sortByX_perm _, ?_, ?_, ?_, by decide!⟩
  · unfold calculateAreaUnderCurve
    rw [hdf]
  · simp only [harea]
  · intro hlen
    simp only
    cases hz : (df.get xCol).zip (df.get yCol) with
    | nil => simp [sortedGroups, groupByX, hz, sortByX, trapezoidFrom]
    | cons p t =>
      cases t with
      | nil =>
        simp [sortedGroups, groupByX, hz, addToGroups, sortByX, insertByX, trapezoidFrom]
      | cons p2 t2 =>
        rw [hz] at hlen
        simp at hlen
  · intro hfin
    obtain ⟨h1, h2⟩ := sortedGroups_finite _ _ hfin
    refine ⟨?_, fun g hg => (h1 g hg).2, ?_⟩
    · unfold sortedGroups
      apply sortByX_sorted
      intro q hq
      rw [List.mem_map] at hq
      obtain ⟨g, hg, rfl⟩ := hq
      exact (h1 g hg).1
    · simp only [harea, trapezoidPairs_fin _ h2]

/-- Witness for C12: the sample dataset, whose area is `0.0245`. -/
theorem calculateAreaUnderCurve_trapezoid_witness :
    sampleProcessed.originalDf = some sampleDataset ∧
    ∃ st2, calculateAreaUnderCurve sampleProcessed Column.display1 Column.load1 = .ok st2 ∧
      st2.areaUnderCurve = some (JSNum.fin (49 / 2000)) := by
  refine ⟨rfl, ?_⟩
  obtain ⟨st2, hok, _, _, _, _, hfin, _⟩ :=
    calculateAreaUnderCurve_trapezoid sampleProcessed sampleDataset Column.display1
      Column.load1 rfl
  refine ⟨st2, hok, ?_⟩
  rw [(hfin (by decide!)).2.2]
  decide!

/-! ## Reset of the interactive state (`resetData`) -/

/-- What a successful `setColumns` leaves in the editable fields: copies of the computed
slope points and of `maxSlope`. -/
theorem setColumns_custom_fields (st s0 : DataProcessor) (xCol yCol : Column)
    (hok : setColumns st xCol yCol = .ok s0) :
    ∃ p1 p2, s0.originalSlopePointOne = some p1 ∧ s0.originalSlopePointTwo = some p2 ∧
      s0.customSlopePointOne = some p1 ∧ s0.customSlopePointTwo = some p2 ∧
      s0.customSlope = s0.maxSlope ∧
      s0.yieldDisplacement = s0.originalYieldDisplacement ∧
      s0.yieldStrength = s0.originalYieldStrength := by
  unfold setColumns at hok
  split at hok
  · cases hok
  · split at hok
    · cases hok
    · split at hok
      · cases hok
      · rename_i s2 _
        split at hok
        · rename_i p1 p2 h1 h2
          unfold calculateAreaUnderCurve at hok
          simp only at hok
          split at hok
          · cases hok
          · cases hok
            exact ⟨p1, p2, h1, h2, rfl, rfl, rfl, rfl, rfl⟩
        · cases hok

/-- The fields `resetData` reads are left alone by the interactive calls, which keep both
editable slope points present. -/
theorem applyEdit_keeps (s : DataProcessor) (e : PointEdit)
    (h1 : s.customSlopePointOne.isSome = true) (h2 : s.customSlopePointTwo.isSome = true) :
    ∃ s2, applyEdit s e = .ok s2 ∧
      s2.maxSlope = s.maxSlope ∧
      s2.originalSlopePointOne = s.originalSlopePointOne ∧
      s2.originalSlopePointTwo = s.originalSlopePointTwo ∧
      s2.originalYieldDisplacement = s.originalYieldDisplacement ∧
      s2.originalYieldStrength = s.originalYieldStrength ∧
      s2.customSlopePointOne.isSome = true ∧ s2.customSlopePointTwo.isSome = true := by
  cases e with
  | yieldPoint x y => exact ⟨_, rfl, rfl, rfl, rfl, rfl, rfl, h1, h2⟩
  | pointOne x y => exact ⟨_, rfl, rfl, rfl, rfl, rfl, rfl, rfl, h2⟩
  | pointTwo x y => exact ⟨_, rfl, rfl, rfl, rfl, rfl, rfl, h1, rfl⟩
  | customSlope =>
    obtain ⟨p1, hp1⟩ := Option.isSome_iff_exists.1 h1
    obtain ⟨p2, hp2⟩ := Option.isSome_iff_exists.1 h2
    refine ⟨{ s with customSlope := some ((p2.2.sub p1.2).div (p2.1.sub p1.1)) }, ?_,
      rfl, rfl, rfl, rfl, rfl, h1, h2⟩
    simp only [applyEdit, calculateCustomSlope, hp1, hp2]

theorem applyEdits_keeps (s : DataProcessor) (edits : List PointEdit)
    (h1 : s.customSlopePointOne.isSome = true) (h2 : s.customSlopePointTwo.isSome = true) :
    ∃ s2, applyEdits s edits = .ok s2 ∧
      s2.maxSlope = s.maxSlope ∧
      s2.originalSlopePointOne = s.originalSlopePointOne ∧
      s2.originalSlopePointTwo = s.originalSlopePointTwo ∧
      s2.originalYieldDisplacement = s.originalYieldDisplacement ∧
      s2.originalYieldStrength = s.originalYieldStrength := by
  induction edits generalizing s with
  | nil => exact ⟨s, rfl, rfl, rfl, rfl, rfl, rfl⟩
  | cons e es ih =>
    obtain ⟨s1, hs1, k1, k2, k3, k4, k5, k6, k7⟩ := applyEdit_keeps s e h1 h2
    obtain ⟨s2, hs2, j1, j2, j3, j4, j5⟩ := ih s1 k6 k7
    refine ⟨s2, ?_, j1.trans k1, j2.trans k2, j3.trans k3, j4.trans k4, j5.trans k5⟩
    simp only [applyEdits, hs1, hs2]

/-- C13: after a successful `setColumns` call followed by any finite sequence of
`setYieldPoint`, `setCustomSlopePointOne`, `setCustomSlopePointTwo` and
`calculateCustomSlope` calls (none of which raises), `resetData` completes and restores
`customSlopePointOne`, `customSlopePointTwo`, `yieldDisplacement`, `yieldStrength` and
`customSlope` to the values they had immediately after that `setColumns` call. -/
theorem resetData_restores (st s0 : DataProcessor) (xCol yCol : Column)
    (edits : List PointEdit) (hok : setColumns st xCol yCol = .ok s0) :
    ∃ s1 s2, applyEdits s0 edits = .ok s1 ∧ resetData s1 = .ok s2 ∧
      s2.customSlopePointOne = s0.customSlopePointOne ∧
      s2.customSlopePointTwo = s0.customSlopePointTwo ∧
      s2.yieldDisplacement = s0.yieldDisplacement ∧
      s2.yieldStrength = s0.yieldStrength ∧
      s2.customSlope = s0.customSlope := by
  obtain ⟨p1, p2, o1, o2, c1, c2, c3, c4, c5⟩ := setColumns_custom_fields st s0 xCol yCol hok
  obtain ⟨s1, hs1, j1, j2, j3, j4, j5⟩ := applyEdits_keeps s0 edits
    (by rw [c1]; rfl) (by rw [c2]; rfl)
  have r1 : s1.originalSlopePointOne = some p1 := j2.trans o1
  have r2 : s1.originalSlopePointTwo = some p2 := j3.trans o2
  refine ⟨s1, { s1 with
      customSlope := s1.maxSlope
      customSlopePointOne := some p1
      customSlopePointTwo := some p2
      yieldDisplacement := s1.originalYieldDisplacement
      yieldStrength := s1.originalYieldStrength }, hs1, ?_, c1.symm, c2.symm, ?_, ?_, ?_⟩
  · simp only [resetData, r1, r2]
  · exact j4.trans c4.symm
  · exact j5.trans c5.symm
  · exact j1.trans c3.symm

/-- Witness for C13: the sample file, edited four times and then reset. -/
theorem resetData_restores_witness :
    ∃ s0, setColumns sampleProcessor Column.display1 Column.load1 = .ok s0 ∧
      ∃ s1 s2,
        applyEdits s0 [PointEdit.yieldPoint (JSNum.fin 1) (JSNum.fin 2),
          PointEdit.pointOne (JSNum.fin 3) (JSNum.fin 4),
          PointEdit.pointTwo (JSNum.fin 3) (JSNum.fin 5), PointEdit.customSlope] = .ok s1 ∧
        resetData s1 = .ok s2 ∧
        s2.customSlopePointOne = s0.customSlopePointOne ∧
        s2.customSlopePointTwo = s0.customSlopePointTwo ∧
        s2.yieldDisplacement = s0.yieldDisplacement ∧
        s2.yieldStrength = s0.yieldStrength ∧
        s2.customSlope = s0.customSlope := by
  obtain ⟨s0, hok⟩ := exists_ok_of_isSome
    (setColumns sampleProcessor Column.display1 Column.load1) (by decide!)
  exact ⟨s0, hok, resetData_restores sampleProcessor s0 Column.display1 Column.load1 _ hok⟩

/-! ## The yield-point seed (`setColumns`, source lines 137 to 146) -/

theorem jsLt_nan_left (b : JSNum) : JSNum.nan.lt b = false := by
  cases b <;> rfl

theorem findMinAux_spec (l : List JSNum) (k mi : Nat) (mv : JSNum) (hmv : mv.isNaN = false) :
    (findMinAux l k mi mv).2.isNaN = false ∧
    mv.lt (findMinAux l k mi mv).2 = false ∧
    (∀ v ∈ l, v.lt (findMinAux l k mi mv).2 = false) ∧
    (findMinAux l k mi mv = (mi, mv) ∨
      (k ≤ (findMinAux l k mi mv).1 ∧
        l[(findMinAux l k mi mv).1 - k]? = some (findMinAux l k mi mv).2 ∧
        (findMinAux l k mi mv).2.lt mv = true ∧
        ∀ j w, j < (findMinAux l k mi mv).1 - k → l[j]? = some w →
          w ≠ (findMinAux l k mi mv).2)) := by
  induction l generalizing k mi mv with
  | nil =>
    refine ⟨hmv, jsLt_irrefl mv, ?_, Or.inl rfl⟩
    intro v hv
    simp at hv
  | cons v l ih =>
    simp only [findMinAux]
    by_cases h : v.lt mv = true
    · rw [if_pos h]
      have hv : v.isNaN = false := jsLt_isNaN_left _ _ h
      obtain ⟨r1, r2, r3, r4⟩ := ih (k + 1) k v hv
      have hrmv : (findMinAux l (k + 1) k v).2.lt mv = true :=
        jsLt_of_not_gt_of_lt _ _ _ r1 hv r2 h
      refine ⟨r1, jsLt_asymm _ _ hrmv, ?_, Or.inr ?_⟩
      · intro w hw
        rcases List.mem_cons.1 hw with e | hw2
        · rw [e]; exact r2
        · exact r3 w hw2
      · rcases r4 with e | ⟨q1, q2, qlt, q3⟩
        · rw [e]
          refine ⟨le_refl _, by simp, h, ?_⟩
          intro j w hj
          simp at hj
        · refine ⟨by omega, ?_, hrmv, ?_⟩
          · have e2 : (findMinAux l (k + 1) k v).1 - k
                = ((findMinAux l (k + 1) k v).1 - (k + 1)) + 1 := by omega
            rw [e2, List.getElem?_cons_succ]
            exact q2
          · intro j w hj hw
            cases j with
            | zero =>
              simp only [List.getElem?_cons_zero, Option.some.injEq] at hw
              rw [← hw]
              intro e3
              rw [← e3, jsLt_irrefl] at qlt
              cases qlt
            | succ j =>
              rw [List.getElem?_cons_succ] at hw
              exact q3 j w (by omega) hw
    · rw [if_neg h]
      have h2 : v.lt mv = false := by simpa using h
      obtain ⟨r1, r2, r3, r4⟩ := ih (k + 1) mi mv hmv
      refine ⟨r1, r2, ?_, ?_⟩
      · intro w hw
        rcases List.mem_cons.1 hw with e | hw2
        · rw [e]; exact jsNotGt_trans _ _ _ hmv r2 h2
        · exact r3 w hw2
      · rcases r4 with e | ⟨q1, q2, qlt, q3⟩
        · left; exact e
        · right
          refine ⟨by omega, ?_, qlt, ?_⟩
          · have e2 : (findMinAux l (k + 1) mi mv).1 - k
                = ((findMinAux l (k + 1) mi mv).1 - (k + 1)) + 1 := by omega
            rw [e2, List.getElem?_cons_succ]
            exact q2
          · intro j w hj hw
            cases j with
            | zero =>
              simp only [List.getElem?_cons_zero, Option.some.injEq] at hw
              rw [← hw]
              intro e3
              rw [e3, qlt] at h2
              cases h2
            | succ j =>
              rw [List.getElem?_cons_succ] at hw
              exact q3 j w (by omega) hw

theorem jsLt_posInf_false (v : JSNum) (h : v.lt JSNum.posInf = false) :
    v = JSNum.posInf ∨ v = JSNum.nan := by
  cases v <;> simp_all [JSNum.lt]

theorem findMin_isFirstMinAt (xs : List JSNum) (hne : xs ≠ []) :
    ∃ m, xs[(findMin xs).1]? = some m ∧ IsFirstMinAt xs (findMin xs).1 m := by
  obtain ⟨_, _, r3, r4⟩ := findMinAux_spec xs 0 0 .posInf rfl
  rcases r4 with e | ⟨_, q2, _, q3⟩
  · have e2 : findMin xs = (0, JSNum.posInf) := e
    obtain ⟨x0, t, rfl⟩ := List.exists_cons_of_ne_nil hne
    have hall : ∀ v ∈ x0 :: t, v = JSNum.posInf ∨ v = JSNum.nan := by
      intro v hv
      have := r3 v hv
      rw [e] at this
      exact jsLt_posInf_false v this
    rw [e2]
    refine ⟨x0, by simp, by simp, ?_, ?_⟩
    · intro v hv
      rcases hall v hv with e3 | e3 <;> rcases hall x0 (by simp) with e4 | e4 <;>
        rw [e3, e4] <;> rfl
    · intro j hj
      simp at hj
  · refine ⟨(findMin xs).2, by simpa using q2, by simpa using q2, fun v hv => r3 v hv, ?_⟩
    intro j hj hw
    exact q3 j _ (by simpa using hj) hw rfl

/-- The yield point `setColumns` seeds.  For a non-empty parsed dataset `processData`
succeeds and, in the normalised and truncated dataset, the X column has a minimum `m` (no
X sample is less than it) whose first index `i` holds the Y sample `s`; every `setColumns`
call that completes seeds `yieldDisplacement` and `originalYieldDisplacement` with `m`, and
`yieldStrength` and `originalYieldStrength` with `s`; and the call completes whenever the
loop over the sub-ranges gives a slope. -/
theorem setColumns_seeds_yield (st : DataProcessor) (first : JSString)
    (rest : List JSString) (xCol yCol : Column)
    (hraw : st.rawData = some (first :: rest)) (hne : parseRows (first :: rest) ≠ []) :
    ∃ df i m s, processData st xCol yCol = .ok { st with originalDf := some df } ∧
      IsFirstMinAt (df.get xCol) i m ∧ (df.get yCol)[i]? = some s ∧
      (∀ st2, setColumns st xCol yCol = .ok st2 →
        st2.originalDf = some df ∧
        st2.yieldDisplacement = some m ∧ st2.originalYieldDisplacement = some m ∧
        st2.yieldStrength = some s ∧ st2.originalYieldStrength = some s) ∧
      (segmentedMaxSlope (sortByX (windowPoints (df.get xCol) (df.get yCol)))
          ≠ JSNum.negInf → ∃ st2, setColumns st xCol yCol = .ok st2) := by
  obtain ⟨row, rows, hrows⟩ := List.exists_cons_of_ne_nil hne
  have hpos := processed_length_pos row rows xCol yCol xCol
  rw [← hrows] at hpos
  have hxne : (truncateAfterDrop (normalizeColumns (parseRows (first :: rest)) xCol yCol)
      yCol).get xCol ≠ [] := List.length_pos.1 hpos
  obtain ⟨m, hm, hmin⟩ := findMin_isFirstMinAt _ hxne
  have hlen : ((truncateAfterDrop (normalizeColumns (parseRows (first :: rest)) xCol yCol)
      yCol).get yCol).length
      = ((truncateAfterDrop (normalizeColumns (parseRows (first :: rest)) xCol yCol)
        yCol).get xCol).length := by
    rw [processed_column, processed_column, List.length_take, List.length_take,
      List.length_map, List.length_map]
  have hi : (findMin ((truncateAfterDrop (normalizeColumns (parseRows (first :: rest))
      xCol yCol) yCol).get xCol)).1
      < ((truncateAfterDrop (normalizeColumns (parseRows (first :: rest)) xCol yCol)
        yCol).get yCol).length := by
    rw [hlen]
    by_contra hcon
    rw [List.getElem?_eq_none (by omega)] at hm
    cases hm
  refine ⟨_, _, m, _, processData_ok st first rest xCol yCol hraw, hmin,
    List.getElem?_eq_getElem hi, ?_,
    setColumns_completes_when_found st first rest xCol yCol hraw⟩
  intro st2 hok
  obtain ⟨f1, _, _, f4, f5, f6, f7⟩ :=
    setColumns_fields st st2 first rest xCol yCol _ hraw rfl hok
  rw [hm] at f4
  rw [List.getElem?_eq_getElem hi] at f5
  exact ⟨f1, f6.trans f4, f4, f7.trans f5, f5⟩

/-- On the sample file the smallest displacement `0.001` is the first sample, with load
`0`, and `setColumns` seeds the yield point with it. -/
theorem setColumns_seeds_yield_witness :
    sampleProcessor.rawData = some (sampleFirst :: sampleRest) ∧
    parseRows (sampleFirst :: sampleRest) ≠ [] ∧
    ∃ st2, setColumns sampleProcessor Column.display1 Column.load1 = .ok st2 ∧
      st2.yieldDisplacement = some (JSNum.fin (1 / 1000)) ∧
      st2.originalYieldDisplacement = some (JSNum.fin (1 / 1000)) ∧
      st2.yieldStrength = some (JSNum.fin 0) ∧
      st2.originalYieldStrength = some (JSNum.fin 0) := by
  refine ⟨by decide!, by decide!, ?_⟩
  obtain ⟨st2, hok⟩ := exists_ok_of_isSome
    (setColumns sampleProcessor Column.display1 Column.load1) (by decide!)
  obtain ⟨df, i, m, s, hpd, hmin, hs, hset, _⟩ :=
    setColumns_seeds_yield sampleProcessor sampleFirst sampleRest Column.display1
      Column.load1 (by decide!) (by decide!)
  have hdf : df = sampleDataset := by
    have h2 := processData_ok sampleProcessor sampleFirst sampleRest Column.display1
      Column.load1 (by decide!)
    rw [h2] at hpd
    have h3 := congrArg (fun s : DataProcessor => s.originalDf) (Except.ok.inj hpd)
    simp only [Option.some.injEq] at h3
    exact h3.symm
  subst hdf
  obtain ⟨_, g1, g2, g3, g4⟩ := hset st2 hok
  have hx : sampleDataset.get Column.display1
      = [JSNum.fin (1 / 1000), JSNum.fin (1 / 50), JSNum.fin (3 / 100)] := by decide!
  have hy : sampleDataset.get Column.load1 = [JSNum.fin 0, JSNum.fin 1, JSNum.fin 2] := by
    decide!
  rw [hx] at hmin
  rw [hy] at hs
  -- the minimum of the three displacements is the first one
  have hi0 : i = 0 := by
    obtain ⟨a1, a2, _⟩ := hmin
    have b1 := a2 (JSNum.fin (1 / 1000)) (by simp)
    match i, a1 with
    | 0, _ => rfl
    | 1, a1 =>
      simp only [List.getElem?_cons_succ, List.getElem?_cons_zero, Option.some.injEq] at a1
      rw [← a1] at b1
      exact absurd b1 (by decide!)
    | 2, a1 =>
      simp only [List.getElem?_cons_succ, List.getElem?_cons_zero, Option.some.injEq] at a1
      rw [← a1] at b1
      exact absurd b1 (by decide!)
    | (n + 3), a1 => simp at a1
  subst hi0
  have hm0 : m = JSNum.fin (1 / 1000) := by
    have := hmin.1
    simp only [List.getElem?_cons_zero, Option.some.injEq] at this
    exact this.symm
  have hs0 : s = JSNum.fin 0 := by
    simp only [List.getElem?_cons_zero, Option.some.injEq] at hs
    exact hs.symm
  subst hm0; subst hs0
  exact ⟨st2, hok, g1, g2, g3, g4⟩

/-- C14 (failing input): a file with a single valid row gives a non-empty normalised
dataset (displacement `0.001`, load `0`), yet on a processor that has just read it
`calculateMaxSlope` leaves both slope points `null`, `setColumns` raises a `TypeError` at
the spread of `originalSlopePointOne`, before the yield point is assigned, and the yield
fields are still `null`. -/
theorem setColumns_one_row_yield_unset :
    (processFile DataProcessor.fresh (header ++ sampleFirst) "a.csv".toList).rawData.map
        parseRows
      = some [[JSNum.fin 0, JSNum.fin 0, JSNum.fin (-1 / 1000), JSNum.fin 0, JSNum.fin 5]] ∧
    ((processData (processFile DataProcessor.fresh (header ++ sampleFirst) "a.csv".toList)
        Column.display1 Column.load1).toOption.bind (fun s => s.originalDf)).map
        (fun df => (df.get Column.display1, df.get Column.load1))
      = some ([JSNum.fin (1 / 1000)], [JSNum.fin 0]) ∧
    ((processData (processFile DataProcessor.fresh (header ++ sampleFirst) "a.csv".toList)
        Column.display1 Column.load1).toOption.bind
        (fun s => (calculateMaxSlope s Column.display1 Column.load1).toOption)).map
        (fun s => [s.originalSlopePointOne, s.originalSlopePointTwo])
      = some [none, none] ∧
    ((processData (processFile DataProcessor.fresh (header ++ sampleFirst) "a.csv".toList)
        Column.display1 Column.load1).toOption.bind
        (fun s => (calculateMaxSlope s Column.display1 Column.load1).toOption)).map
        (fun s => [s.yieldDisplacement, s.yieldStrength, s.originalYieldDisplacement,
          s.originalYieldStrength])
      = some [none, none, none, none] ∧
    setColumns (processFile DataProcessor.fresh (header ++ sampleFirst) "a.csv".toList)
      Column.display1 Column.load1 = .error .typeError := by
  refine ⟨by decide!, by decide!, by decide!, by decide!, ?_⟩
  have h : (setColumns (processFile DataProcessor.fresh (header ++ sampleFirst)
      "a.csv".toList) Column.display1 Column.load1).toOption = none := by decide!
  cases hs : setColumns (processFile DataProcessor.fresh (header ++ sampleFirst)
      "a.csv".toList) Column.display1 Column.load1 with
  | error e => cases e; rfl
  | ok s => rw [hs] at h; cases h

/-! ## Dependence of the slope result on earlier results (`calculateMaxSlope`) -/

/-- When no sub-range gives a slope, `calculateMaxSlope` returns the processor unchanged:
whatever the slope fields held before, they still hold. -/
theorem calculateMaxSlope_unchanged_when_not_found (st : DataProcessor) (df : Dataset)
    (xCol yCol : Column) (hdf : st.originalDf = some df)
    (hnot : segmentedMaxSlope (sortByX (windowPoints (df.get xCol) (df.get yCol)))
      = JSNum.negInf) :
    calculateMaxSlope st xCol yCol = .ok st := by
  unfold calculateMaxSlope
  rw [hdf]
  simp only [hnot, if_true]

/-- When a sub-range gives a slope, the four slope fields after `calculateMaxSlope` are
the same for every processor holding the dataset. -/
theorem calculateMaxSlope_same_when_found (sa sb : DataProcessor) (df : Dataset)
    (xCol yCol : Column) (ha : sa.originalDf = some df) (hb : sb.originalDf = some df)
    (hfound : segmentedMaxSlope (sortByX (windowPoints (df.get xCol) (df.get yCol)))
      ≠ JSNum.negInf) :
    ∃ a2 b2, calculateMaxSlope sa xCol yCol = .ok a2 ∧
      calculateMaxSlope sb xCol yCol = .ok b2 ∧ slopeFields a2 = slopeFields b2 := by
  obtain ⟨flags, p1, p2, hflags, h1, h2⟩ := found_flags_points df xCol yCol hfound
  exact ⟨_, _, calculateMaxSlope_found_eq sa df xCol yCol flags p1 p2 ha hfound hflags h1 h2,
    calculateMaxSlope_found_eq sb df xCol yCol flags p1 p2 hb hfound hflags h1 h2, rfl⟩

/-- C15 (failing input): two processors hold the same dataset for X `Elapsed Time` and Y
`Load 1`, in which no sub-range has a sample; `calculateMaxSlope` returns early on both
and leaves the slope fields as they were, `null` on the processor without an earlier
selection and the results of `Display 1` against `Load 1` on the other. -/
theorem calculateMaxSlope_keeps_stale_results :
    freshSelection.toOption.map (fun s => s.originalDf)
      = secondSelection.toOption.map (fun s => s.originalDf) ∧
    (freshSelection.toOption.bind (fun s => s.originalDf)).map
        (fun df => ranges.map (fun r => rangeSamples df Column.elapsedTime Column.load1 r))
      = some [[], [], [], []] ∧
    (freshSelection.toOption.bind
        (fun s => (calculateMaxSlope s Column.elapsedTime Column.load1).toOption)).map
        slopeFields
      = some { maxSlope := none, pointOne := none, pointTwo := none, linePoints := none } ∧
    (secondSelection.toOption.bind
        (fun s => (calculateMaxSlope s Column.elapsedTime Column.load1).toOption)).map
        slopeFields
      = some
        { maxSlope := some (JSNum.fin 100)
          pointOne := some (JSNum.fin (1 / 50), JSNum.fin 1)
          pointTwo := some (JSNum.fin (3 / 100), JSNum.fin 2)
          linePoints := some ((JSNum.fin (3 / 200), JSNum.fin (1 / 2)),
            (JSNum.fin (7 / 200), JSNum.fin (5 / 2))) } := by
  decide!

/-! ## The inlier set of the best-supported line (`calculateMaxSlope`) -/

/-- C16: when a slope `m` is found, the windowed points `P` are the window samples in
ascending X order, and the inlier set `calculateMaxSlope` uses (from which it takes both
slope points) is `{ p in P : |p.y - (m*p.x + b)| < 0.05 }` with `b = q.y - m*q.x`, where
no point of `P` gives a candidate line with more inliers than `q` does and every point
before `q` in scan order gives strictly fewer. -/
theorem bestLine_inlier_set (st : DataProcessor) (df : Dataset) (xCol yCol : Column)
    (P : List Pt) (hdf : st.originalDf = some df)
    (hP : P = sortByX (windowPoints (df.get xCol) (df.get yCol)))
    (hfound : segmentedMaxSlope P ≠ JSNum.negInf) :
    P.Perm (windowPoints (df.get xCol) (df.get yCol)) ∧
    P.Pairwise (fun a b => a.1.toRat ≤ b.1.toRat) ∧
    ∃ st2 m i q, calculateMaxSlope st xCol yCol = .ok st2 ∧
      segmentedMaxSlope P = JSNum.fin m ∧ P[i]? = some q ∧
      (bestLine P (JSNum.fin m)).2.2
        = some (onLineFlags P (JSNum.fin m) (candidateOffset (JSNum.fin m) q)) ∧
      selectFlagged P (onLineFlags P (JSNum.fin m) (candidateOffset (JSNum.fin m) q))
        = P.filter (isInlier (JSNum.fin m) (candidateOffset (JSNum.fin m) q)) ∧
      (∀ p ∈ P, inlierCount P (JSNum.fin m) p ≤ inlierCount P (JSNum.fin m) q) ∧
      (∀ (j : Nat) (p : Pt), j < i → P[j]? = some p →
        inlierCount P (JSNum.fin m) p < inlierCount P (JSNum.fin m) q) ∧
      (∃ p1 ∈ P.filter (isInlier (JSNum.fin m) (candidateOffset (JSNum.fin m) q)),
        st2.originalSlopePointOne = some p1) ∧
      (∃ p2 ∈ P.filter (isInlier (JSNum.fin m) (candidateOffset (JSNum.fin m) q)),
        st2.originalSlopePointTwo = some p2) := by
  have hxfin : ∀ p ∈ P, p.1.isFinite = true := fun p hp =>
    mem_sortByX_window_finite (df.get xCol) (df.get yCol) p (by rw [← hP]; exact hp)
  refine ⟨by rw [hP]; exact sortByX_perm _, ?_, ?_⟩
  · rw [hP]
    exact sortByX_sorted _ (fun q hq => windowPoints_x_finite _ _ q hq)
  have hf := segmentedMaxSlope_found (df.get xCol) (df.get yCol) (by rw [← hP]; exact hfound)
  rw [← hP] at hf
  obtain ⟨r, _, hlen, hfin, hm0⟩ := hf
  obtain ⟨m, hmdef⟩ : ∃ m, m = olsSlope (segmentOf P r) := ⟨_, rfl⟩
  have hm : segmentedMaxSlope P = JSNum.fin m := by rw [hmdef]; exact hm0
  obtain ⟨p0, hp0⟩ : ∃ p0, p0 ∈ segmentOf P r := by
    apply List.exists_mem_of_length_pos
    omega
  have hp0P : p0 ∈ P := (List.mem_filter.1 hp0).1
  have hp0e : p0 = (JSNum.fin p0.1.toRat, JSNum.fin p0.2.toRat) :=
    Prod.ext (JSNum.eq_fin_of_isFinite _ (hfin p0 hp0).1)
      (JSNum.eq_fin_of_isFinite _ (hfin p0 hp0).2)
  rw [hp0e] at hp0P
  obtain ⟨i, q, hi, hbest, hpos, hfirst, hall⟩ :=
    bestLine_found P m p0.1.toRat p0.2.toRat hp0P
  have hflags : (bestLine P (JSNum.fin m)).2.2
      = some (onLineFlags P (JSNum.fin m) (candidateOffset (JSNum.fin m) q)) := by
    rw [hbest]
  have hsel := selectFlagged_onLineFlags P (JSNum.fin m) (candidateOffset (JSNum.fin m) q)
  have hlpne : selectFlagged P (onLineFlags P (JSNum.fin m)
      (candidateOffset (JSNum.fin m) q)) ≠ [] := by
    rw [hsel]
    exact List.length_pos.1 hpos
  obtain ⟨p1, p2, hmin, hmax⟩ := extremeIdx_spec _ hlpne
    (fun p hp => hxfin p (by rw [hsel] at hp; exact (List.mem_filter.1 hp).1))
  have hres := calculateMaxSlope_found_eq st df xCol yCol _ p1 p2 hdf
    (by rw [← hP]; exact hfound) (by rw [← hP, hm]; exact hflags)
    (by rw [← hP]; exact hmin.1) (by rw [← hP]; exact hmax.1)
  refine ⟨_, m, i, q, hres, hm, hi, hflags, hsel, hall, hfirst, ⟨p1, ?_, rfl⟩, ⟨p2, ?_, rfl⟩⟩
  · rw [← hsel]; exact List.getElem?_mem hmin.1
  · rw [← hsel]; exact List.getElem?_mem hmax.1

/-- Witness for C16: the sample dataset, where both windowed points lie on the line of
slope `100` through the first of them. -/
theorem bestLine_inlier_set_witness :
    sampleProcessed.originalDf = some sampleDataset ∧
    samplePoints = sortByX (windowPoints (sampleDataset.get Column.display1)
      (sampleDataset.get Column.load1)) ∧
    segmentedMaxSlope samplePoints ≠ JSNum.negInf ∧
    samplePoints = [(JSNum.fin (1 / 50), JSNum.fin 1), (JSNum.fin (3 / 100), JSNum.fin 2)] ∧
    bestLine samplePoints (JSNum.fin 100) = (some (JSNum.fin (-1)), 2, some [true, true]) ∧
    ∃ st2 m i q, calculateMaxSlope sampleProcessed Column.display1 Column.load1 = .ok st2 ∧
      segmentedMaxSlope samplePoints = JSNum.fin m ∧ samplePoints[i]? = some q ∧
      (bestLine samplePoints (JSNum.fin m)).2.2
        = some (onLineFlags samplePoints (JSNum.fin m) (candidateOffset (JSNum.fin m) q)) ∧
      (∀ p ∈ samplePoints,
        inlierCount samplePoints (JSNum.fin m) p ≤ inlierCount samplePoints (JSNum.fin m) q) ∧
      (∀ (j : Nat) (p : Pt), j < i → samplePoints[j]? = some p →
        inlierCount samplePoints (JSNum.fin m) p < inlierCount samplePoints (JSNum.fin m) q) := by
  refine ⟨rfl, rfl, by decide!, by decide!, by decide!, ?_⟩
  obtain ⟨_, _, st2, m, i, q, h1, h2, h3, h4, _, h6, h7, _, _⟩ :=
    bestLine_inlier_set sampleProcessed sampleDataset Column.display1 Column.load1
      samplePoints rfl rfl (by decide!)
  exact ⟨st2, m, i, q, h1, h2, h3, h4, h6, h7⟩

/-! ## Delimiter detection (`processData`, source line 78) -/

theorem splitOn_joinWith_sep (c : Char) (toks : List JSString)
    (h : ∀ t ∈ toks, c ∉ t) (hne : toks ≠ []) :
    splitOn c (joinWith [c] toks) = toks := by
  induction toks using joinWith.induct [c] with
  | case1 => exact absurd rfl hne
  | case2 l => simpa [joinWith] using splitOn_of_not_mem c l (h l (by simp))
  | case3 l l2 ls ih =>
    have hl := h l (by simp)
    have ih2 := ih (fun x hx => h x (List.mem_cons_of_mem _ hx)) (by simp)
    simp only [joinWith, List.append_assoc, List.cons_append, List.nil_append]
    rw [splitOn_append_sep _ _ _ hl, ih2]

theorem keptTokens_joinWith (c : Char) (idx : JSString) (fields : List JSString)
    (hlen : fields.length = 5)
    (hwf : ∀ t ∈ idx :: fields, c ∉ t ∧ trim t ≠ []) :
    keptTokens c (joinWith [c] (idx :: fields)) = fields := by
  unfold keptTokens
  rw [splitOn_joinWith_sep c (idx :: fields) (fun t ht => (hwf t ht).1) (by simp)]
  have hf : (idx :: fields).filter (fun x => trim x != []) = idx :: fields := by
    rw [List.filter_eq_self]
    intro t ht
    simpa using (hwf t ht).2
  rw [hf, List.drop_one, List.tail_cons, List.take_of_length_le (by omega)]

/-- C17 (amended): the delimiter is chosen once from the first retained line, a comma if
that line contains one and a tab otherwise, and every line is split on it; a line made of
an index token and five numeric tokens separated by that delimiter (no token blank or
containing the delimiter) is parsed into its five numeric fields and kept. -/
theorem delimiter_chosen_once (first : JSString) (rest : List JSString)
    (idx : JSString) (fields : List JSString) (hlen : fields.length = 5)
    (hwf : ∀ t ∈ idx :: fields, detectDelimiter first ∉ t ∧ trim t ≠ [])
    (hnum : ∀ t ∈ fields, (parseFloat (trim t)).isNaN = false)
    (hmem : joinWith [detectDelimiter first] (idx :: fields) ∈ first :: rest) :
    (',' ∈ first → detectDelimiter first = ',') ∧
    (',' ∉ first → detectDelimiter first = '\t') ∧
    parseRows (first :: rest)
      = ((first :: rest).map (parseRow (detectDelimiter first))).filter rowAccepted ∧
    parseRow (detectDelimiter first) (joinWith [detectDelimiter first] (idx :: fields))
      = fields.map (fun t => parseFloat (trim t)) ∧
    fields.map (fun t => parseFloat (trim t)) ∈ parseRows (first :: rest) := by
  have hrow : parseRow (detectDelimiter first)
      (joinWith [detectDelimiter first] (idx :: fields))
      = fields.map (fun t => parseFloat (trim t)) := by
    unfold parseRow
    rw [keptTokens_joinWith _ idx fields hlen hwf]
  refine ⟨fun h => by simp [detectDelimiter, h], fun h => by simp [detectDelimiter, h],
    rfl, hrow, ?_⟩
  simp only [parseRows, List.mem_filter, List.mem_map]
  refine ⟨⟨_, hmem, hrow⟩, ?_⟩
  simp only [rowAccepted, List.length_map, hlen, decide_True, Bool.true_and,
    List.all_eq_true, List.mem_map]
  rintro v ⟨t, ht, rfl⟩
  simp [hnum t ht]

/-- Witness for C17: the first line of the tab-separated sample file. -/
theorem delimiter_chosen_once_witness :
    ["0".toList, "0".toList, "-0.001".toList, "0".toList, "5".toList].length = 5 ∧
    (∀ t ∈ "1".toList :: ["0".toList, "0".toList, "-0.001".toList, "0".toList, "5".toList],
      detectDelimiter sampleFirst ∉ t ∧ trim t ≠ []) ∧
    (∀ t ∈ ["0".toList, "0".toList, "-0.001".toList, "0".toList, "5".toList],
      (parseFloat (trim t)).isNaN = false) ∧
    joinWith [detectDelimiter sampleFirst]
      ("1".toList :: ["0".toList, "0".toList, "-0.001".toList, "0".toList, "5".toList])
      ∈ sampleFirst :: sampleRest ∧
    detectDelimiter sampleFirst = '\t' ∧
    [JSNum.fin 0, JSNum.fin 0, JSNum.fin (-1 / 1000), JSNum.fin 0, JSNum.fin 5]
      ∈ parseRows (sampleFirst :: sampleRest) := by
  have h := delimiter_chosen_once sampleFirst sampleRest "1".toList
    ["0".toList, "0".toList, "-0.001".toList, "0".toList, "5".toList]
    (by decide) (by decide) (by decide!) (by decide)
  refine ⟨by decide, by decide, by decide!, by decide, h.2.1 (by decide), ?_⟩
  have e : [JSNum.fin 0, JSNum.fin 0, JSNum.fin (-1 / 1000), JSNum.fin 0, JSNum.fin 5]
      = ["0".toList, "0".toList, "-0.001".toList, "0".toList, "5".toList].map
          (fun t => parseFloat (trim t)) := by decide!
  rw [e]
  exact h.2.2.2.2

/-- C17 (counterexample): a file whose fields are separated by spaces and that contains
no comma is split on tabs, so no line has five kept tokens and no row is parsed. -/
theorem space_separated_not_parsed :
    ingestLines (header ++ "1 0 0 -0.001 0 5\n2 0 0 -0.02 -1 5".toList)
      = ["1 0 0 -0.001 0 5".toList, "2 0 0 -0.02 -1 5".toList] ∧
    ',' ∉ header ++ "1 0 0 -0.001 0 5\n2 0 0 -0.02 -1 5".toList ∧
    detectDelimiter "1 0 0 -0.001 0 5".toList = '\t' ∧
    keptTokens '\t' "1 0 0 -0.001 0 5".toList = [] ∧
    parseRows (ingestLines (header ++ "1 0 0 -0.001 0 5\n2 0 0 -0.02 -1 5".toList)) = [] := by
  decide!

end ThreePointBending
